import Mathlib

/-!
# reserve-data: the bolt-backed stat storage

A shallow embedding of `stat/storage/log_bolt.go`,
`stat/storage/analytic_bolt.go` and `settings/storage/address_bolt.go`.

* A bolt bucket is an ordered list of key/value byte strings, ascending in
  `bytes.Compare` order of the keys.  A cursor is the list of entries from its
  position onwards.  `Bucket.Put` stores the entry.  The `Put` of bolt refuses
  an empty key and a key longer than 32768 bytes: where the key comes from the
  caller (`AddAddressToSet`) these checks are modelled (`Bucket.PutChecked`);
  the 8-byte keys and the version key pass them.  Its limit on the size of a
  value (`2 ^ 31 - 2` bytes) is outside the embedding.
* `db.Update(fn)` commits the changes of `fn` when it returns no error and
  rolls them back otherwise; `db.View(fn)` only reads.
* `encoding/json` is not part of the repository: the (un)marshal functions are
  parameters of the embedding (`LogCodec`, `AnalyticCodec`); so is
  `strings.ToLower` (`toLower`).
* `uint64` values are natural numbers, subtraction and increment are taken
  modulo `2 ^ 64` as in Go.
-/

namespace ReserveData

/-! ## Byte strings and keys -/

/-- A Go `[]byte`: the list of its bytes. -/
abbrev Bytes := List Nat

/-- Go `bytes.Compare`: lexicographic comparison, result `-1`, `0` or `1`. -/
def bytesCompare : Bytes → Bytes → Int
  | [], [] => 0
  | [], _ :: _ => -1
  | _ :: _, [] => 1
  | x :: xs, y :: ys =>
    if x < y then -1 else if y < x then 1 else bytesCompare xs ys

/-- Modelled from the spec: `boltutil.Uint64ToBytes` is not among the sources;
numeric keys are the fixed-width (8 byte) big-endian encoding of the `uint64`. -/
def Uint64ToBytes (u : Nat) : Bytes :=
  [u / 2 ^ 56 % 256, u / 2 ^ 48 % 256, u / 2 ^ 40 % 256, u / 2 ^ 32 % 256,
   u / 2 ^ 24 % 256, u / 2 ^ 16 % 256, u / 2 ^ 8 % 256, u % 256]

/-- Modelled from the spec: `boltutil.BytesToUint64` is not among the sources;
it reads back the big-endian number held in the first 8 bytes. -/
def BytesToUint64 : Bytes → Nat
  | b0 :: b1 :: b2 :: b3 :: b4 :: b5 :: b6 :: b7 :: _ =>
    b0 * 2 ^ 56 + b1 * 2 ^ 48 + b2 * 2 ^ 40 + b3 * 2 ^ 32 +
      b4 * 2 ^ 24 + b5 * 2 ^ 16 + b6 * 2 ^ 8 + b7
  | _ => 0

/-- Go `a - b` on `uint64`. -/
def subU64 (a b : Nat) : Nat := (a % 2 ^ 64 + 2 ^ 64 - b % 2 ^ 64) % 2 ^ 64

/-- Go `n++` on `uint64`. -/
def incU64 (n : Nat) : Nat := (n + 1) % 2 ^ 64

/-- The `n` low base-256 digits of `u`, most significant first. -/
def beBytes : Nat → Nat → Bytes
  | 0, _ => []
  | n + 1, u => (u / 256 ^ n % 256) :: beBytes n u

/-! ## Buckets and cursors -/

/-- A bolt bucket: its entries in ascending key order. -/
abbrev Bucket := List (Bytes × Bytes)

/-- The keys of a bucket are strictly ascending in `bytes.Compare` order. -/
def Bucket.Sorted (b : Bucket) : Prop :=
  b.Pairwise (fun e f => bytesCompare e.1 f.1 < 0)

/-- `Bucket.Put`: insert at the key's place, replacing the value of an equal key. -/
def Bucket.Put : Bucket → Bytes → Bytes → Bucket
  | [], k, v => [(k, v)]
  | (k', v') :: rest, k, v =>
    if bytesCompare k k' < 0 then (k, v) :: (k', v') :: rest
    else if bytesCompare k k' = 0 then (k, v) :: rest
    else (k', v') :: Bucket.Put rest k v

/-- `Bucket.Delete`: remove the entry of the key, if any. -/
def Bucket.Delete (b : Bucket) (k : Bytes) : Bucket :=
  b.filter (fun e => bytesCompare e.1 k != 0)

/-- `Bucket.Get`: the value stored under the key, if any. -/
def Bucket.Get (b : Bucket) (k : Bytes) : Option Bytes :=
  (b.find? (fun e => bytesCompare e.1 k == 0)).map Prod.snd

/-- A cursor: the entries from its position onwards (empty: `k == nil`). -/
abbrev Cursor := List (Bytes × Bytes)

/-- `Cursor.First`: position on the first entry. -/
def Cursor.First (b : Bucket) : Cursor := b

/-- `Cursor.Seek`: position on the first entry whose key is at least `k`. -/
def Cursor.Seek (b : Bucket) (k : Bytes) : Cursor :=
  b.dropWhile (fun e => bytesCompare e.1 k < 0)

/-- `Cursor.Last`: the last entry of the bucket, if any. -/
def Cursor.Last (b : Bucket) : Option (Bytes × Bytes) := b.getLast?

/-- The errors the storage functions return. -/
inductive Error where
  | duplicated
  | alreadyExisted
  | rangeTooBroad
  | unmarshal
  | marshal
  | emptyDB
  | create
  | lastLogIndex
  | noLog
  | versionMissing
  | bucketMissing
  | keyNotFound
  | setMissing
  | keyRequired
  | keyTooLarge
  deriving DecidableEq, Repr

/-- `db.Update(fn)`: the state `fn` returns is committed, an error rolls back. -/
def dbUpdate {σ : Type} (db : σ) (fn : σ → Except Error σ) : σ × Option Error :=
  match fn db with
  | .ok db' => (db', none)
  | .error e => (db, some e)

/-! ## Log storage (`stat/storage/log_bolt.go`) -/

/-- Constant `maxGetLogPeriod`: 1 day in nanoseconds. -/
def maxGetLogPeriod : Nat := 86400000000000

/-- Modelled from the spec: `common.SetCatLog` is declared outside the sources;
a record carries `Timestamp`, `BlockNumber` and `Index`, its other fields are
kept as `Rest`. -/
structure SetCatLog where
  Timestamp : Nat
  BlockNumber : Nat
  Index : Nat
  Rest : Bytes
  deriving DecidableEq, Repr

/-- Modelled from the spec: `common.TradeLog` is declared outside the sources;
a record carries `Timestamp`, `BlockNumber` and `Index`, its other fields are
kept as `Rest`. -/
structure TradeLog where
  Timestamp : Nat
  BlockNumber : Nat
  Index : Nat
  Rest : Bytes
  deriving DecidableEq, Repr

/-- The `encoding/json` functions the log storage calls. -/
structure LogCodec where
  marshalCat : SetCatLog → Option Bytes
  unmarshalCat : Bytes → Option SetCatLog
  marshalTrade : TradeLog → Option Bytes
  unmarshalTrade : Bytes → Option TradeLog

/-- The two buckets of the log database: `logs` and `cat_logs`. -/
structure LogDB where
  tradelog : Bucket
  catlog : Bucket
  deriving DecidableEq, Repr

/-- `BoltLogStorage`: the database and the cached block. -/
structure BoltLogStorage where
  db : LogDB
  block : Nat
  deriving DecidableEq, Repr

/-- `LoadLastTradeLogIndex`: block and index of the last entry of `logs`. -/
def LoadLastTradeLogIndex (J : LogCodec) (bls : BoltLogStorage) : Nat × Nat × Option Error :=
  match Cursor.Last bls.db.tradelog with
  | none => (0, 0, none)
  | some (_, v) =>
    match J.unmarshalTrade v with
    | none => (0, 0, some Error.unmarshal)
    | some record => (record.BlockNumber, record.Index, none)

/-- `LoadLastCatLogIndex`: as in the source, the bucket it opens is
`tradelogBucket`, whose last value it unmarshals as a `SetCatLog`. -/
def LoadLastCatLogIndex (J : LogCodec) (bls : BoltLogStorage) : Nat × Nat × Option Error :=
  match Cursor.Last bls.db.tradelog with
  | none => (0, 0, none)
  | some (_, v) =>
    match J.unmarshalCat v with
    | none => (0, 0, some Error.unmarshal)
    | some record => (record.BlockNumber, record.Index, none)

/-- `StoreCatLog`. -/
def StoreCatLog (J : LogCodec) (bls : BoltLogStorage) (l : SetCatLog) :
    BoltLogStorage × Option Error :=
  let r := dbUpdate bls.db fun tx =>
    match J.marshalCat l with
    | none => .error Error.marshal
    | some dataJSON =>
      match LoadLastCatLogIndex J bls with
      | (block, index, uErr) =>
        if uErr = none ∧ (block > l.BlockNumber ∨ (block = l.BlockNumber ∧ index ≥ l.Index)) then
          .error Error.duplicated
        else
          .ok { tx with catlog := tx.catlog.Put (Uint64ToBytes l.Timestamp) dataJSON }
  ({ bls with db := r.1 }, r.2)

/-- `StoreTradeLog`: no ordering check (it is commented out in the source). -/
def StoreTradeLog (J : LogCodec) (bls : BoltLogStorage) (stat : TradeLog) (_timepoint : Nat) :
    BoltLogStorage × Option Error :=
  let r := dbUpdate bls.db fun tx =>
    match J.marshalTrade stat with
    | none => .error Error.marshal
    | some dataJSON =>
      .ok { tx with tradelog := tx.tradelog.Put (Uint64ToBytes stat.Timestamp) dataJSON }
  ({ bls with db := r.1 }, r.2)

/-- The cursor loop of `GetCatLogs`: every record is put in front of the result. -/
def getCatLogsLoop (J : LogCodec) (max : Bytes) :
    Cursor → List SetCatLog → List SetCatLog × Option Error
  | [], result => (result, none)
  | (k, v) :: c, result =>
    if bytesCompare k max ≤ 0 then
      match J.unmarshalCat v with
      | none => (result, some Error.unmarshal)
      | some record => getCatLogsLoop J max c (record :: result)
    else (result, none)

/-- `GetCatLogs`. -/
def GetCatLogs (J : LogCodec) (bls : BoltLogStorage) (fromTime toTime : Nat) :
    List SetCatLog × Option Error :=
  if subU64 toTime fromTime > maxGetLogPeriod then ([], some Error.rangeTooBroad)
  else
    getCatLogsLoop J (Uint64ToBytes toTime)
      (Cursor.Seek bls.db.catlog (Uint64ToBytes fromTime)) []

/-- The cursor loop of `GetTradeLogs`: every record is appended to the result. -/
def getTradeLogsLoop (J : LogCodec) (max : Bytes) :
    Cursor → List TradeLog → List TradeLog × Option Error
  | [], result => (result, none)
  | (k, v) :: c, result =>
    if bytesCompare k max ≤ 0 then
      match J.unmarshalTrade v with
      | none => (result, some Error.unmarshal)
      | some record => getTradeLogsLoop J max c (result ++ [record])
    else (result, none)

/-- `GetTradeLogs`. -/
def GetTradeLogs (J : LogCodec) (bls : BoltLogStorage) (fromTime toTime : Nat) :
    List TradeLog × Option Error :=
  if subU64 toTime fromTime > maxGetLogPeriod then ([], some Error.rangeTooBroad)
  else
    getTradeLogsLoop J (Uint64ToBytes toTime)
      (Cursor.Seek bls.db.tradelog (Uint64ToBytes fromTime)) []

/-- A store with two empty buckets, as `NewBoltLogStorage` leaves a new file. -/
def emptyLogStorage : BoltLogStorage := { db := { tradelog := [], catlog := [] }, block := 0 }

/-- A concrete wire format used to run the definitions: the three numbers as
8-byte big-endian words followed by the remaining bytes. -/
def wireEncode (ts blk idx : Nat) (rest : Bytes) : Bytes :=
  Uint64ToBytes ts ++ Uint64ToBytes blk ++ Uint64ToBytes idx ++ rest

/-- Reading the concrete wire format back. -/
def wireDecode (b : Bytes) : Option (Nat × Nat × Nat × Bytes) :=
  if b.length < 24 then none
  else some (BytesToUint64 b, BytesToUint64 (b.drop 8), BytesToUint64 (b.drop 16), b.drop 24)

/-- A concrete codec: category and trade records share their field names. -/
def wireCodec : LogCodec where
  marshalCat l := some (wireEncode l.Timestamp l.BlockNumber l.Index l.Rest)
  unmarshalCat b := (wireDecode b).map fun r => ⟨r.1, r.2.1, r.2.2.1, r.2.2.2⟩
  marshalTrade l := some (wireEncode l.Timestamp l.BlockNumber l.Index l.Rest)
  unmarshalTrade b := (wireDecode b).map fun r => ⟨r.1, r.2.1, r.2.2.1, r.2.2.2⟩

/-- A category record with the given block and index, keyed by `ts`. -/
def catRec (ts blk idx : Nat) : SetCatLog := ⟨ts, blk, idx, []⟩

/-- A trade record with the given block and index, keyed by `ts`. -/
def tradeRec (ts blk idx : Nat) : TradeLog := ⟨ts, blk, idx, []⟩

/-! ## Analytic storage (`stat/storage/analytic_bolt.go`) -/

/-- Constant `maxGetAnalyticPeriod`: 1 day in milliseconds. -/
def maxGetAnalyticPeriod : Nat := 86400000

/-- Constant `priceAnalyticExpired`: 30 days in milliseconds. -/
def priceAnalyticExpired : Nat := 30 * 86400000

/-- Modelled from the spec: `common.AnalyticPriceResponse` is declared outside
the sources; it holds the `Timestamp` and the decoded `Data` object. -/
structure AnalyticPriceResponse (σ : Type) where
  Timestamp : Nat
  Data : σ
  deriving DecidableEq, Repr

/-- Modelled from the spec: `common.NewAnalyticPriceResponse` is declared outside
the sources; it builds the record from the timestamp and the data. -/
def NewAnalyticPriceResponse {σ : Type} (timestamp : Nat) (data : σ) :
    AnalyticPriceResponse σ :=
  { Timestamp := timestamp, Data := data }

/-- The `encoding/json` functions the analytic storage calls; `σ` stands for
`map[string]interface{}`. -/
structure AnalyticCodec (σ : Type) where
  unmarshalObj : Bytes → Option σ
  marshalResp : AnalyticPriceResponse σ → Option Bytes

/-- `BoltAnalyticStorage`: the database with its `price_analytic` bucket. -/
structure BoltAnalyticStorage where
  priceAnalytic : Bucket
  deriving DecidableEq, Repr

/-- The destination path of an export: the bytes of the file (none when it does
not exist yet) and whether `os.Create` succeeds on it. -/
structure FileState where
  content : Bytes
  creatable : Bool
  deriving DecidableEq, Repr

/-- Go `os.Create`: creates the file, or truncates it when it exists. -/
def osCreate (f : FileState) : Except Error FileState :=
  if f.creatable then .ok { f with content := [] } else .error Error.create

/-- `UpdatePriceAnalyticData`. -/
def UpdatePriceAnalyticData (bas : BoltAnalyticStorage) (timestamp : Nat) (value : Bytes) :
    BoltAnalyticStorage × Option Error :=
  let k := Uint64ToBytes timestamp
  dbUpdate bas fun tx =>
    match Cursor.Seek tx.priceAnalytic k with
    | _ :: _ => .error Error.alreadyExisted
    | [] => .ok { tx with priceAnalytic := tx.priceAnalytic.Put k value }

/-- The cursor loop of `ExportExpiredPriceAnalyticData`: the file written so
far and the number of records. -/
def exportLoop {σ : Type} (J : AnalyticCodec σ) (expiredTimestampByte : Bytes) :
    Cursor → Bytes → Nat → Bytes × Nat × Option Error
  | [], out, nRecord => (out, nRecord, none)
  | (k, v) :: c, out, nRecord =>
    if bytesCompare k expiredTimestampByte ≤ 0 then
      let timestamp := BytesToUint64 k
      match J.unmarshalObj v with
      | none => (out, nRecord, some Error.unmarshal)
      | some temp =>
        match J.marshalResp (NewAnalyticPriceResponse timestamp temp) with
        | none => (out, nRecord, some Error.marshal)
        | some output => exportLoop J expiredTimestampByte c (out ++ (output ++ [10])) (incU64 nRecord)
    else (out, nRecord, none)

/-- The result of an export: the storage, the file, `nRecord` and `err`. -/
structure ExportResult where
  storage : BoltAnalyticStorage
  file : FileState
  nRecord : Nat
  err : Option Error
  deriving DecidableEq, Repr

/-- `ExportExpiredPriceAnalyticData`. -/
def ExportExpiredPriceAnalyticData {σ : Type} (J : AnalyticCodec σ) (bas : BoltAnalyticStorage)
    (currentTime : Nat) (file : FileState) : ExportResult :=
  let expiredTimestampByte := Uint64ToBytes (subU64 currentTime priceAnalyticExpired)
  match osCreate file with
  | .error e => { storage := bas, file := file, nRecord := 0, err := some e }
  | .ok outFile =>
    match exportLoop J expiredTimestampByte (Cursor.First bas.priceAnalytic) outFile.content 0 with
    | (out, nRecord, err) =>
      { storage := bas, file := { outFile with content := out }, nRecord := nRecord, err := err }

/-- The cursor loop of `PruneExpiredPriceAnalyticData`: the bucket after the
deletions and the number of records.  The cursor walks the entries the bucket
held when it was positioned; `b.Delete(k)` removes the entry from the bucket. -/
def pruneLoop (expiredTimestampByte : Bytes) : Cursor → Bucket → Nat → Bucket × Nat
  | [], b, nRecord => (b, nRecord)
  | (k, _) :: c, b, nRecord =>
    if bytesCompare k expiredTimestampByte ≤ 0 then
      pruneLoop expiredTimestampByte c (b.Delete k) (incU64 nRecord)
    else (b, nRecord)

/-- `PruneExpiredPriceAnalyticData`. -/
def PruneExpiredPriceAnalyticData (bas : BoltAnalyticStorage) (currentTime : Nat) :
    BoltAnalyticStorage × Nat × Option Error :=
  let expiredTimestampByte := Uint64ToBytes (subU64 currentTime priceAnalyticExpired)
  match pruneLoop expiredTimestampByte (Cursor.First bas.priceAnalytic) bas.priceAnalytic 0 with
  | (b, nRecord) => ({ bas with priceAnalytic := b }, nRecord, none)

/-- The cursor loop of `GetPriceAnalyticData`. -/
def getPriceAnalyticLoop {σ : Type} (J : AnalyticCodec σ) (max : Bytes) :
    Cursor → List (AnalyticPriceResponse σ) → List (AnalyticPriceResponse σ) × Option Error
  | [], result => (result, none)
  | (k, v) :: c, result =>
    if bytesCompare k max ≤ 0 then
      let timestamp := BytesToUint64 k
      match J.unmarshalObj v with
      | none => (result, some Error.unmarshal)
      | some temp =>
        getPriceAnalyticLoop J max c (result ++ [{ Timestamp := timestamp, Data := temp }])
    else (result, none)

/-- `GetPriceAnalyticData`. -/
def GetPriceAnalyticData {σ : Type} (J : AnalyticCodec σ) (bas : BoltAnalyticStorage)
    (fromTime toTime : Nat) : List (AnalyticPriceResponse σ) × Option Error :=
  let min := Uint64ToBytes fromTime
  let max := Uint64ToBytes toTime
  if subU64 toTime fromTime > maxGetAnalyticPeriod then ([], some Error.rangeTooBroad)
  else getPriceAnalyticLoop J max (Cursor.Seek bas.priceAnalytic min) []

/-- A concrete analytic codec used to run the definitions: the object is kept
as its bytes, a line is the 8-byte timestamp followed by the object. -/
def wireAnalytic : AnalyticCodec Bytes where
  unmarshalObj b := some b
  marshalResp r := some (Uint64ToBytes r.Timestamp ++ r.Data)

/-- Forty days in milliseconds. -/
def fortyDays : Nat := 40 * 86400000

/-- The store after the category records (block 10, index 0) and (block 10,
index 1) were stored into an empty store. -/
def logAfterTwo : BoltLogStorage :=
  (StoreCatLog wireCodec (StoreCatLog wireCodec emptyLogStorage (catRec 1 10 0)).1
    (catRec 2 10 1)).1

/-- A sequence of `UpdatePriceAnalyticData` calls, whatever each one returns. -/
def applyUpdates (bas : BoltAnalyticStorage) (calls : List (Nat × Bytes)) : BoltAnalyticStorage :=
  calls.foldl (fun s c => (UpdatePriceAnalyticData s c.1 c.2).1) bas

/-- Every key of the bucket is the 8-byte encoding of a `uint64`, as all keys
written by the storage functions are. -/
def Bucket.WellKeyed (b : Bucket) : Prop :=
  ∀ e ∈ b, e.1 = Uint64ToBytes (BytesToUint64 e.1) ∧ BytesToUint64 e.1 < 2 ^ 64

instance (b : Bucket) : Decidable b.Sorted := by
  unfold Bucket.Sorted
  infer_instance

instance (b : Bucket) : Decidable b.WellKeyed := by
  unfold Bucket.WellKeyed
  infer_instance

/-- The loop condition `bytes.Compare(k, max) <= 0` on an entry. -/
def keyLe (max : Bytes) (e : Bytes × Bytes) : Bool := decide (bytesCompare e.1 max ≤ 0)

/-- The entries whose timestamp is at most `bound`. -/
def Bucket.upTo (b : Bucket) (bound : Nat) : Bucket :=
  b.filter (fun e => decide (BytesToUint64 e.1 ≤ bound))

/-- The entries whose timestamp is greater than `bound`. -/
def Bucket.above (b : Bucket) (bound : Nat) : Bucket :=
  b.filter (fun e => decide (bound < BytesToUint64 e.1))

/-- The analytic store holding records at `T = 0` and `T = 40 days`. -/
def analyticTwo : BoltAnalyticStorage :=
  ⟨[(Uint64ToBytes 0, [1]), (Uint64ToBytes fortyDays, [2])]⟩

/-- The record `GetPriceAnalyticData` appends for an entry: the entry's
timestamp and its unmarshalled data. -/
def analyticRecord {σ : Type} (J : AnalyticCodec σ) (e : Bytes × Bytes) :
    Option (AnalyticPriceResponse σ) :=
  match J.unmarshalObj e.2 with
  | none => none
  | some temp => some { Timestamp := BytesToUint64 e.1, Data := temp }

/-- The line `ExportExpiredPriceAnalyticData` writes for an entry: the
marshalled record made of the entry's timestamp and its unmarshalled data. -/
def exportLine {σ : Type} (J : AnalyticCodec σ) (e : Bytes × Bytes) : Option Bytes :=
  match J.unmarshalObj e.2 with
  | none => none
  | some temp => J.marshalResp (NewAnalyticPriceResponse (BytesToUint64 e.1) temp)

/-- The bytes of a file made of the given lines, each ended by `"\n"`. -/
def fileLines : List Bytes → Bytes
  | [] => []
  | l :: ls => (l ++ [10]) ++ fileLines ls

/-- The trade records stored in the `logs` bucket, in key order. -/
def storedTradeLogs (J : LogCodec) (bls : BoltLogStorage) : List TradeLog :=
  bls.db.tradelog.filterMap (fun e => J.unmarshalTrade e.2)

/-- A log store with trade records at timestamps 3, 5 and 9. -/
def tradeThree : BoltLogStorage :=
  (StoreTradeLog wireCodec (StoreTradeLog wireCodec (StoreTradeLog wireCodec emptyLogStorage
    (tradeRec 5 1 0) 0).1 (tradeRec 9 2 0) 0).1 (tradeRec 3 2 1) 0).1

/-- A sequence of `StoreCatLog` calls that all succeed: the store after the last
one, or `none` as soon as a call returns an error. -/
def storeAllCat (J : LogCodec) : List SetCatLog → BoltLogStorage → Option BoltLogStorage
  | [], bls => some bls
  | l :: ls, bls =>
    if (StoreCatLog J bls l).2 = none then storeAllCat J ls (StoreCatLog J bls l).1 else none

/-! ## Log storage: last index, boundary lookups and the cached block -/

/-- `LoadLastLogIndex`: the greater of the two last block numbers; an error only
when both reads fail. -/
def LoadLastLogIndex (J : LogCodec) (bls : BoltLogStorage) : Nat × Option Error :=
  match LoadLastCatLogIndex J bls, LoadLastTradeLogIndex J bls with
  | (catBlock, _, err1), (tradeBlock, _, err2) =>
    if err1 ≠ none ∧ err2 ≠ none then (0, some Error.lastLogIndex)
    else if catBlock > tradeBlock then (catBlock, none)
    else (tradeBlock, none)

/-- `UpdateLogBlock`: sets the cached block, nothing else. -/
def UpdateLogBlock (bls : BoltLogStorage) (block _timepoint : Nat) :
    BoltLogStorage × Option Error :=
  ({ bls with block := block }, none)

/-- `LastBlock`: the cached block. -/
def LastBlock (bls : BoltLogStorage) : Nat × Option Error := (bls.block, none)

/-- The Go zero value `common.SetCatLog{}`. -/
def SetCatLog.zero : SetCatLog := ⟨0, 0, 0, []⟩

/-- The Go zero value `common.TradeLog{}`. -/
def TradeLog.zero : TradeLog := ⟨0, 0, 0, []⟩

/-- `GetLastCatLog`; on an error the result is the zero record. -/
def GetLastCatLog (J : LogCodec) (bls : BoltLogStorage) : SetCatLog × Option Error :=
  match Cursor.Last bls.db.catlog with
  | none => (SetCatLog.zero, some Error.noLog)
  | some (_, v) =>
    match J.unmarshalCat v with
    | none => (SetCatLog.zero, some Error.unmarshal)
    | some result => (result, none)

/-- `GetFirstCatLog`; on an error the result is the zero record. -/
def GetFirstCatLog (J : LogCodec) (bls : BoltLogStorage) : SetCatLog × Option Error :=
  match Cursor.First bls.db.catlog with
  | [] => (SetCatLog.zero, some Error.noLog)
  | (_, v) :: _ =>
    match J.unmarshalCat v with
    | none => (SetCatLog.zero, some Error.unmarshal)
    | some result => (result, none)

/-- `GetLastTradeLog`; on an error the result is the zero record. -/
def GetLastTradeLog (J : LogCodec) (bls : BoltLogStorage) : TradeLog × Option Error :=
  match Cursor.Last bls.db.tradelog with
  | none => (TradeLog.zero, some Error.noLog)
  | some (_, v) =>
    match J.unmarshalTrade v with
    | none => (TradeLog.zero, some Error.unmarshal)
    | some result => (result, none)

/-- `GetFirstTradeLog`; on an error the result is the zero record. -/
def GetFirstTradeLog (J : LogCodec) (bls : BoltLogStorage) : TradeLog × Option Error :=
  match Cursor.First bls.db.tradelog with
  | [] => (TradeLog.zero, some Error.noLog)
  | (_, v) :: _ =>
    match J.unmarshalTrade v with
    | none => (TradeLog.zero, some Error.unmarshal)
    | some result => (result, none)

/-- The store holding one category log, of block 100, and no trade log. -/
def logCatOnly : BoltLogStorage :=
  (StoreCatLog wireCodec emptyLogStorage (catRec 7 100 0)).1

/-! ## Settings storage (`settings/storage/address_bolt.go`) -/

/-- Insertion into an ordered key/value list, as `Bucket.Put` does it, for any
kind of value. -/
def kvPut {β : Type} : List (Bytes × β) → Bytes → β → List (Bytes × β)
  | [], k, v => [(k, v)]
  | (k', v') :: rest, k, v =>
    if bytesCompare k k' < 0 then (k, v) :: (k', v') :: rest
    else if bytesCompare k k' = 0 then (k, v) :: rest
    else (k', v') :: kvPut rest k v

/-- Lookup in an ordered key/value list, as `Bucket.Get` does it. -/
def kvGet {β : Type} (l : List (Bytes × β)) (k : Bytes) : Option β :=
  (l.find? (fun e => bytesCompare e.1 k == 0)).map Prod.snd

/-- The keys of an ordered key/value list are strictly ascending. -/
def kvSorted {β : Type} (l : List (Bytes × β)) : Prop :=
  l.Pairwise (fun e f => bytesCompare e.1 f.1 < 0)

instance {β : Type} (l : List (Bytes × β)) : Decidable (kvSorted l) := by
  unfold kvSorted
  infer_instance

/-- A bucket whose entries are nested buckets, as `ADDRESS_SET_SETTING_BUCKET`:
the storage puts nothing but nested buckets into it. -/
abbrev SetBucket := List (Bytes × Bucket)

/-- `b.Bucket(k)`: the nested bucket of the key, `nil` when there is none. -/
def SetBucket.BucketOf (b : SetBucket) (k : Bytes) : Option Bucket := kvGet b k

/-- The nested bucket of key `k` after a write through its handle. -/
def SetBucket.store (b : SetBucket) (k : Bytes) (s : Bucket) : SetBucket := kvPut b k s

/-- `b.CreateBucketIfNotExists(k)`: the nested bucket of the key, created empty
when there is none. -/
def SetBucket.CreateBucketIfNotExists (b : SetBucket) (k : Bytes) : SetBucket × Bucket :=
  match b.BucketOf k with
  | some s => (b, s)
  | none => (b.store k [], [])

/-- The key `[]byte("address_version")`. -/
def addressVersionKey : Bytes :=
  [97, 100, 100, 114, 101, 115, 115, 95, 118, 101, 114, 115, 105, 111, 110]

/-- Modelled from the spec: `BoltSettingStorage`, its constructor and the bucket
names are declared outside the sources.  The buckets are those `address_bolt.go`
opens: `address_version`, used without a nil check, and the two address buckets,
which the first write creates (`CreateBucketIfNotExists`) and the readers test
for `nil`. -/
structure BoltSettingStorage where
  addressVersion : Bucket
  addressSetting : Option Bucket
  addressSetSetting : Option SetBucket
  deriving DecidableEq, Repr

/-- Modelled from the spec: the constructor is outside the sources; in a new
store no write has occurred: no version, no address and no address set. -/
def newSettingStorage : BoltSettingStorage :=
  { addressVersion := [], addressSetting := none, addressSetSetting := none }

/-- `updateAddressVersion`. -/
def updateAddressVersion (tx : BoltSettingStorage) (timestamp : Nat) :
    Except Error BoltSettingStorage :=
  .ok { tx with
    addressVersion := tx.addressVersion.Put addressVersionKey (Uint64ToBytes timestamp) }

/-- `GetAddressVersion`. -/
def GetAddressVersion (st : BoltSettingStorage) : Nat × Option Error :=
  match st.addressVersion.Get addressVersionKey with
  | none => (0, some Error.versionMissing)
  | some v => (BytesToUint64 v, none)

/-- `UpdateOneAddress`; `toLower` is Go `strings.ToLower`. -/
def UpdateOneAddress (toLower : Bytes → Bytes) (st : BoltSettingStorage) (name : Nat)
    (address : Bytes) (timestamp : Nat) : BoltSettingStorage × Option Error :=
  let address := toLower address
  dbUpdate st fun tx =>
    match updateAddressVersion tx timestamp with
    | .error uErr => .error uErr
    | .ok tx =>
      let b := tx.addressSetting.getD []
      .ok { tx with addressSetting := some (b.Put (Uint64ToBytes name) address) }

/-- `GetAddress`; on an error the address is the empty string. -/
def GetAddress (st : BoltSettingStorage) (add : Nat) : Bytes × Option Error :=
  match st.addressSetting with
  | none => ([], some Error.bucketMissing)
  | some b =>
    match b.Get (Uint64ToBytes add) with
    | none => ([], some Error.keyNotFound)
    | some data => (data, none)

/-- The constant `MaxKeySize` of bolt. -/
def maxKeySize : Nat := 32768

/-- The key passes the checks of bolt's `Put`: it is not empty and not longer
than `MaxKeySize`. -/
def validKey (k : Bytes) : Prop := 0 < k.length ∧ k.length ≤ maxKeySize

instance (k : Bytes) : Decidable (validKey k) := by
  unfold validKey
  infer_instance

/-- The `Put` of bolt on a key the caller supplies: an empty key is refused
(`ErrKeyRequired`) and so is a key longer than `MaxKeySize` (`ErrKeyTooLarge`);
otherwise the entry is stored. -/
def Bucket.PutChecked (b : Bucket) (k v : Bytes) : Except Error Bucket :=
  if k.length = 0 then .error Error.keyRequired
  else if k.length > maxKeySize then .error Error.keyTooLarge
  else .ok (b.Put k v)

/-- `AddAddressToSet`; `toLower` is Go `strings.ToLower`.  The error of
`s.Put` is returned, which rolls the transaction back. -/
def AddAddressToSet (toLower : Bytes → Bytes) (st : BoltSettingStorage) (setName : Nat)
    (address : Bytes) (timestamp : Nat) : BoltSettingStorage × Option Error :=
  let address := toLower address
  let defaultValue : Bytes := [49]
  dbUpdate st fun tx =>
    match updateAddressVersion tx timestamp with
    | .error uErr => .error uErr
    | .ok tx =>
      let b := tx.addressSetSetting.getD []
      match b.CreateBucketIfNotExists (Uint64ToBytes setName) with
      | (b, s) =>
        match s.PutChecked address defaultValue with
        | .error uErr => .error uErr
        | .ok s =>
          .ok { tx with addressSetSetting := some (b.store (Uint64ToBytes setName) s) }

/-- The cursor loop of `GetAddresses`: every key is appended to the result. -/
def getAddressesLoop : Cursor → List Bytes → List Bytes
  | [], result => result
  | (k, _) :: c, result => getAddressesLoop c (result ++ [k])

/-- `GetAddresses`. -/
def GetAddresses (st : BoltSettingStorage) (setName : Nat) : List Bytes × Option Error :=
  match st.addressSetSetting with
  | none => ([], some Error.bucketMissing)
  | some b =>
    match b.BucketOf (Uint64ToBytes setName) with
    | none => ([], some Error.setMissing)
    | some s => (getAddressesLoop (Cursor.First s) [], none)

/-- The inner loop of `CountAddressSetBucket`: `result += 1` for every member. -/
def countMembersLoop : Cursor → Nat → Nat
  | [], result => result
  | _ :: sc, result => countMembersLoop sc ((result + 1) % 2 ^ 64)

/-- The outer loop of `CountAddressSetBucket`. -/
def countSetsLoop (b : SetBucket) : List (Bytes × Bucket) → Nat → Nat × Option Error
  | [], result => (result, none)
  | (setName, _) :: c, result =>
    match b.BucketOf setName with
    | none => (0, some Error.setMissing)
    | some s => countSetsLoop b c (countMembersLoop (Cursor.First s) result)

/-- `CountAddressSetBucket`. -/
def CountAddressSetBucket (b : SetBucket) : Nat × Option Error := countSetsLoop b b 0

/-- `CountAddressBucket`. -/
def CountAddressBucket (b : Bucket) : Nat := countMembersLoop (Cursor.First b) 0

/-- `CountAddress`. -/
def CountAddress (st : BoltSettingStorage) : Nat × Option Error :=
  match st.addressSetSetting with
  | none => (0, some Error.bucketMissing)
  | some b =>
    match CountAddressSetBucket b with
    | (_, some uErr) => (0, some uErr)
    | (count, none) =>
      match st.addressSetting with
      | none => (0, some Error.bucketMissing)
      | some b => (((0 + count) % 2 ^ 64 + CountAddressBucket b) % 2 ^ 64, none)

/-- A write to the settings storage: `UpdateOneAddress` or `AddAddressToSet`. -/
inductive AddressWrite where
  | one (name : Nat) (address : Bytes) (timestamp : Nat)
  | toSet (setName : Nat) (address : Bytes) (timestamp : Nat)
  deriving DecidableEq, Repr

/-- The timestamp of a write. -/
def AddressWrite.timestamp : AddressWrite → Nat
  | .one _ _ t => t
  | .toSet _ _ t => t

/-- The write is an `UpdateOneAddress` for the name. -/
def AddressWrite.writesName (name : Nat) : AddressWrite → Bool
  | .one n _ _ => decide (n = name)
  | .toSet _ _ _ => false

/-- The write is an `AddAddressToSet` for the set. -/
def AddressWrite.writesSet (setName : Nat) : AddressWrite → Bool
  | .one _ _ _ => false
  | .toSet s _ _ => decide (s = setName)

/-- The name or set name of the write is a `uint64`. -/
def AddressWrite.nameInRange : AddressWrite → Prop
  | .one n _ _ => n < 2 ^ 64
  | .toSet s _ _ => s < 2 ^ 64

instance (w : AddressWrite) : Decidable w.nameInRange := by
  cases w <;> (unfold AddressWrite.nameInRange; infer_instance)

/-- The write returns no error: an `UpdateOneAddress` always, an
`AddAddressToSet` when the lower-cased address is a key bolt accepts. -/
def AddressWrite.accepted (toLower : Bytes → Bytes) : AddressWrite → Bool
  | .one _ _ _ => true
  | .toSet _ address _ => decide (validKey (toLower address))

/-- One write. -/
def applyWrite (toLower : Bytes → Bytes) (st : BoltSettingStorage) :
    AddressWrite → BoltSettingStorage × Option Error
  | .one name address timestamp => UpdateOneAddress toLower st name address timestamp
  | .toSet setName address timestamp => AddAddressToSet toLower st setName address timestamp

/-- A sequence of writes, each applied to the store the previous one left. -/
def applyWrites (toLower : Bytes → Bytes) (st : BoltSettingStorage)
    (ws : List AddressWrite) : BoltSettingStorage :=
  ws.foldl (fun s w => (applyWrite toLower s w).1) st

/-- Lower-casing of the ASCII letters, the part of `strings.ToLower` that
matters for hexadecimal addresses; used to run the definitions. -/
def asciiLower (s : Bytes) : Bytes :=
  s.map (fun c => if 65 ≤ c ∧ c ≤ 90 then c + 32 else c)

/-- The store is in a state the storage can leave it in: keys strictly ascending
in the address bucket, in the bucket of sets and in every set. -/
def BoltSettingStorage.WF (st : BoltSettingStorage) : Prop :=
  (∀ b ∈ st.addressSetting, b.Sorted) ∧
  (∀ b ∈ st.addressSetSetting, kvSorted b ∧ ∀ e ∈ b, e.2.Sorted)

instance (st : BoltSettingStorage) : Decidable st.WF := by
  unfold BoltSettingStorage.WF
  infer_instance

/-- The number of scalar addresses stored. -/
def BoltSettingStorage.scalarCount (st : BoltSettingStorage) : Nat :=
  (st.addressSetting.getD []).length

/-- The number of members of all the sets stored. -/
def BoltSettingStorage.memberCount (st : BoltSettingStorage) : Nat :=
  ((st.addressSetSetting.getD []).map (fun e => e.2.length)).sum


/-- The write is an `UpdateOneAddress`. -/
def AddressWrite.isOne : AddressWrite → Bool
  | .one _ _ _ => true
  | .toSet _ _ _ => false

/-- The write is an `AddAddressToSet`. -/
def AddressWrite.isToSet : AddressWrite → Bool
  | .one _ _ _ => false
  | .toSet _ _ _ => true


/-! ## Byte order of the keys -/

theorem bytesCompare_self (a : Bytes) : bytesCompare a a = 0 := by
  induction a with
  | nil => rfl
  | cons x xs ih => simp [bytesCompare, ih]

theorem bytesCompare_eq_zero {a b : Bytes} : bytesCompare a b = 0 ↔ a = b := by
  constructor
  · intro h
    induction a generalizing b with
    | nil => cases b with
      | nil => rfl
      | cons y ys => simp [bytesCompare] at h
    | cons x xs ih => cases b with
      | nil => simp [bytesCompare] at h
      | cons y ys =>
        simp only [bytesCompare] at h
        by_cases h1 : x < y
        · simp [h1] at h
        · by_cases h2 : y < x
          · simp [h1, h2] at h
          · simp only [h1, h2, if_false] at h
            have : x = y := by omega
            rw [this, ih h]
  · rintro rfl
    exact bytesCompare_self a

theorem bytesCompare_beBytes (n : Nat) : ∀ a b : Nat, a / 256 ^ n = b / 256 ^ n →
    bytesCompare (beBytes n a) (beBytes n b) = if a < b then -1 else if b < a then 1 else 0 := by
  induction n with
  | zero =>
    intro a b h
    simp at h
    simp [beBytes, bytesCompare, h]
  | succ n ih =>
    intro a b h
    have ha : a / 256 ^ (n + 1) = a / 256 ^ n / 256 := by
      rw [pow_succ, Nat.div_div_eq_div_mul]
    have hb : b / 256 ^ (n + 1) = b / 256 ^ n / 256 := by
      rw [pow_succ, Nat.div_div_eq_div_mul]
    rw [ha, hb] at h
    simp only [beBytes, bytesCompare]
    by_cases h1 : a / 256 ^ n % 256 < b / 256 ^ n % 256
    · have : a / 256 ^ n < b / 256 ^ n := by omega
      have hab : a < b := Nat.lt_of_div_lt_div this
      simp [h1, hab]
    · by_cases h2 : b / 256 ^ n % 256 < a / 256 ^ n % 256
      · have : b / 256 ^ n < a / 256 ^ n := by omega
        have hab : b < a := Nat.lt_of_div_lt_div this
        have hab' : ¬ a < b := by omega
        simp [h1, h2, hab, hab']
      · have : a / 256 ^ n = b / 256 ^ n := by omega
        simp only [h1, h2, if_false]
        exact ih a b this

theorem Uint64ToBytes_eq_beBytes (u : Nat) : Uint64ToBytes u = beBytes 8 u := by
  simp only [Uint64ToBytes, beBytes]
  norm_num

theorem bytesCompare_Uint64 {a b : Nat} (ha : a < 2 ^ 64) (hb : b < 2 ^ 64) :
    bytesCompare (Uint64ToBytes a) (Uint64ToBytes b) =
      if a < b then -1 else if b < a then 1 else 0 := by
  rw [Uint64ToBytes_eq_beBytes, Uint64ToBytes_eq_beBytes]
  apply bytesCompare_beBytes
  have e : (256 : Nat) ^ 8 = 2 ^ 64 := by norm_num
  rw [e, Nat.div_eq_of_lt ha, Nat.div_eq_of_lt hb]

theorem BytesToUint64_Uint64ToBytes {a : Nat} (ha : a < 2 ^ 64) :
    BytesToUint64 (Uint64ToBytes a) = a := by
  simp only [Uint64ToBytes, BytesToUint64]
  norm_num at ha ⊢
  omega

theorem bytesCompare_Uint64_le {a b : Nat} (ha : a < 2 ^ 64) (hb : b < 2 ^ 64) :
    bytesCompare (Uint64ToBytes a) (Uint64ToBytes b) ≤ 0 ↔ a ≤ b := by
  rw [bytesCompare_Uint64 ha hb]
  split_ifs <;> omega

theorem bytesCompare_Uint64_lt {a b : Nat} (ha : a < 2 ^ 64) (hb : b < 2 ^ 64) :
    bytesCompare (Uint64ToBytes a) (Uint64ToBytes b) < 0 ↔ a < b := by
  rw [bytesCompare_Uint64 ha hb]
  split_ifs <;> omega

/-! ## Buckets -/

theorem Bucket.mem_Put (b : Bucket) (k v : Bytes) : (k, v) ∈ b.Put k v := by
  induction b with
  | nil => simp [Bucket.Put]
  | cons e rest ih =>
    obtain ⟨k', v'⟩ := e
    simp only [Bucket.Put]
    split_ifs <;> simp [ih]

theorem Bucket.Get_Put_self (b : Bucket) (k v : Bytes) : (b.Put k v).Get k = some v := by
  induction b with
  | nil => simp [Bucket.Put, Bucket.Get, bytesCompare_self]
  | cons e rest ih =>
    obtain ⟨k', v'⟩ := e
    simp only [Bucket.Put]
    split_ifs with h1 h2
    · simp [Bucket.Get, bytesCompare_self]
    · simp [Bucket.Get, bytesCompare_self]
    · have hne : ¬ bytesCompare k' k = 0 := by
        intro h
        exact h2 (bytesCompare_eq_zero.2 (bytesCompare_eq_zero.1 h).symm)
      simp only [Bucket.Get] at ih ⊢
      rw [List.find?_cons_of_neg _ (by simpa using hne)]
      exact ih

theorem Bucket.Get_Put_other (b : Bucket) {k k' : Bytes} (v : Bytes) (hne : k' ≠ k) :
    (b.Put k v).Get k' = b.Get k' := by
  have hk : ¬ bytesCompare k k' = 0 := fun h => hne (bytesCompare_eq_zero.1 h).symm
  induction b with
  | nil =>
    simp only [Bucket.Put, Bucket.Get]
    rw [List.find?_cons_of_neg _ (by simpa using hk)]
  | cons e rest ih =>
    obtain ⟨k0, v0⟩ := e
    simp only [Bucket.Put]
    split_ifs with h1 h2
    · simp only [Bucket.Get]
      rw [List.find?_cons_of_neg _ (by simpa using hk)]
    · have e0 : k = k0 := bytesCompare_eq_zero.1 h2
      subst e0
      simp only [Bucket.Get]
      rw [List.find?_cons_of_neg _ (by simpa using hk),
        List.find?_cons_of_neg _ (by simpa using hk)]
    · simp only [Bucket.Get] at ih ⊢
      by_cases h0 : bytesCompare k0 k' = 0
      · rw [List.find?_cons_of_pos _ (by simpa using h0),
          List.find?_cons_of_pos _ (by simpa using h0)]
      · rw [List.find?_cons_of_neg _ (by simpa using h0),
          List.find?_cons_of_neg _ (by simpa using h0)]
        exact ih

theorem Bucket.Get_some_mem {b : Bucket} {k v : Bytes} (h : b.Get k = some v) : (k, v) ∈ b := by
  simp only [Bucket.Get, Option.map_eq_some'] at h
  obtain ⟨e, he, hv⟩ := h
  have h1 := List.find?_some he
  have h2 := List.mem_of_find?_eq_some he
  have : e.1 = k := bytesCompare_eq_zero.1 (by simpa using h1)
  obtain ⟨a, c⟩ := e
  simp only at this hv
  subst this hv
  exact h2

theorem Cursor.Seek_eq_nil {b : Bucket} {k : Bytes} :
    Cursor.Seek b k = [] ↔ ∀ e ∈ b, bytesCompare e.1 k < 0 := by
  simp [Cursor.Seek, List.dropWhile_eq_nil_iff]

/-! ## Analytic insertion -/

theorem UpdatePriceAnalyticData_of_seek_nil {bas : BoltAnalyticStorage} {t : Nat} (v : Bytes)
    (h : Cursor.Seek bas.priceAnalytic (Uint64ToBytes t) = []) :
    UpdatePriceAnalyticData bas t v =
      ({ priceAnalytic := bas.priceAnalytic.Put (Uint64ToBytes t) v }, none) := by
  simp [UpdatePriceAnalyticData, dbUpdate, h]

theorem UpdatePriceAnalyticData_of_seek_ne_nil {bas : BoltAnalyticStorage} {t : Nat} (v : Bytes)
    (h : Cursor.Seek bas.priceAnalytic (Uint64ToBytes t) ≠ []) :
    UpdatePriceAnalyticData bas t v = (bas, some Error.alreadyExisted) := by
  unfold UpdatePriceAnalyticData dbUpdate
  cases hs : Cursor.Seek bas.priceAnalytic (Uint64ToBytes t) with
  | nil => exact absurd hs h
  | cons e c => simp [hs]

theorem UpdatePriceAnalyticData_keeps (bas : BoltAnalyticStorage) (t : Nat) (w : Bytes)
    {k v : Bytes} (h : bas.priceAnalytic.Get k = some v) :
    (UpdatePriceAnalyticData bas t w).1.priceAnalytic.Get k = some v := by
  by_cases hs : Cursor.Seek bas.priceAnalytic (Uint64ToBytes t) = []
  · rw [UpdatePriceAnalyticData_of_seek_nil w hs]
    have hlt := Cursor.Seek_eq_nil.1 hs _ (Bucket.Get_some_mem h)
    have hne : k ≠ Uint64ToBytes t := by
      intro e
      simp only at hlt
      rw [e, bytesCompare_self] at hlt
      exact absurd hlt (by decide)
    simp only
    rw [Bucket.Get_Put_other _ _ hne]
    exact h
  · rw [UpdatePriceAnalyticData_of_seek_ne_nil w hs]
    exact h

theorem applyUpdates_keeps (calls : List (Nat × Bytes)) : ∀ (bas : BoltAnalyticStorage)
    {k v : Bytes}, bas.priceAnalytic.Get k = some v →
    (applyUpdates bas calls).priceAnalytic.Get k = some v := by
  induction calls with
  | nil => intro bas k v h; exact h
  | cons c cs ih =>
    intro bas k v h
    exact ih _ (UpdatePriceAnalyticData_keeps bas c.1 c.2 h)

/-! ## Category-log ordering and analytic insertion -/

/-- C1 (the code at the failing input): on an empty store the category records
with (block, index) = (10, 0) and (10, 1) are stored; the record (9, 5), which
is not greater than the latest stored category record, is then accepted, and so
is (10, 1) a second time. `LoadLastCatLogIndex` reads the trade-log bucket. -/
theorem C1_StoreCatLog_accepts_out_of_order :
    (StoreCatLog wireCodec emptyLogStorage (catRec 1 10 0)).2 = none ∧
    (StoreCatLog wireCodec (StoreCatLog wireCodec emptyLogStorage (catRec 1 10 0)).1
      (catRec 2 10 1)).2 = none ∧
    (StoreCatLog wireCodec logAfterTwo (catRec 3 9 5)).2 = none ∧
    (StoreCatLog wireCodec logAfterTwo (catRec 2 10 1)).2 = none ∧
    LoadLastCatLogIndex wireCodec logAfterTwo = (0, 0, none) := by
  decide

/-- C2 (the code at the failing input): the bucket holds the single key 100;
key 50 is absent, yet `UpdatePriceAnalyticData 50` fails with "timestamp is
already existed" and stores nothing, because `Seek` lands on the larger key. -/
theorem C2_UpdatePriceAnalyticData_rejects_absent_key :
    Bucket.Get [(Uint64ToBytes 100, [1])] (Uint64ToBytes 50) = none ∧
    UpdatePriceAnalyticData ⟨[(Uint64ToBytes 100, [1])]⟩ 50 [2] =
      (⟨[(Uint64ToBytes 100, [1])]⟩, some Error.alreadyExisted) := by
  decide

/-- C3: when `UpdatePriceAnalyticData T v1` succeeds, a following
`UpdatePriceAnalyticData T v2` fails, leaves the storage as it was, and the value
under `T` is still `v1`; and no sequence of `UpdatePriceAnalyticData` calls
changes the value of a key that is present. -/
theorem C3_analytic_no_overwrite (bas : BoltAnalyticStorage) (T : Nat) (v1 v2 : Bytes)
    (calls : List (Nat × Bytes)) (k v : Bytes) :
    ((UpdatePriceAnalyticData bas T v1).2 = none →
      (UpdatePriceAnalyticData (UpdatePriceAnalyticData bas T v1).1 T v2).2
          = some Error.alreadyExisted ∧
      (UpdatePriceAnalyticData (UpdatePriceAnalyticData bas T v1).1 T v2).1
          = (UpdatePriceAnalyticData bas T v1).1 ∧
      (UpdatePriceAnalyticData (UpdatePriceAnalyticData bas T v1).1 T v2).1.priceAnalytic.Get
          (Uint64ToBytes T) = some v1) ∧
    (bas.priceAnalytic.Get k = some v →
      (applyUpdates bas calls).priceAnalytic.Get k = some v) := by
  refine ⟨fun hok => ?_, fun h => applyUpdates_keeps calls bas h⟩
  by_cases hs : Cursor.Seek bas.priceAnalytic (Uint64ToBytes T) = []
  · rw [UpdatePriceAnalyticData_of_seek_nil v1 hs]
    have hne : Cursor.Seek (bas.priceAnalytic.Put (Uint64ToBytes T) v1) (Uint64ToBytes T) ≠ [] := by
      intro h
      have := Cursor.Seek_eq_nil.1 h _ (Bucket.mem_Put bas.priceAnalytic (Uint64ToBytes T) v1)
      simp only at this
      rw [bytesCompare_self] at this
      exact absurd this (by decide)
    simp only
    rw [@UpdatePriceAnalyticData_of_seek_ne_nil ⟨bas.priceAnalytic.Put (Uint64ToBytes T) v1⟩ T v2 hne]
    exact ⟨rfl, rfl, Bucket.Get_Put_self _ _ _⟩
  · rw [UpdatePriceAnalyticData_of_seek_ne_nil v1 hs] at hok
    simp at hok

/-- C3 at a concrete input: key 7 is inserted into a store holding key 5, then
again; key 5 keeps its value through a sequence of three calls. -/
theorem C3_analytic_no_overwrite_witness :
    ((UpdatePriceAnalyticData (UpdatePriceAnalyticData ⟨[(Uint64ToBytes 5, [1])]⟩ 7 [2]).1 7 [3]).2
          = some Error.alreadyExisted ∧
      (UpdatePriceAnalyticData (UpdatePriceAnalyticData ⟨[(Uint64ToBytes 5, [1])]⟩ 7 [2]).1 7 [3]).1
          = (UpdatePriceAnalyticData ⟨[(Uint64ToBytes 5, [1])]⟩ 7 [2]).1 ∧
      (UpdatePriceAnalyticData (UpdatePriceAnalyticData ⟨[(Uint64ToBytes 5, [1])]⟩ 7 [2]).1 7
          [3]).1.priceAnalytic.Get (Uint64ToBytes 7) = some [2]) ∧
    (applyUpdates ⟨[(Uint64ToBytes 5, [1])]⟩ [(5, [9]), (3, [8]), (6, [7])]).priceAnalytic.Get
      (Uint64ToBytes 5) = some [1] :=
  ⟨(C3_analytic_no_overwrite ⟨[(Uint64ToBytes 5, [1])]⟩ 7 [2] [3]
      [(5, [9]), (3, [8]), (6, [7])] (Uint64ToBytes 5) [1]).1 (by decide),
   (C3_analytic_no_overwrite ⟨[(Uint64ToBytes 5, [1])]⟩ 7 [2] [3]
      [(5, [9]), (3, [8]), (6, [7])] (Uint64ToBytes 5) [1]).2 (by decide)⟩


/-! ## Sorted buckets with `uint64` keys -/

theorem takeWhile_eq_filter_of_pairwise {α : Type} (r : α → α → Prop) (p : α → Bool) :
    ∀ l : List α, l.Pairwise r → (∀ a b, r a b → p a = false → p b = false) →
      l.takeWhile p = l.filter p := by
  intro l
  induction l with
  | nil => intro _ _; rfl
  | cons a l ih =>
    intro hp hm
    rw [List.pairwise_cons] at hp
    cases hpa : p a with
    | true => rw [List.takeWhile_cons_of_pos hpa, List.filter_cons_of_pos hpa, ih hp.2 hm]
    | false =>
      rw [List.takeWhile_cons_of_neg (by simp [hpa]), List.filter_cons_of_neg (by simp [hpa])]
      symm
      rw [List.filter_eq_nil_iff]
      intro b hb
      simp [hm a b (hp.1 b hb) hpa]

theorem takeWhile_congr_mem {α : Type} (p q : α → Bool) :
    ∀ l : List α, (∀ a ∈ l, p a = q a) → l.takeWhile p = l.takeWhile q := by
  intro l
  induction l with
  | nil => intro _; rfl
  | cons a l ih =>
    intro h
    have ha := h a (List.mem_cons_self a l)
    have hl := ih (fun b hb => h b (List.mem_cons_of_mem a hb))
    simp only [List.takeWhile_cons, ha, hl]

theorem Bucket.WellKeyed.keyLe_eq {b : Bucket} (hk : b.WellKeyed) {x : Nat} (hx : x < 2 ^ 64)
    {e : Bytes × Bytes} (he : e ∈ b) :
    keyLe (Uint64ToBytes x) e = decide (BytesToUint64 e.1 ≤ x) := by
  obtain ⟨h1, h2⟩ := hk e he
  unfold keyLe
  rw [h1, BytesToUint64_Uint64ToBytes h2]
  exact decide_eq_decide.2 (bytesCompare_Uint64_le h2 hx)

theorem Bucket.Sorted.pairwise_lt {b : Bucket} (hs : b.Sorted) (hk : b.WellKeyed) :
    b.Pairwise (fun e f => BytesToUint64 e.1 < BytesToUint64 f.1) := by
  unfold Bucket.Sorted at hs
  induction b with
  | nil => exact List.Pairwise.nil
  | cons a l ih =>
    rw [List.pairwise_cons] at hs ⊢
    have hkl : Bucket.WellKeyed l := fun e he => hk e (List.mem_cons_of_mem a he)
    refine ⟨fun f hf => ?_, ih hs.2 hkl⟩
    have h := hs.1 f hf
    obtain ⟨a1, a2⟩ := hk a (List.mem_cons_self a l)
    obtain ⟨f1, f2⟩ := hkl f hf
    rw [a1, f1] at h
    exact (bytesCompare_Uint64_lt a2 f2).1 h

theorem Bucket.takeWhile_keyLe {b : Bucket} (hs : b.Sorted) (hk : b.WellKeyed) {x : Nat}
    (hx : x < 2 ^ 64) : b.takeWhile (keyLe (Uint64ToBytes x)) = b.upTo x := by
  rw [takeWhile_congr_mem _ (fun e => decide (BytesToUint64 e.1 ≤ x)) b
    (fun e he => hk.keyLe_eq hx he)]
  apply takeWhile_eq_filter_of_pairwise _ _ b (hs.pairwise_lt hk)
  intro e f hef he
  simp only [decide_eq_false_iff_not] at he ⊢
  omega

theorem subU64_of_le {a b : Nat} (ha : a < 2 ^ 64) (hb : b ≤ a) : subU64 a b = a - b := by
  unfold subU64
  norm_num at ha ⊢
  omega

theorem subU64_lt (a b : Nat) : subU64 a b < 2 ^ 64 := by
  unfold subU64
  exact Nat.mod_lt _ (by norm_num)

/-! ## Pruning -/

theorem incU64_lt (n : Nat) : incU64 n < 2 ^ 64 := by
  unfold incU64
  exact Nat.mod_lt _ (by norm_num)

theorem incU64_add_mod (n m : Nat) : (incU64 n + m) % 2 ^ 64 = (n + (m + 1)) % 2 ^ 64 := by
  unfold incU64
  norm_num
  omega

theorem pruneLoop_eq (exp : Bytes) : ∀ (c : Cursor) (b : Bucket) (n : Nat), n < 2 ^ 64 →
    pruneLoop exp c b n =
      ((c.takeWhile (keyLe exp)).foldl (fun b e => b.Delete e.1) b,
        (n + (c.takeWhile (keyLe exp)).length) % 2 ^ 64) := by
  intro c
  induction c with
  | nil =>
    intro b n hn
    simp only [pruneLoop, List.takeWhile_nil, List.foldl_nil, List.length_nil, Nat.add_zero]
    rw [Nat.mod_eq_of_lt hn]
  | cons e c ih =>
    intro b n hn
    obtain ⟨k, v⟩ := e
    by_cases h : bytesCompare k exp ≤ 0
    · have hp : keyLe exp (k, v) = true := by simp [keyLe, h]
      rw [List.takeWhile_cons_of_pos hp]
      simp only [pruneLoop, h, if_true, List.foldl_cons, List.length_cons]
      rw [ih _ _ (incU64_lt n), incU64_add_mod]
    · have hp : ¬ keyLe exp (k, v) = true := by simp [keyLe, h]
      rw [List.takeWhile_cons_of_neg hp]
      simp only [pruneLoop, h, if_false, List.foldl_nil, List.length_nil, Nat.add_zero]
      rw [Nat.mod_eq_of_lt hn]

theorem foldl_Delete (E : Bucket) : ∀ b : Bucket,
    E.foldl (fun b e => b.Delete e.1) b =
      b.filter (fun f => E.all (fun e => bytesCompare f.1 e.1 != 0)) := by
  induction E with
  | nil => intro b; simp
  | cons e E ih =>
    intro b
    rw [List.foldl_cons, ih, Bucket.Delete, List.filter_filter]
    apply List.filter_congr
    intro f _
    simp only [List.all_cons, Bool.and_comm]

theorem Bucket.upTo_length_le (b : Bucket) (x : Nat) : (b.upTo x).length ≤ b.length :=
  List.length_filter_le _ _

theorem Bucket.delete_upTo (b : Bucket) (x : Nat) :
    (b.upTo x).foldl (fun b e => b.Delete e.1) b = b.above x := by
  rw [foldl_Delete]
  apply List.filter_congr
  intro f hf
  by_cases hq : BytesToUint64 f.1 ≤ x
  · have hmem : f ∈ b.upTo x := by simp [Bucket.upTo, hf, hq]
    have h1 : (b.upTo x).all (fun e => bytesCompare f.1 e.1 != 0) = false := by
      rw [List.all_eq_false]
      exact ⟨f, hmem, by simp [bytesCompare_self]⟩
    rw [h1]
    symm
    simp only [decide_eq_false_iff_not]
    omega
  · have h1 : (b.upTo x).all (fun e => bytesCompare f.1 e.1 != 0) = true := by
      rw [List.all_eq_true]
      intro e he
      simp only [Bucket.upTo, List.mem_filter, decide_eq_true_eq] at he
      have : f.1 ≠ e.1 := by
        intro heq
        rw [heq] at hq
        exact hq he.2
      simpa [bytesCompare_eq_zero] using this
    rw [h1]
    symm
    simp only [decide_eq_true_eq]
    omega

theorem PruneExpiredPriceAnalyticData_eq {bas : BoltAnalyticStorage}
    (hs : bas.priceAnalytic.Sorted) (hk : bas.priceAnalytic.WellKeyed)
    (hlen : bas.priceAnalytic.length < 2 ^ 64) (now : Nat) :
    PruneExpiredPriceAnalyticData bas now =
      (⟨bas.priceAnalytic.above (subU64 now priceAnalyticExpired)⟩,
        (bas.priceAnalytic.upTo (subU64 now priceAnalyticExpired)).length, none) := by
  unfold PruneExpiredPriceAnalyticData
  simp only [Cursor.First]
  rw [pruneLoop_eq _ _ _ _ (by norm_num), Bucket.takeWhile_keyLe hs hk (subU64_lt _ _),
    Bucket.delete_upTo, Nat.zero_add,
    Nat.mod_eq_of_lt (lt_of_le_of_lt (Bucket.upTo_length_le _ _) hlen)]

/-- C5: for a store of a state the storage can be in (ascending `uint64` keys)
and `now` not below the retention window, `PruneExpiredPriceAnalyticData now`
leaves exactly the entries with key above `now - 2592000000`, each with its
value, removes the others, and returns the number of entries removed. -/
theorem C5_prune_postcondition (bas : BoltAnalyticStorage) (now : Nat)
    (hs : bas.priceAnalytic.Sorted) (hk : bas.priceAnalytic.WellKeyed)
    (hlen : bas.priceAnalytic.length < 2 ^ 64)
    (hnow : 2592000000 ≤ now) (hu : now < 2 ^ 64) :
    PruneExpiredPriceAnalyticData bas now =
      (⟨bas.priceAnalytic.filter (fun e => decide (now - 2592000000 < BytesToUint64 e.1))⟩,
        (bas.priceAnalytic.filter (fun e => decide (BytesToUint64 e.1 ≤ now - 2592000000))).length,
        none) := by
  have hsub : subU64 now priceAnalyticExpired = now - 2592000000 := by
    rw [subU64_of_le hu (by simpa [priceAnalyticExpired] using hnow)]
    simp [priceAnalyticExpired]
  have h := PruneExpiredPriceAnalyticData_eq hs hk hlen now
  rw [hsub] at h
  exact h

/-- C5 at the input of the spec: records at `T = 0` and `T = 40 days`,
`now = 40 days`; only `T = 40 days` remains and the count is 1. -/
theorem C5_prune_postcondition_witness :
    PruneExpiredPriceAnalyticData analyticTwo fortyDays =
      (⟨[(Uint64ToBytes fortyDays, [2])]⟩, 1, none) :=
  (C5_prune_postcondition analyticTwo fortyDays (by decide) (by decide) (by decide)
    (by decide) (by decide))


/-! ## Exporting -/

theorem fileLines_append (xs ys : List Bytes) :
    fileLines (xs ++ ys) = fileLines xs ++ fileLines ys := by
  induction xs with
  | nil => rfl
  | cons x xs ih => simp [fileLines, ih]

theorem exportLoop_of_lines {σ : Type} (J : AnalyticCodec σ) (exp : Bytes) :
    ∀ (c : Cursor) (out : Bytes) (n : Nat), n < 2 ^ 64 →
      (∀ e ∈ c.takeWhile (keyLe exp), ∃ l, exportLine J e = some l) →
      exportLoop J exp c out n =
        (out ++ fileLines ((c.takeWhile (keyLe exp)).filterMap (exportLine J)),
          (n + (c.takeWhile (keyLe exp)).length) % 2 ^ 64, none) ∧
      ((c.takeWhile (keyLe exp)).filterMap (exportLine J)).length
        = (c.takeWhile (keyLe exp)).length := by
  intro c
  induction c with
  | nil =>
    intro out n hn _
    simp only [exportLoop, List.takeWhile_nil, List.filterMap_nil, fileLines, List.append_nil,
      List.length_nil, Nat.add_zero]
    rw [Nat.mod_eq_of_lt hn]
    exact ⟨rfl, trivial⟩
  | cons e c ih =>
    intro out n hn hl
    obtain ⟨k, v⟩ := e
    by_cases h : bytesCompare k exp ≤ 0
    · have hp : keyLe exp (k, v) = true := by simp [keyLe, h]
      rw [List.takeWhile_cons_of_pos hp] at hl ⊢
      obtain ⟨l, hline⟩ := hl (k, v) (List.mem_cons_self _ _)
      have hrest := ih (out ++ (l ++ [10])) (incU64 n) (incU64_lt n)
        (fun e he => hl e (List.mem_cons_of_mem _ he))
      have hline' := hline
      unfold exportLine at hline'
      simp only at hline'
      cases hu : J.unmarshalObj v with
      | none => rw [hu] at hline'; simp at hline'
      | some temp =>
        rw [hu] at hline'
        simp only at hline'
        simp only [exportLoop, h, if_true, hu, hline', List.filterMap_cons, hline,
          List.length_cons]
        rw [hrest.1, incU64_add_mod, hrest.2]
        simp [fileLines, List.append_assoc]
    · have hp : ¬ keyLe exp (k, v) = true := by simp [keyLe, h]
      rw [List.takeWhile_cons_of_neg hp]
      simp only [exportLoop, h, if_false, List.filterMap_nil, fileLines, List.append_nil,
        List.length_nil, Nat.add_zero]
      rw [Nat.mod_eq_of_lt hn]
      exact ⟨rfl, trivial⟩

theorem exportLoop_of_no_error {σ : Type} (J : AnalyticCodec σ) (exp : Bytes) :
    ∀ (c : Cursor) (out : Bytes) (n : Nat), (exportLoop J exp c out n).2.2 = none →
      (exportLoop J exp c out n).1 =
        out ++ fileLines ((c.takeWhile (keyLe exp)).filterMap (exportLine J)) := by
  intro c
  induction c with
  | nil =>
    intro out n _
    simp [exportLoop, fileLines]
  | cons e c ih =>
    intro out n herr
    obtain ⟨k, v⟩ := e
    by_cases h : bytesCompare k exp ≤ 0
    · have hp : keyLe exp (k, v) = true := by simp [keyLe, h]
      rw [List.takeWhile_cons_of_pos hp]
      simp only [exportLoop, h, if_true] at herr ⊢
      cases hu : J.unmarshalObj v with
      | none => rw [hu] at herr; simp at herr
      | some temp =>
        rw [hu] at herr
        simp only at herr ⊢
        cases hm : J.marshalResp (NewAnalyticPriceResponse (BytesToUint64 k) temp) with
        | none => rw [hm] at herr; simp at herr
        | some output =>
          rw [hm] at herr
          simp only at herr ⊢
          have hline : exportLine J (k, v) = some output := by
            simp [exportLine, hu, hm]
          rw [ih _ _ herr, List.filterMap_cons, hline]
          simp [fileLines, List.append_assoc]
    · have hp : ¬ keyLe exp (k, v) = true := by simp [keyLe, h]
      rw [List.takeWhile_cons_of_neg hp]
      simp [exportLoop, h, fileLines]

/-- C4 (the code at the failing input): the store holds one record at
timestamp 5 and `now = 10` is below the retention window; the record is not
older than the window (`5 + 2592000000 > 10`), yet the prune deletes it and the
export writes it: `now - priceAnalyticExpired` wraps around modulo `2 ^ 64`. -/
theorem C4_retention_boundary_wraps :
    ¬ (5 + 2592000000 ≤ 10) ∧
    subU64 10 priceAnalyticExpired = 2 ^ 64 - 2592000000 + 10 ∧
    PruneExpiredPriceAnalyticData ⟨[(Uint64ToBytes 5, [1])]⟩ 10 = (⟨[]⟩, 1, none) ∧
    ExportExpiredPriceAnalyticData wireAnalytic ⟨[(Uint64ToBytes 5, [1])]⟩ 10 ⟨[], true⟩ =
      { storage := ⟨[(Uint64ToBytes 5, [1])]⟩,
        file := ⟨Uint64ToBytes 5 ++ [1] ++ [10], true⟩, nRecord := 1, err := none } := by
  decide

/-- C6: for a store of a state the storage can be in (ascending `uint64` keys)
whose values unmarshal, a destination that can be created and `now` not below
the retention window, `ExportExpiredPriceAnalyticData` writes one line for each
entry with key at most `now - 2592000000`, in ascending timestamp order, each
line being the marshalled timestamp and data of its entry; it returns the number
of these entries and the storage is unchanged. -/
theorem C6_export_postcondition {σ : Type} (J : AnalyticCodec σ) (bas : BoltAnalyticStorage)
    (now : Nat) (file : FileState)
    (hs : bas.priceAnalytic.Sorted) (hk : bas.priceAnalytic.WellKeyed)
    (hlen : bas.priceAnalytic.length < 2 ^ 64)
    (hjson : ∀ e ∈ bas.priceAnalytic, ∃ temp, J.unmarshalObj e.2 = some temp)
    (hmar : ∀ r, ∃ out, J.marshalResp r = some out)
    (hc : file.creatable = true)
    (hnow : 2592000000 ≤ now) (hu : now < 2 ^ 64) :
    ExportExpiredPriceAnalyticData J bas now file =
      { storage := bas,
        file :=
          { file with
            content := fileLines
              ((bas.priceAnalytic.filter
                (fun e => decide (BytesToUint64 e.1 ≤ now - 2592000000))).filterMap
                  (exportLine J)) },
        nRecord :=
          (bas.priceAnalytic.filter
            (fun e => decide (BytesToUint64 e.1 ≤ now - 2592000000))).length,
        err := none } ∧
    ((bas.priceAnalytic.filter
        (fun e => decide (BytesToUint64 e.1 ≤ now - 2592000000))).filterMap
          (exportLine J)).length =
      (bas.priceAnalytic.filter
        (fun e => decide (BytesToUint64 e.1 ≤ now - 2592000000))).length ∧
    (bas.priceAnalytic.filter
        (fun e => decide (BytesToUint64 e.1 ≤ now - 2592000000))).Pairwise
      (fun e f => BytesToUint64 e.1 < BytesToUint64 f.1) := by
  have hsub : subU64 now priceAnalyticExpired = now - 2592000000 := by
    rw [subU64_of_le hu (by simpa [priceAnalyticExpired] using hnow)]
    simp [priceAnalyticExpired]
  have hline : ∀ e ∈ bas.priceAnalytic, ∃ l, exportLine J e = some l := by
    intro e he
    obtain ⟨temp, ht⟩ := hjson e he
    obtain ⟨out, ho⟩ := hmar (NewAnalyticPriceResponse (BytesToUint64 e.1) temp)
    exact ⟨out, by simp [exportLine, ht, ho]⟩
  have hloop := exportLoop_of_lines J (Uint64ToBytes (subU64 now priceAnalyticExpired))
    bas.priceAnalytic [] 0 (by norm_num)
    (fun e he => hline e ((List.takeWhile_sublist _).subset he))
  rw [Bucket.takeWhile_keyLe hs hk (subU64_lt _ _), hsub] at hloop
  simp only [Bucket.upTo, List.nil_append, Nat.zero_add] at hloop
  rw [Nat.mod_eq_of_lt (lt_of_le_of_lt (List.length_filter_le _ _) hlen)] at hloop
  refine ⟨?_, hloop.2, (hs.pairwise_lt hk).sublist (List.filter_sublist _)⟩
  unfold ExportExpiredPriceAnalyticData osCreate
  simp only [hc, if_true, Cursor.First]
  rw [hsub, hloop.1]

/-- C6 at a concrete input: records at `T = 0` and `T = 40 days`, `now = 40
days`, an existing destination; the line of `T = 0` is written, the count is 1
and both records are still stored. -/
theorem C6_export_postcondition_witness :
    ExportExpiredPriceAnalyticData wireAnalytic analyticTwo fortyDays ⟨[7, 10], true⟩ =
      { storage := analyticTwo,
        file := ⟨Uint64ToBytes 0 ++ [1] ++ [10], true⟩, nRecord := 1, err := none } :=
  (C6_export_postcondition wireAnalytic analyticTwo fortyDays ⟨[7, 10], true⟩ (by decide)
    (by decide) (by decide) (fun e _ => ⟨e.2, rfl⟩) (fun r => ⟨_, rfl⟩) rfl (by decide)
    (by decide)).1

/-- C7 (counterexample): the destination holds the line `[7]` before the export;
the export succeeds and the file afterwards holds only the exported line, not
the prior line followed by it. -/
theorem C7_export_overwrites_prior_content :
    (ExportExpiredPriceAnalyticData wireAnalytic analyticTwo fortyDays
      ⟨fileLines [[7]], true⟩).err = none ∧
    (ExportExpiredPriceAnalyticData wireAnalytic analyticTwo fortyDays
      ⟨fileLines [[7]], true⟩).file.content = fileLines [Uint64ToBytes 0 ++ [1]] ∧
    (ExportExpiredPriceAnalyticData wireAnalytic analyticTwo fortyDays
      ⟨fileLines [[7]], true⟩).file.content ≠
        fileLines [[7]] ++ fileLines [Uint64ToBytes 0 ++ [1]] := by
  decide

/-- C7 (amended): for every prior content `P` of the destination and every
store, after `ExportExpiredPriceAnalyticData` succeeds the file holds exactly the
lines of this export, one for each entry the cursor loop visited; nothing of `P`
is kept (`os.Create` truncates the destination). -/
theorem C7_export_truncates {σ : Type} (J : AnalyticCodec σ) (bas : BoltAnalyticStorage)
    (now : Nat) (P : Bytes) (creatable : Bool)
    (h : (ExportExpiredPriceAnalyticData J bas now ⟨P, creatable⟩).err = none) :
    (ExportExpiredPriceAnalyticData J bas now ⟨P, creatable⟩).file.content =
      fileLines
        ((bas.priceAnalytic.takeWhile
          (keyLe (Uint64ToBytes (subU64 now priceAnalyticExpired)))).filterMap (exportLine J)) := by
  unfold ExportExpiredPriceAnalyticData osCreate at h ⊢
  cases creatable with
  | false => simp at h
  | true =>
    simp only [if_true, Cursor.First] at h ⊢
    have := exportLoop_of_no_error J (Uint64ToBytes (subU64 now priceAnalyticExpired))
      bas.priceAnalytic [] 0 h
    rw [this, List.nil_append]

/-- C7 (amended) at a concrete input: prior content `[7]`, records at `T = 0`
and `T = 40 days`, `now = 40 days`. -/
theorem C7_export_truncates_witness :
    (ExportExpiredPriceAnalyticData wireAnalytic analyticTwo fortyDays
      ⟨fileLines [[7]], true⟩).err = none ∧
    (ExportExpiredPriceAnalyticData wireAnalytic analyticTwo fortyDays
      ⟨fileLines [[7]], true⟩).file.content =
      fileLines
        ((analyticTwo.priceAnalytic.takeWhile
          (keyLe (Uint64ToBytes (subU64 fortyDays priceAnalyticExpired)))).filterMap
            (exportLine wireAnalytic)) :=
  ⟨by decide,
   C7_export_truncates wireAnalytic analyticTwo fortyDays (fileLines [[7]]) true (by decide)⟩


/-! ## Range queries -/

theorem getTradeLogsLoop_err (J : LogCodec) (max : Bytes) : ∀ (c : Cursor) (res : List TradeLog),
    (getTradeLogsLoop J max c res).2 ≠ some Error.rangeTooBroad ∧
    ((∀ e ∈ c, ∃ r, J.unmarshalTrade e.2 = some r) →
      getTradeLogsLoop J max c res =
        (res ++ (c.takeWhile (keyLe max)).filterMap (fun e => J.unmarshalTrade e.2), none)) := by
  intro c
  induction c with
  | nil => intro res; simp [getTradeLogsLoop]
  | cons e c ih =>
    intro res
    obtain ⟨k, v⟩ := e
    by_cases h : bytesCompare k max ≤ 0
    · have hp : keyLe max (k, v) = true := by simp [keyLe, h]
      rw [List.takeWhile_cons_of_pos hp]
      cases hu : J.unmarshalTrade v with
      | none =>
        refine ⟨by simp [getTradeLogsLoop, h, hu], fun hall => ?_⟩
        obtain ⟨r, hr⟩ := hall (k, v) (List.mem_cons_self _ _)
        simp only at hr
        rw [hu] at hr
        exact absurd hr (by simp)
      | some r =>
        simp only [getTradeLogsLoop, h, if_true, hu]
        refine ⟨(ih _).1, fun hall => ?_⟩
        rw [(ih _).2 (fun e he => hall e (List.mem_cons_of_mem _ he))]
        simp [List.filterMap_cons, hu]
    · have hp : ¬ keyLe max (k, v) = true := by simp [keyLe, h]
      rw [List.takeWhile_cons_of_neg hp]
      simp [getTradeLogsLoop, h]

theorem getCatLogsLoop_err (J : LogCodec) (max : Bytes) : ∀ (c : Cursor) (res : List SetCatLog),
    (getCatLogsLoop J max c res).2 ≠ some Error.rangeTooBroad ∧
    ((∀ e ∈ c, ∃ r, J.unmarshalCat e.2 = some r) → (getCatLogsLoop J max c res).2 = none) := by
  intro c
  induction c with
  | nil => intro res; simp [getCatLogsLoop]
  | cons e c ih =>
    intro res
    obtain ⟨k, v⟩ := e
    by_cases h : bytesCompare k max ≤ 0
    · cases hu : J.unmarshalCat v with
      | none =>
        refine ⟨by simp [getCatLogsLoop, h, hu], fun hall => ?_⟩
        obtain ⟨r, hr⟩ := hall (k, v) (List.mem_cons_self _ _)
        simp only at hr
        rw [hu] at hr
        exact absurd hr (by simp)
      | some r =>
        simp only [getCatLogsLoop, h, if_true, hu]
        exact ⟨(ih _).1, fun hall => (ih _).2 (fun e he => hall e (List.mem_cons_of_mem _ he))⟩
    · simp [getCatLogsLoop, h]

theorem getPriceAnalyticLoop_err {σ : Type} (J : AnalyticCodec σ) (max : Bytes) :
    ∀ (c : Cursor) (res : List (AnalyticPriceResponse σ)),
    (getPriceAnalyticLoop J max c res).2 ≠ some Error.rangeTooBroad ∧
    ((∀ e ∈ c, ∃ r, J.unmarshalObj e.2 = some r) →
      (getPriceAnalyticLoop J max c res).2 = none) := by
  intro c
  induction c with
  | nil => intro res; simp [getPriceAnalyticLoop]
  | cons e c ih =>
    intro res
    obtain ⟨k, v⟩ := e
    by_cases h : bytesCompare k max ≤ 0
    · cases hu : J.unmarshalObj v with
      | none =>
        refine ⟨by simp [getPriceAnalyticLoop, h, hu], fun hall => ?_⟩
        obtain ⟨r, hr⟩ := hall (k, v) (List.mem_cons_self _ _)
        simp only at hr
        rw [hu] at hr
        exact absurd hr (by simp)
      | some r =>
        simp only [getPriceAnalyticLoop, h, if_true, hu]
        exact ⟨(ih _).1, fun hall => (ih _).2 (fun e he => hall e (List.mem_cons_of_mem _ he))⟩
    · simp [getPriceAnalyticLoop, h]

theorem Cursor.Seek_subset (b : Bucket) (k : Bytes) : Cursor.Seek b k ⊆ b :=
  (List.dropWhile_sublist _).subset

/-- C8: for `fromTime ≤ toTime`, each of `GetTradeLogs`, `GetCatLogs` (window
86400000000000) and `GetPriceAnalyticData` (window 86400000) fails with the
range-too-broad error exactly when `toTime - fromTime` exceeds the window,
whatever the store holds; within the window a query over values that unmarshal
succeeds. -/
theorem C8_range_window_limit {σ : Type} (J : LogCodec) (A : AnalyticCodec σ)
    (bls : BoltLogStorage) (bas : BoltAnalyticStorage) (fromTime toTime : Nat)
    (hft : fromTime ≤ toTime) (hto : toTime < 2 ^ 64) :
    (((GetTradeLogs J bls fromTime toTime).2 = some Error.rangeTooBroad
        ↔ 86400000000000 < toTime - fromTime) ∧
      ((GetCatLogs J bls fromTime toTime).2 = some Error.rangeTooBroad
        ↔ 86400000000000 < toTime - fromTime) ∧
      ((GetPriceAnalyticData A bas fromTime toTime).2 = some Error.rangeTooBroad
        ↔ 86400000 < toTime - fromTime)) ∧
    ((∀ e ∈ bls.db.tradelog, (J.unmarshalTrade e.2).isSome = true) →
      toTime - fromTime ≤ 86400000000000 → (GetTradeLogs J bls fromTime toTime).2 = none) ∧
    ((∀ e ∈ bls.db.catlog, (J.unmarshalCat e.2).isSome = true) →
      toTime - fromTime ≤ 86400000000000 → (GetCatLogs J bls fromTime toTime).2 = none) ∧
    ((∀ e ∈ bas.priceAnalytic, (A.unmarshalObj e.2).isSome = true) →
      toTime - fromTime ≤ 86400000 → (GetPriceAnalyticData A bas fromTime toTime).2 = none) := by
  have hsub : subU64 toTime fromTime = toTime - fromTime := subU64_of_le hto hft
  refine ⟨⟨?_, ?_, ?_⟩, ?_, ?_, ?_⟩
  · unfold GetTradeLogs
    rw [hsub]
    by_cases h : toTime - fromTime > maxGetLogPeriod
    · simp only [h, if_true, true_iff]
      exact h
    · simp only [h, if_false]
      exact ⟨fun he => absurd he (getTradeLogsLoop_err _ _ _ _).1, fun hw => absurd hw h⟩
  · unfold GetCatLogs
    rw [hsub]
    by_cases h : toTime - fromTime > maxGetLogPeriod
    · simp only [h, if_true, true_iff]
      exact h
    · simp only [h, if_false]
      exact ⟨fun he => absurd he (getCatLogsLoop_err _ _ _ _).1, fun hw => absurd hw h⟩
  · unfold GetPriceAnalyticData
    simp only
    rw [hsub]
    by_cases h : toTime - fromTime > maxGetAnalyticPeriod
    · simp only [h, if_true, true_iff]
      exact h
    · simp only [h, if_false]
      exact ⟨fun he => absurd he (getPriceAnalyticLoop_err _ _ _ _).1, fun hw => absurd hw h⟩
  · intro hall hw
    unfold GetTradeLogs
    rw [hsub]
    have h : ¬ toTime - fromTime > maxGetLogPeriod := by simpa [maxGetLogPeriod] using hw
    simp only [h, if_false]
    rw [(getTradeLogsLoop_err _ _ _ _).2 (fun e he => Option.isSome_iff_exists.1 (hall e (Cursor.Seek_subset _ _ he)))]
  · intro hall hw
    unfold GetCatLogs
    rw [hsub]
    have h : ¬ toTime - fromTime > maxGetLogPeriod := by simpa [maxGetLogPeriod] using hw
    simp only [h, if_false]
    exact (getCatLogsLoop_err _ _ _ _).2 (fun e he => Option.isSome_iff_exists.1 (hall e (Cursor.Seek_subset _ _ he)))
  · intro hall hw
    unfold GetPriceAnalyticData
    simp only
    rw [hsub]
    have h : ¬ toTime - fromTime > maxGetAnalyticPeriod := by simpa [maxGetAnalyticPeriod] using hw
    simp only [h, if_false]
    exact (getPriceAnalyticLoop_err _ _ _ _).2 (fun e he => Option.isSome_iff_exists.1 (hall e (Cursor.Seek_subset _ _ he)))

/-- C8 at the boundary: over a store with three trade records and the analytic
store with two records, a query spanning exactly the window succeeds and one
spanning one unit more fails with the range-too-broad error. -/
theorem C8_range_window_limit_witness :
    ((GetTradeLogs wireCodec tradeThree 0 86400000000000).2 = none ∧
      (GetCatLogs wireCodec logAfterTwo 7 86400000000007).2 = none ∧
      (GetPriceAnalyticData wireAnalytic analyticTwo 5 86400005).2 = none) ∧
    ((GetTradeLogs wireCodec tradeThree 0 86400000000001).2 = some Error.rangeTooBroad ∧
      (GetCatLogs wireCodec tradeThree 7 86400000000008).2 = some Error.rangeTooBroad ∧
      (GetPriceAnalyticData wireAnalytic analyticTwo 5 86400006).2 = some Error.rangeTooBroad) :=
  ⟨⟨(C8_range_window_limit wireCodec wireAnalytic tradeThree analyticTwo 0 86400000000000
        (by decide) (by decide)).2.1 (by decide) (by decide),
     (C8_range_window_limit wireCodec wireAnalytic logAfterTwo analyticTwo 7 86400000000007
        (by decide) (by decide)).2.2.1 (by decide) (by decide),
     (C8_range_window_limit wireCodec wireAnalytic tradeThree analyticTwo 5 86400005
        (by decide) (by decide)).2.2.2 (by decide) (by decide)⟩,
   ⟨(C8_range_window_limit wireCodec wireAnalytic tradeThree analyticTwo 0 86400000000001
        (by decide) (by decide)).1.1.2 (by decide),
     (C8_range_window_limit wireCodec wireAnalytic tradeThree analyticTwo 7 86400000000008
        (by decide) (by decide)).1.2.1.2 (by decide),
     (C8_range_window_limit wireCodec wireAnalytic tradeThree analyticTwo 5 86400006
        (by decide) (by decide)).1.2.2.2 (by decide)⟩⟩

/-! ## The trade-log range query -/

theorem dropWhile_eq_filter_of_pairwise {α : Type} (r : α → α → Prop) (p : α → Bool) :
    ∀ l : List α, l.Pairwise r → (∀ a b, r a b → p a = false → p b = false) →
      l.dropWhile p = l.filter (fun a => !p a) := by
  intro l
  induction l with
  | nil => intro _ _; rfl
  | cons a l ih =>
    intro hp hm
    rw [List.pairwise_cons] at hp
    cases hpa : p a with
    | true =>
      rw [List.dropWhile_cons_of_pos hpa, List.filter_cons_of_neg (by simp [hpa]), ih hp.2 hm]
    | false =>
      rw [List.dropWhile_cons_of_neg (by simp [hpa]), List.filter_cons_of_pos (by simp [hpa])]
      congr 1
      symm
      rw [List.filter_eq_self]
      intro b hb
      simp [hm a b (hp.1 b hb) hpa]

theorem dropWhile_congr_mem {α : Type} (p q : α → Bool) :
    ∀ l : List α, (∀ a ∈ l, p a = q a) → l.dropWhile p = l.dropWhile q := by
  intro l
  induction l with
  | nil => intro _; rfl
  | cons a l ih =>
    intro h
    have ha := h a (List.mem_cons_self a l)
    have hl := ih (fun b hb => h b (List.mem_cons_of_mem a hb))
    simp only [List.dropWhile_cons, ha, hl]

theorem Bucket.Seek_eq {b : Bucket} (hs : b.Sorted) (hk : b.WellKeyed) {x : Nat}
    (hx : x < 2 ^ 64) :
    Cursor.Seek b (Uint64ToBytes x) = b.filter (fun e => decide (x ≤ BytesToUint64 e.1)) := by
  unfold Cursor.Seek
  rw [dropWhile_congr_mem _ (fun e => decide (BytesToUint64 e.1 < x)) b]
  · rw [dropWhile_eq_filter_of_pairwise _ _ b (hs.pairwise_lt hk)]
    · apply List.filter_congr
      intro e _
      by_cases hh : x ≤ BytesToUint64 e.1
      · have hn : ¬ BytesToUint64 e.1 < x := by omega
        simp [hh, hn]
      · have hn : BytesToUint64 e.1 < x := by omega
        simp [hh, hn]
    · intro e f hef he
      simp only [decide_eq_false_iff_not] at he ⊢
      omega
  · intro e he
    obtain ⟨h1, h2⟩ := hk e he
    rw [h1, BytesToUint64_Uint64ToBytes h2]
    exact decide_eq_decide.2 (bytesCompare_Uint64_lt h2 hx)

theorem Bucket.Sorted.filter_sorted {b : Bucket} (hs : b.Sorted) (p : Bytes × Bytes → Bool) :
    Bucket.Sorted (b.filter p) :=
  List.Pairwise.sublist (List.filter_sublist b) hs

theorem Bucket.WellKeyed.filter_wellKeyed {b : Bucket} (hk : b.WellKeyed) (p : Bytes × Bytes → Bool) :
    Bucket.WellKeyed (b.filter p) :=
  fun e he => hk e (List.mem_of_mem_filter he)

theorem filter_filterMap_of_agree {α β : Type} (f : α → Option β) (P : β → Bool) (Q : α → Bool) :
    ∀ l : List α, (∀ e ∈ l, ∀ r, f e = some r → P r = Q e) →
      (l.filterMap f).filter P = (l.filter Q).filterMap f := by
  intro l
  induction l with
  | nil => intro _; rfl
  | cons e l ih =>
    intro h
    have hl := ih (fun a ha => h a (List.mem_cons_of_mem e ha))
    cases hf : f e with
    | none =>
      rw [List.filterMap_cons_none hf, hl]
      cases hq : Q e with
      | true => rw [List.filter_cons_of_pos hq, List.filterMap_cons_none hf]
      | false => rw [List.filter_cons_of_neg (by simp [hq])]
    | some r =>
      have hpq := h e (List.mem_cons_self e l) r hf
      rw [List.filterMap_cons_some hf]
      cases hq : Q e with
      | true =>
        rw [hq] at hpq
        rw [List.filter_cons_of_pos hpq, List.filter_cons_of_pos hq,
          List.filterMap_cons_some hf, hl]
      | false =>
        rw [hq] at hpq
        rw [List.filter_cons_of_neg (by simp [hpq]), List.filter_cons_of_neg (by simp [hq]), hl]

theorem GetTradeLogs_eq (J : LogCodec) (bls : BoltLogStorage) (fromTime toTime : Nat)
    (hs : bls.db.tradelog.Sorted) (hk : bls.db.tradelog.WellKeyed)
    (hdec : ∀ e ∈ bls.db.tradelog,
      (J.unmarshalTrade e.2).map (fun r => r.Timestamp) = some (BytesToUint64 e.1))
    (hft : fromTime ≤ toTime) (hto : toTime < 2 ^ 64)
    (hw : toTime - fromTime ≤ 86400000000000) :
    GetTradeLogs J bls fromTime toTime =
      ((storedTradeLogs J bls).filter
        (fun r => decide (fromTime ≤ r.Timestamp ∧ r.Timestamp ≤ toTime)), none) ∧
    (storedTradeLogs J bls).Pairwise (fun r s => r.Timestamp < s.Timestamp) := by
  have hsome : ∀ e ∈ bls.db.tradelog, ∃ r, J.unmarshalTrade e.2 = some r := by
    intro e he
    have := hdec e he
    cases hu : J.unmarshalTrade e.2 with
    | none => rw [hu] at this; simp at this
    | some r => exact ⟨r, rfl⟩
  have hts : ∀ e ∈ bls.db.tradelog, ∀ r, J.unmarshalTrade e.2 = some r →
      r.Timestamp = BytesToUint64 e.1 := by
    intro e he r hr
    have := hdec e he
    rw [hr] at this
    simpa using this
  constructor
  · unfold GetTradeLogs
    rw [subU64_of_le hto hft]
    have h : ¬ toTime - fromTime > maxGetLogPeriod := by simpa [maxGetLogPeriod] using hw
    simp only [h, if_false]
    rw [(getTradeLogsLoop_err _ _ _ _).2 (fun e he => hsome e (Cursor.Seek_subset _ _ he)),
      Bucket.Seek_eq hs hk (lt_of_le_of_lt hft hto),
      Bucket.takeWhile_keyLe (hs.filter_sorted _) (hk.filter_wellKeyed _) hto, Bucket.upTo, List.filter_filter,
      List.nil_append, storedTradeLogs]
    rw [filter_filterMap_of_agree (fun e : Bytes × Bytes => J.unmarshalTrade e.2)
      (fun r : TradeLog => decide (fromTime ≤ r.Timestamp ∧ r.Timestamp ≤ toTime))
      (fun e : Bytes × Bytes =>
        decide (BytesToUint64 e.1 ≤ toTime) && decide (fromTime ≤ BytesToUint64 e.1))
      bls.db.tradelog]
    intro e he r hr
    rw [hts e he r hr, Bool.and_comm]
    simp
  · unfold storedTradeLogs
    refine List.Pairwise.filterMap _ ?_
      (List.Pairwise.imp_of_mem (S := fun e f => (e ∈ bls.db.tradelog ∧ f ∈ bls.db.tradelog) ∧
        BytesToUint64 e.1 < BytesToUint64 f.1) (fun ha hb h => ⟨⟨ha, hb⟩, h⟩)
        (hs.pairwise_lt hk))
    intro e f hef r hr s hs'
    rw [hts e hef.1.1 r hr, hts f hef.1.2 s hs']
    exact hef.2

/-- C9: on a store of a state the storage can be in (ascending `uint64` keys,
every value unmarshalling to the record stored under its timestamp), for
`fromTime ≤ toTime` within the window `GetTradeLogs` succeeds and returns exactly
the stored trade records with `fromTime ≤ Timestamp ≤ toTime`, in the order of
the bucket, which is strictly ascending in the timestamp. -/
theorem C9_trade_log_range_query (J : LogCodec) (bls : BoltLogStorage) (fromTime toTime : Nat)
    (hs : bls.db.tradelog.Sorted) (hk : bls.db.tradelog.WellKeyed)
    (hdec : ∀ e ∈ bls.db.tradelog,
      (J.unmarshalTrade e.2).map (fun r => r.Timestamp) = some (BytesToUint64 e.1))
    (hft : fromTime ≤ toTime) (hto : toTime < 2 ^ 64)
    (hw : toTime - fromTime ≤ 86400000000000) :
    GetTradeLogs J bls fromTime toTime =
      ((storedTradeLogs J bls).filter
        (fun r => decide (fromTime ≤ r.Timestamp ∧ r.Timestamp ≤ toTime)), none) ∧
    (storedTradeLogs J bls).Pairwise (fun r s => r.Timestamp < s.Timestamp) ∧
    (GetTradeLogs J bls fromTime toTime).1.Pairwise (fun r s => r.Timestamp < s.Timestamp) := by
  obtain ⟨h1, h2⟩ := GetTradeLogs_eq J bls fromTime toTime hs hk hdec hft hto hw
  refine ⟨h1, h2, ?_⟩
  rw [h1]
  exact h2.filter _

/-- C9 at a concrete input: trade records stored at timestamps 5, 9 and 3; the
query `[3, 5]` returns the records of 3 and 5, both endpoints included. -/
theorem C9_trade_log_range_query_witness :
    GetTradeLogs wireCodec tradeThree 3 5 = ([tradeRec 3 2 1, tradeRec 5 1 0], none) :=
  (C9_trade_log_range_query wireCodec tradeThree 3 5 (by decide) (by decide) (by decide)
    (by decide) (by decide) (by decide)).1


/-! ## The order of category logs -/

theorem bytesCompare_swap : ∀ a b : Bytes, bytesCompare b a = - bytesCompare a b := by
  intro a
  induction a with
  | nil =>
    intro b
    cases b <;> simp [bytesCompare]
  | cons x xs ih =>
    intro b
    cases b with
    | nil => simp [bytesCompare]
    | cons y ys =>
      simp only [bytesCompare]
      by_cases h1 : x < y
      · have h2 : ¬ y < x := by omega
        simp [h1, h2]
      · by_cases h2 : y < x
        · simp [h1, h2]
        · simp only [h1, h2, if_false]
          exact ih ys

theorem Bucket.Put_of_all_lt : ∀ (b : Bucket) (k v : Bytes),
    (∀ e ∈ b, bytesCompare e.1 k < 0) → b.Put k v = b ++ [(k, v)] := by
  intro b
  induction b with
  | nil => intro k v _; rfl
  | cons e rest ih =>
    intro k v h
    obtain ⟨k', v'⟩ := e
    have hlt : bytesCompare k' k < 0 := h (k', v') (List.mem_cons_self _ _)
    have hsw := bytesCompare_swap k' k
    have h1 : ¬ bytesCompare k k' < 0 := by omega
    have h2 : ¬ bytesCompare k k' = 0 := by omega
    simp only [Bucket.Put, h1, h2, if_false, List.cons_append]
    rw [ih k v (fun e he => h e (List.mem_cons_of_mem _ he))]

theorem StoreCatLog_of_no_error {J : LogCodec} {bls : BoltLogStorage} {l : SetCatLog}
    (h : (StoreCatLog J bls l).2 = none) :
    ∃ d, J.marshalCat l = some d ∧
      (StoreCatLog J bls l).1 =
        { bls with db := { bls.db with catlog := bls.db.catlog.Put (Uint64ToBytes l.Timestamp) d } } := by
  unfold StoreCatLog dbUpdate at h ⊢
  cases hm : J.marshalCat l with
  | none => rw [hm] at h; simp at h
  | some d =>
    refine ⟨d, rfl, ?_⟩
    rw [hm] at h
    simp only at h ⊢
    split_ifs at h ⊢ with hc
    rfl

theorem storeAllCat_catlog (J : LogCodec) : ∀ (rs : List SetCatLog) (bls bls' : BoltLogStorage),
    storeAllCat J rs bls = some bls' →
    (∀ r ∈ rs, r.Timestamp < 2 ^ 64) →
    rs.Pairwise (fun r s => r.Timestamp < s.Timestamp) →
    (∀ e ∈ bls.db.catlog, ∀ r ∈ rs, bytesCompare e.1 (Uint64ToBytes r.Timestamp) < 0) →
    (∀ r ∈ rs, ∀ d, J.marshalCat r = some d → J.unmarshalCat d = some r) →
    ∃ E : Bucket, bls'.db.catlog = bls.db.catlog ++ E ∧ bls'.db.tradelog = bls.db.tradelog ∧
      List.Forall₂ (fun e r => e.1 = Uint64ToBytes r.Timestamp ∧ J.unmarshalCat e.2 = some r)
        E rs := by
  intro rs
  induction rs with
  | nil =>
    intro bls bls' h _ _ _ _
    simp only [storeAllCat, Option.some.injEq] at h
    subst h
    exact ⟨[], by simp, rfl, List.Forall₂.nil⟩
  | cons l ls ih =>
    intro bls bls' h hu hasc hlt hround
    simp only [storeAllCat] at h
    split_ifs at h with hok
    obtain ⟨d, hd, hst⟩ := StoreCatLog_of_no_error hok
    rw [List.pairwise_cons] at hasc
    have hl64 := hu l (List.mem_cons_self _ _)
    have hcat : (StoreCatLog J bls l).1.db.catlog
        = bls.db.catlog ++ [(Uint64ToBytes l.Timestamp, d)] := by
      rw [hst]
      exact Bucket.Put_of_all_lt _ _ _ (fun e he => hlt e he l (List.mem_cons_self _ _))
    have htr : (StoreCatLog J bls l).1.db.tradelog = bls.db.tradelog := by rw [hst]
    obtain ⟨E, hE, hT, hF⟩ := ih (StoreCatLog J bls l).1 bls' h
      (fun r hr => hu r (List.mem_cons_of_mem _ hr)) hasc.2
      (by
        intro e he r hr
        rw [hcat, List.mem_append] at he
        rcases he with he | he
        · exact hlt e he r (List.mem_cons_of_mem _ hr)
        · simp only [List.mem_singleton] at he
          subst he
          exact (bytesCompare_Uint64_lt hl64 (hu r (List.mem_cons_of_mem _ hr))).2
            (hasc.1 r hr))
      (fun r hr => hround r (List.mem_cons_of_mem _ hr))
    refine ⟨(Uint64ToBytes l.Timestamp, d) :: E, ?_, ?_, ?_⟩
    · rw [hE, hcat, List.append_assoc, List.singleton_append]
    · rw [hT, htr]
    · exact List.Forall₂.cons ⟨rfl, hround l (List.mem_cons_self _ _) d hd⟩ hF

theorem getCatLogsLoop_of_forall₂ (J : LogCodec) {toTime : Nat} (hto : toTime < 2 ^ 64) :
    ∀ (E : Bucket) (rs : List SetCatLog),
    List.Forall₂ (fun e r => e.1 = Uint64ToBytes r.Timestamp ∧ J.unmarshalCat e.2 = some r) E rs →
    (∀ r ∈ rs, r.Timestamp ≤ toTime) →
    ∀ res, getCatLogsLoop J (Uint64ToBytes toTime) E res = (rs.reverse ++ res, none) := by
  intro E rs hF
  induction hF with
  | nil => intro _ res; simp [getCatLogsLoop]
  | @cons e r E rs her _ ih =>
    intro hle res
    obtain ⟨k, v⟩ := e
    simp only at her
    have hr := hle r (List.mem_cons_self _ _)
    have hc : bytesCompare k (Uint64ToBytes toTime) ≤ 0 := by
      rw [her.1]
      exact (bytesCompare_Uint64_le (lt_of_le_of_lt hr hto) hto).2 hr
    simp only [getCatLogsLoop, hc, if_true, her.2]
    rw [ih (fun s hs => hle s (List.mem_cons_of_mem _ hs))]
    simp

theorem Seek_of_forall₂ (J : LogCodec) {fromTime : Nat} (hfrom : fromTime < 2 ^ 64)
    {E : Bucket} {rs : List SetCatLog}
    (hF : List.Forall₂
      (fun e r => e.1 = Uint64ToBytes r.Timestamp ∧ J.unmarshalCat e.2 = some r) E rs)
    (hu : ∀ r ∈ rs, r.Timestamp < 2 ^ 64) (hge : ∀ r ∈ rs, fromTime ≤ r.Timestamp) :
    Cursor.Seek E (Uint64ToBytes fromTime) = E := by
  cases hF with
  | nil => rfl
  | @cons e r E rs her _ =>
    unfold Cursor.Seek
    apply List.dropWhile_cons_of_neg
    rw [her.1]
    have h1 := hge r (List.mem_cons_self _ _)
    have h2 := hu r (List.mem_cons_self _ _)
    have := bytesCompare_Uint64_lt h2 hfrom
    simp only [decide_eq_true_eq]
    omega

/-- C10 (counterexample): the category records of block 1 (timestamp 100) and
then of block 2 (timestamp 50) are stored, both calls succeed; over the window
`[0, 200]` `GetCatLogs` returns them in insertion order, not in reverse
insertion order. -/
theorem C10_cat_logs_not_reverse_insertion :
    (storeAllCat wireCodec [catRec 100 1 0, catRec 50 2 0] emptyLogStorage).map
        (fun s => GetCatLogs wireCodec s 0 200)
      = some ([catRec 100 1 0, catRec 50 2 0], none) ∧
    [catRec 100 1 0, catRec 50 2 0] ≠ [catRec 100 1 0, catRec 50 2 0].reverse := by
  decide

/-- C10 (amended): when the category bucket is empty, a sequence of `StoreCatLog`
calls all succeed and the timestamps of the records increase strictly in
insertion order, then over every window within the maximum range that contains
their timestamps `GetCatLogs` returns the records in reverse insertion order
(most recent first); `GetTradeLogs` over the same store returns its records in
strictly ascending timestamp order. -/
theorem C10_cat_logs_reverse_order (J : LogCodec) (bls bls' : BoltLogStorage)
    (rs : List SetCatLog) (fromTime toTime : Nat)
    (hempty : bls.db.catlog = [])
    (hstore : storeAllCat J rs bls = some bls')
    (hasc : rs.Pairwise (fun r s => r.Timestamp < s.Timestamp))
    (hround : ∀ r ∈ rs, ∀ d, J.marshalCat r = some d → J.unmarshalCat d = some r)
    (hwin : ∀ r ∈ rs, fromTime ≤ r.Timestamp ∧ r.Timestamp ≤ toTime)
    (hft : fromTime ≤ toTime) (hto : toTime < 2 ^ 64)
    (hw : toTime - fromTime ≤ 86400000000000)
    (hs : bls.db.tradelog.Sorted) (hk : bls.db.tradelog.WellKeyed)
    (hdec : ∀ e ∈ bls.db.tradelog,
      (J.unmarshalTrade e.2).map (fun r => r.Timestamp) = some (BytesToUint64 e.1)) :
    GetCatLogs J bls' fromTime toTime = (rs.reverse, none) ∧
    (GetTradeLogs J bls' fromTime toTime).2 = none ∧
    (GetTradeLogs J bls' fromTime toTime).1.Pairwise (fun r s => r.Timestamp < s.Timestamp) := by
  have hu : ∀ r ∈ rs, r.Timestamp < 2 ^ 64 := fun r hr => lt_of_le_of_lt (hwin r hr).2 hto
  obtain ⟨E, hE, hT, hF⟩ := storeAllCat_catlog J rs bls bls' hstore hu hasc
    (by rw [hempty]; intro e he; simp at he) hround
  rw [hempty, List.nil_append] at hE
  constructor
  · unfold GetCatLogs
    rw [subU64_of_le hto hft]
    have h : ¬ toTime - fromTime > maxGetLogPeriod := by simpa [maxGetLogPeriod] using hw
    simp only [h, if_false]
    rw [hE, Seek_of_forall₂ J (lt_of_le_of_lt hft hto) hF hu (fun r hr => (hwin r hr).1),
      getCatLogsLoop_of_forall₂ J hto E rs hF (fun r hr => (hwin r hr).2), List.append_nil]
  · rw [← hT] at hs hk hdec
    obtain ⟨h1, h2⟩ := GetTradeLogs_eq J bls' fromTime toTime hs hk hdec hft hto hw
    rw [h1]
    exact ⟨rfl, h2.filter _⟩

/-- C10 (amended) at a concrete input: the trade bucket holds three records, the
category records of timestamps 10 and 20 are stored in this order; over the
window `[0, 100]` the category record of 20 comes first. -/
theorem C10_cat_logs_reverse_order_witness :
    GetCatLogs wireCodec
        (StoreCatLog wireCodec (StoreCatLog wireCodec tradeThree (catRec 10 3 0)).1
          (catRec 20 3 1)).1 0 100
      = ([catRec 20 3 1, catRec 10 3 0], none) :=
  (C10_cat_logs_reverse_order wireCodec tradeThree
    (StoreCatLog wireCodec (StoreCatLog wireCodec tradeThree (catRec 10 3 0)).1
      (catRec 20 3 1)).1 [catRec 10 3 0, catRec 20 3 1] 0 100 (by decide) (by decide)
    (by decide)
    (by
      intro r hr d hd
      simp only [List.mem_cons, List.mem_singleton, List.not_mem_nil, or_false] at hr
      rcases hr with rfl | rfl
      · have : d = wireEncode 10 3 0 [] := by
          simpa [wireCodec, catRec] using hd.symm
        subst this
        decide
      · have : d = wireEncode 20 3 1 [] := by
          simpa [wireCodec, catRec] using hd.symm
        subst this
        decide)
    (by decide) (by decide) (by decide) (by decide) (by decide) (by decide) (by decide)).1


/-! ## Last index, boundary lookups and the cached block -/

/-- C11 (the code at the failing input): the store holds one category log, of
block 100, and no trade log; `LoadLastLogIndex` returns 0, not 100: the block of
the latest category log is never read, `LoadLastCatLogIndex` reads the trade-log
bucket. -/
theorem C11_LoadLastLogIndex_ignores_cat_logs :
    GetLastCatLog wireCodec logCatOnly = (catRec 7 100 0, none) ∧
    logCatOnly.db.tradelog = [] ∧
    LoadLastCatLogIndex wireCodec logCatOnly = (0, 0, none) ∧
    LoadLastLogIndex wireCodec logCatOnly = (0, none) := by
  decide

/-- C18 (the code at the failing input): on the empty store the four boundary
lookups fail; `StoreCatLog` of a record of block 0 and index 0 is refused as a
duplicate although nothing is stored, and `GetFirstCatLog` still fails. -/
theorem C18_StoreCatLog_rejects_zero_on_empty_store :
    (GetFirstTradeLog wireCodec emptyLogStorage).2 = some Error.noLog ∧
    (GetLastTradeLog wireCodec emptyLogStorage).2 = some Error.noLog ∧
    (GetFirstCatLog wireCodec emptyLogStorage).2 = some Error.noLog ∧
    (GetLastCatLog wireCodec emptyLogStorage).2 = some Error.noLog ∧
    StoreCatLog wireCodec emptyLogStorage (catRec 5 0 0)
      = (emptyLogStorage, some Error.duplicated) ∧
    (GetFirstCatLog wireCodec (StoreCatLog wireCodec emptyLogStorage (catRec 5 0 0)).1).2
      = some Error.noLog ∧
    GetFirstTradeLog wireCodec (StoreTradeLog wireCodec emptyLogStorage (tradeRec 5 0 0) 0).1
      = (tradeRec 5 0 0, none) := by
  decide

/-- C19: `UpdateLogBlock b tp` returns no error, `LastBlock` then returns `b`,
both buckets are as before, and the range queries and the first/last lookups
return what they returned before the call. -/
theorem C19_cursor_independence (J : LogCodec) (bls : BoltLogStorage) (b tp : Nat)
    (fromTime toTime : Nat) :
    (UpdateLogBlock bls b tp).2 = none ∧
    LastBlock (UpdateLogBlock bls b tp).1 = (b, none) ∧
    (UpdateLogBlock bls b tp).1.db = bls.db ∧
    GetTradeLogs J (UpdateLogBlock bls b tp).1 fromTime toTime
      = GetTradeLogs J bls fromTime toTime ∧
    GetCatLogs J (UpdateLogBlock bls b tp).1 fromTime toTime
      = GetCatLogs J bls fromTime toTime ∧
    GetFirstTradeLog J (UpdateLogBlock bls b tp).1 = GetFirstTradeLog J bls ∧
    GetLastTradeLog J (UpdateLogBlock bls b tp).1 = GetLastTradeLog J bls ∧
    GetFirstCatLog J (UpdateLogBlock bls b tp).1 = GetFirstCatLog J bls ∧
    GetLastCatLog J (UpdateLogBlock bls b tp).1 = GetLastCatLog J bls :=
  ⟨rfl, rfl, rfl, rfl, rfl, rfl, rfl, rfl, rfl⟩

theorem StoreCatLog_block (J : LogCodec) (bls : BoltLogStorage) (l : SetCatLog) :
    (StoreCatLog J bls l).1.block = bls.block := rfl

theorem StoreTradeLog_block (J : LogCodec) (bls : BoltLogStorage) (stat : TradeLog) (tp : Nat) :
    (StoreTradeLog J bls stat tp).1.block = bls.block := rfl

/-- C20: `StoreTradeLog` and `StoreCatLog`, whether they return an error or not
and whatever the block number of the record, leave the cached block as it was:
`LastBlock` returns the same value after the call as before.  (The queries
return no storage: they cannot change it.) -/
theorem C20_block_changes_only_by_update (J : LogCodec) (bls : BoltLogStorage)
    (stat : TradeLog) (l : SetCatLog) (tp : Nat) :
    LastBlock (StoreTradeLog J bls stat tp).1 = LastBlock bls ∧
    LastBlock (StoreCatLog J bls l).1 = LastBlock bls ∧
    (StoreTradeLog J bls stat tp).1.block = bls.block ∧
    (StoreCatLog J bls l).1.block = bls.block :=
  ⟨rfl, rfl, rfl, rfl⟩


/-! ## Ordered key/value lists -/

theorem bytesCompare_cons_lt (x y : Nat) (xs ys : Bytes) :
    bytesCompare (x :: xs) (y :: ys) < 0 ↔ x < y ∨ (x = y ∧ bytesCompare xs ys < 0) := by
  simp only [bytesCompare]
  by_cases h1 : x < y
  · simp [h1]
  · by_cases h2 : y < x
    · have h3 : ¬ x = y := by omega
      simp [h1, h2, h3]
    · have : x = y := by omega
      simp [h1, this]

theorem bytesCompare_lt_trans : ∀ a b c : Bytes,
    bytesCompare a b < 0 → bytesCompare b c < 0 → bytesCompare a c < 0 := by
  intro a
  induction a with
  | nil =>
    intro b c hab hbc
    cases c with
    | nil =>
      cases b with
      | nil => simp [bytesCompare] at hab
      | cons y ys => simp [bytesCompare] at hbc
    | cons z zs => simp [bytesCompare]
  | cons x xs ih =>
    intro b c hab hbc
    cases b with
    | nil => simp [bytesCompare] at hab
    | cons y ys =>
      cases c with
      | nil => simp [bytesCompare] at hbc
      | cons z zs =>
        rw [bytesCompare_cons_lt] at hab hbc ⊢
        rcases hab with hab | ⟨hab, hxs⟩
        · rcases hbc with hbc | ⟨hbc, _⟩
          · left; omega
          · left; omega
        · rcases hbc with hbc | ⟨hbc, hys⟩
          · left; omega
          · right; exact ⟨by omega, ih ys zs hxs hys⟩

theorem Bucket.Put_eq_kvPut (b : Bucket) (k v : Bytes) : b.Put k v = kvPut b k v := by
  induction b with
  | nil => rfl
  | cons e rest ih =>
    obtain ⟨k', v'⟩ := e
    simp only [Bucket.Put, kvPut, ih]

theorem Bucket.Get_eq_kvGet (b : Bucket) (k : Bytes) : b.Get k = kvGet b k := rfl

theorem mem_kvPut {β : Type} (l : List (Bytes × β)) (k : Bytes) (v : β) :
    ∀ e ∈ kvPut l k v, e = (k, v) ∨ e ∈ l := by
  induction l with
  | nil => intro e he; simp [kvPut] at he; exact Or.inl he
  | cons a rest ih =>
    obtain ⟨k', v'⟩ := a
    intro e he
    simp only [kvPut] at he
    split_ifs at he with h1 h2
    · simp only [List.mem_cons] at he ⊢
      tauto
    · simp only [List.mem_cons] at he ⊢
      tauto
    · simp only [List.mem_cons] at he ⊢
      rcases he with he | he
      · exact Or.inr (Or.inl he)
      · rcases ih e he with h | h
        · exact Or.inl h
        · exact Or.inr (Or.inr h)

theorem kvPut_sorted {β : Type} (l : List (Bytes × β)) (k : Bytes) (v : β) (hs : kvSorted l) :
    kvSorted (kvPut l k v) := by
  unfold kvSorted at hs ⊢
  induction l with
  | nil => simp [kvPut]
  | cons a rest ih =>
    obtain ⟨k', v'⟩ := a
    rw [List.pairwise_cons] at hs
    simp only [kvPut]
    split_ifs with h1 h2
    · refine List.Pairwise.cons ?_ (List.Pairwise.cons hs.1 hs.2)
      intro e he
      simp only [List.mem_cons] at he
      rcases he with rfl | he
      · exact h1
      · exact bytesCompare_lt_trans _ _ _ h1 (hs.1 e he)
    · have hk : k = k' := bytesCompare_eq_zero.1 h2
      subst hk
      exact List.Pairwise.cons (fun e he => hs.1 e he) hs.2
    · refine List.Pairwise.cons ?_ (ih hs.2)
      intro e he
      rcases mem_kvPut rest k v e he with rfl | he
      · have := bytesCompare_swap k k'
        simp only
        omega
      · exact hs.1 e he

theorem kvGet_kvPut_self {β : Type} (l : List (Bytes × β)) (k : Bytes) (v : β) :
    kvGet (kvPut l k v) k = some v := by
  induction l with
  | nil => simp [kvPut, kvGet, bytesCompare_self]
  | cons e rest ih =>
    obtain ⟨k', v'⟩ := e
    simp only [kvPut]
    split_ifs with h1 h2
    · simp [kvGet, bytesCompare_self]
    · simp [kvGet, bytesCompare_self]
    · have hne : ¬ bytesCompare k' k = 0 := by
        intro h
        exact h2 (bytesCompare_eq_zero.2 (bytesCompare_eq_zero.1 h).symm)
      simp only [kvGet] at ih ⊢
      rw [List.find?_cons_of_neg _ (by simpa using hne)]
      exact ih

theorem kvGet_kvPut_other {β : Type} (l : List (Bytes × β)) {k k' : Bytes} (v : β)
    (hne : k' ≠ k) : kvGet (kvPut l k v) k' = kvGet l k' := by
  have hk : ¬ bytesCompare k k' = 0 := fun h => hne (bytesCompare_eq_zero.1 h).symm
  induction l with
  | nil =>
    simp only [kvPut, kvGet]
    rw [List.find?_cons_of_neg _ (by simpa using hk)]
  | cons e rest ih =>
    obtain ⟨k0, v0⟩ := e
    simp only [kvPut]
    split_ifs with h1 h2
    · simp only [kvGet]
      rw [List.find?_cons_of_neg _ (by simpa using hk)]
    · have e0 : k = k0 := bytesCompare_eq_zero.1 h2
      subst e0
      simp only [kvGet]
      rw [List.find?_cons_of_neg _ (by simpa using hk),
        List.find?_cons_of_neg _ (by simpa using hk)]
    · simp only [kvGet] at ih ⊢
      by_cases h0 : bytesCompare k0 k' = 0
      · rw [List.find?_cons_of_pos _ (by simpa using h0),
          List.find?_cons_of_pos _ (by simpa using h0)]
      · rw [List.find?_cons_of_neg _ (by simpa using h0),
          List.find?_cons_of_neg _ (by simpa using h0)]
        exact ih

theorem kvPut_idem {β : Type} (l : List (Bytes × β)) (k : Bytes) (v w : β) :
    kvPut (kvPut l k v) k w = kvPut l k w := by
  induction l with
  | nil => simp [kvPut, bytesCompare_self]
  | cons e rest ih =>
    obtain ⟨k', v'⟩ := e
    simp only [kvPut]
    split_ifs with h1 h2
    · simp [kvPut, bytesCompare_self]
    · simp [kvPut, bytesCompare_self]
    · simp only [kvPut, h1, h2, if_false, ih]

theorem kvGet_of_mem_sorted {β : Type} {l : List (Bytes × β)} (hs : kvSorted l) {k : Bytes}
    {v : β} (hm : (k, v) ∈ l) : kvGet l k = some v := by
  unfold kvSorted at hs
  induction l with
  | nil => simp at hm
  | cons e rest ih =>
    rw [List.pairwise_cons] at hs
    simp only [List.mem_cons] at hm
    rcases hm with rfl | hm
    · simp [kvGet, bytesCompare_self]
    · have hlt := hs.1 (k, v) hm
      simp only at hlt
      simp only [kvGet]
      rw [List.find?_cons_of_neg _ (by simp only [beq_iff_eq]; omega)]
      exact ih hs.2 hm

theorem kvGet_some_mem {β : Type} {l : List (Bytes × β)} {k : Bytes} {v : β}
    (h : kvGet l k = some v) : (k, v) ∈ l := by
  simp only [kvGet, Option.map_eq_some'] at h
  obtain ⟨e, he, hv⟩ := h
  have h1 := List.find?_some he
  have h2 := List.mem_of_find?_eq_some he
  have : e.1 = k := bytesCompare_eq_zero.1 (by simpa using h1)
  obtain ⟨a, c⟩ := e
  simp only at this hv
  subst this hv
  exact h2

theorem kvSorted_keys_nodup {β : Type} {l : List (Bytes × β)} (hs : kvSorted l) :
    (l.map Prod.fst).Nodup := by
  unfold kvSorted at hs
  rw [List.Nodup, List.pairwise_map]
  refine hs.imp ?_
  intro e f h heq
  rw [heq, bytesCompare_self] at h
  exact absurd h (by decide)

theorem mem_kvPut_self {β : Type} (l : List (Bytes × β)) (k : Bytes) (v : β) :
    (k, v) ∈ kvPut l k v := kvGet_some_mem (kvGet_kvPut_self l k v)

theorem kvPut_length_of_get {β : Type} (l : List (Bytes × β)) (k : Bytes) (v w : β)
    (h : kvGet l k = some v) (hs : kvSorted l) : (kvPut l k w).length = l.length := by
  unfold kvSorted at hs
  induction l with
  | nil => simp [kvGet] at h
  | cons e rest ih =>
    obtain ⟨k', v'⟩ := e
    rw [List.pairwise_cons] at hs
    simp only [kvPut]
    split_ifs with h1 h2
    · exfalso
      have hm := kvGet_some_mem h
      simp only [List.mem_cons, Prod.mk.injEq] at hm
      rcases hm with ⟨hk, _⟩ | hm
      · rw [hk, bytesCompare_self] at h1
        exact absurd h1 (by decide)
      · have := hs.1 (k, v) hm
        have hsw := bytesCompare_swap k k'
        simp only at this
        omega
    · rfl
    · simp only [List.length_cons]
      have hne : ¬ bytesCompare k' k = 0 := by
        intro h0
        exact h2 (bytesCompare_eq_zero.2 (bytesCompare_eq_zero.1 h0).symm)
      have hrest : kvGet rest k = some v := by
        simp only [kvGet] at h ⊢
        rwa [List.find?_cons_of_neg _ (by simpa using hne)] at h
      rw [ih hrest hs.2]

theorem getAddressesLoop_eq : ∀ (c : Cursor) (result : List Bytes),
    getAddressesLoop c result = result ++ c.map Prod.fst := by
  intro c
  induction c with
  | nil => intro r; simp [getAddressesLoop]
  | cons e c ih =>
    intro r
    obtain ⟨k, v⟩ := e
    simp [getAddressesLoop, ih]

theorem countMembersLoop_eq : ∀ (c : Cursor) (n : Nat), n < 2 ^ 64 →
    countMembersLoop c n = (n + c.length) % 2 ^ 64 := by
  intro c
  induction c with
  | nil =>
    intro n hn
    simp only [countMembersLoop, List.length_nil, Nat.add_zero]
    rw [Nat.mod_eq_of_lt hn]
  | cons e c ih =>
    intro n hn
    simp only [countMembersLoop, List.length_cons]
    rw [ih _ (Nat.mod_lt _ (by norm_num))]
    exact incU64_add_mod n c.length


/-! ## Address version -/

theorem UpdateOneAddress_eq (toLower : Bytes → Bytes) (st : BoltSettingStorage) (name : Nat)
    (a : Bytes) (t : Nat) :
    UpdateOneAddress toLower st name a t =
      ({ addressVersion := st.addressVersion.Put addressVersionKey (Uint64ToBytes t),
         addressSetting := some ((st.addressSetting.getD []).Put (Uint64ToBytes name) (toLower a)),
         addressSetSetting := st.addressSetSetting }, none) := rfl

theorem Bucket.PutChecked_of_valid (b : Bucket) {k : Bytes} (v : Bytes) (hk : validKey k) :
    b.PutChecked k v = .ok (b.Put k v) := by
  unfold validKey at hk
  unfold Bucket.PutChecked
  have h1 : ¬ k.length = 0 := by omega
  have h2 : ¬ k.length > maxKeySize := by omega
  simp only [h1, h2, if_false]

theorem Bucket.PutChecked_of_invalid (b : Bucket) {k : Bytes} (v : Bytes) (hk : ¬ validKey k) :
    b.PutChecked k v = .error (if k.length = 0 then Error.keyRequired else Error.keyTooLarge) := by
  unfold validKey at hk
  unfold Bucket.PutChecked
  by_cases h1 : k.length = 0
  · simp only [h1, if_true]
  · have h2 : k.length > maxKeySize := by omega
    simp only [h1, h2, if_false, if_true]

theorem AddAddressToSet_of_valid (toLower : Bytes → Bytes) (st : BoltSettingStorage)
    (setName : Nat) {a : Bytes} (t : Nat) (hv : validKey (toLower a)) :
    AddAddressToSet toLower st setName a t =
      ({ addressVersion := st.addressVersion.Put addressVersionKey (Uint64ToBytes t),
         addressSetting := st.addressSetting,
         addressSetSetting :=
           some (((st.addressSetSetting.getD []).CreateBucketIfNotExists
              (Uint64ToBytes setName)).1.store (Uint64ToBytes setName)
            (((st.addressSetSetting.getD []).CreateBucketIfNotExists
              (Uint64ToBytes setName)).2.Put (toLower a) [49])) }, none) := by
  unfold AddAddressToSet dbUpdate updateAddressVersion
  simp only [Bucket.PutChecked_of_valid _ _ hv]

theorem AddAddressToSet_of_invalid (toLower : Bytes → Bytes) (st : BoltSettingStorage)
    (setName : Nat) {a : Bytes} (t : Nat) (hv : ¬ validKey (toLower a)) :
    AddAddressToSet toLower st setName a t =
      (st, some (if (toLower a).length = 0 then Error.keyRequired else Error.keyTooLarge)) := by
  unfold AddAddressToSet dbUpdate updateAddressVersion
  simp only [Bucket.PutChecked_of_invalid _ _ hv]

theorem AddAddressToSet_ok_iff (toLower : Bytes → Bytes) (st : BoltSettingStorage)
    (setName : Nat) (a : Bytes) (t : Nat) :
    (AddAddressToSet toLower st setName a t).2 = none ↔ validKey (toLower a) := by
  by_cases hv : validKey (toLower a)
  · rw [AddAddressToSet_of_valid toLower st setName t hv]
    simp [hv]
  · rw [AddAddressToSet_of_invalid toLower st setName t hv]
    simp [hv]

theorem applyWrite_ok_iff (toLower : Bytes → Bytes) (st : BoltSettingStorage)
    (w : AddressWrite) : (applyWrite toLower st w).2 = none ↔ w.accepted toLower = true := by
  cases w with
  | one n a t => simp [applyWrite, UpdateOneAddress_eq, AddressWrite.accepted]
  | toSet s a t =>
    simp only [applyWrite, AddressWrite.accepted, decide_eq_true_eq]
    exact AddAddressToSet_ok_iff toLower st s a t

theorem applyWrite_of_not_accepted (toLower : Bytes → Bytes) (st : BoltSettingStorage)
    (w : AddressWrite) (h : w.accepted toLower = false) : (applyWrite toLower st w).1 = st := by
  cases w with
  | one n a t => simp [AddressWrite.accepted] at h
  | toSet s a t =>
    simp only [AddressWrite.accepted, decide_eq_false_iff_not] at h
    simp only [applyWrite]
    rw [AddAddressToSet_of_invalid toLower st s t h]

theorem applyWrite_version (toLower : Bytes → Bytes) (st : BoltSettingStorage)
    (w : AddressWrite) (h : (applyWrite toLower st w).2 = none) :
    (applyWrite toLower st w).1.addressVersion
      = st.addressVersion.Put addressVersionKey (Uint64ToBytes w.timestamp) := by
  cases w with
  | one n a t => rfl
  | toSet s a t =>
    simp only [applyWrite] at h ⊢
    rw [AddAddressToSet_of_valid toLower st s t ((AddAddressToSet_ok_iff toLower st s a t).1 h)]
    rfl

theorem GetAddressVersion_of_put (st : BoltSettingStorage) (b : Bucket) {t : Nat}
    (ht : t < 2 ^ 64)
    (h : st.addressVersion = b.Put addressVersionKey (Uint64ToBytes t)) :
    GetAddressVersion st = (t, none) := by
  unfold GetAddressVersion
  rw [h, Bucket.Get_Put_self]
  simp only
  rw [BytesToUint64_Uint64ToBytes ht]

theorem applyWrites_append (toLower : Bytes → Bytes) (st : BoltSettingStorage)
    (ws : List AddressWrite) (w : AddressWrite) :
    applyWrites toLower st (ws ++ [w]) = (applyWrite toLower (applyWrites toLower st ws) w).1 := by
  simp [applyWrites, List.foldl_append]

/-- C12: `UpdateOneAddress name a t` returns no error and `GetAddressVersion`
then returns exactly `t`; when `AddAddressToSet set a t` returns no error,
`GetAddressVersion` then returns exactly `t`; hence after every write of a
sequence that returns no error the version is the timestamp of that write.  A
write that returns an error is rolled back and leaves the version as it was. -/
theorem C12_version_stamping (toLower : Bytes → Bytes) (st : BoltSettingStorage)
    (name setName : Nat) (a : Bytes) (t : Nat) (ws : List AddressWrite) (w : AddressWrite)
    (ht : t < 2 ^ 64) (hw : w.timestamp < 2 ^ 64) :
    ((UpdateOneAddress toLower st name a t).2 = none ∧
      GetAddressVersion (UpdateOneAddress toLower st name a t).1 = (t, none)) ∧
    ((AddAddressToSet toLower st setName a t).2 = none →
      GetAddressVersion (AddAddressToSet toLower st setName a t).1 = (t, none)) ∧
    ((applyWrite toLower (applyWrites toLower st ws) w).2 = none →
      GetAddressVersion (applyWrites toLower st (ws ++ [w])) = (w.timestamp, none)) ∧
    ((AddAddressToSet toLower st setName a t).2 ≠ none →
      GetAddressVersion (AddAddressToSet toLower st setName a t).1 = GetAddressVersion st) := by
  refine ⟨⟨rfl, ?_⟩, ?_, ?_, ?_⟩
  · exact GetAddressVersion_of_put _ st.addressVersion ht rfl
  · intro h
    exact GetAddressVersion_of_put _ st.addressVersion ht
      (applyWrite_version toLower st (AddressWrite.toSet setName a t) h)
  · intro h
    rw [applyWrites_append]
    exact GetAddressVersion_of_put _ _ hw (applyWrite_version toLower _ w h)
  · intro h
    have hv : ¬ validKey (toLower a) := fun hv =>
      h ((AddAddressToSet_ok_iff toLower st setName a t).2 hv)
    rw [AddAddressToSet_of_invalid toLower st setName t hv]

/-- C12 at a concrete input: writes with the timestamps 10, 10 and 12 on a new
store; the version after the last one is 12, after a single write of 10 it is
10. -/
theorem C12_version_stamping_witness :
    GetAddressVersion (UpdateOneAddress asciiLower newSettingStorage 1 [65] 10).1 = (10, none) ∧
    GetAddressVersion (AddAddressToSet asciiLower newSettingStorage 2 [65] 10).1 = (10, none) ∧
    GetAddressVersion (applyWrites asciiLower newSettingStorage
      ([AddressWrite.one 1 [65] 10, AddressWrite.toSet 2 [66] 10] ++ [AddressWrite.toSet 3 [67] 12]))
      = (12, none) :=
  ⟨(C12_version_stamping asciiLower newSettingStorage 1 2 [65] 10
      [AddressWrite.one 1 [65] 10, AddressWrite.toSet 2 [66] 10] (AddressWrite.toSet 3 [67] 12)
      (by decide) (by decide)).1.2,
   (C12_version_stamping asciiLower newSettingStorage 1 2 [65] 10
      [AddressWrite.one 1 [65] 10, AddressWrite.toSet 2 [66] 10] (AddressWrite.toSet 3 [67] 12)
      (by decide) (by decide)).2.1 (by decide),
   (C12_version_stamping asciiLower newSettingStorage 1 2 [65] 10
      [AddressWrite.one 1 [65] 10, AddressWrite.toSet 2 [66] 10] (AddressWrite.toSet 3 [67] 12)
      (by decide) (by decide)).2.2.1 (by decide)⟩

/-- C13 (counterexample): the stored version is 10; `UpdateOneAddress` with the
timestamp 5 succeeds and the version read afterwards is 5, which is smaller. -/
theorem C13_version_can_decrease :
    GetAddressVersion (UpdateOneAddress asciiLower newSettingStorage 1 [65] 10).1 = (10, none) ∧
    (UpdateOneAddress asciiLower
      (UpdateOneAddress asciiLower newSettingStorage 1 [65] 10).1 1 [65] 5).2 = none ∧
    GetAddressVersion (UpdateOneAddress asciiLower
      (UpdateOneAddress asciiLower newSettingStorage 1 [65] 10).1 1 [65] 5).1 = (5, none) ∧
    ¬ (10 ≤ 5) := by
  decide

/-- C13 (amended): when a version `v` is stored and a write with a timestamp
`t ≥ v` returns no error, the version read after the write is `t`, which is at
least `v`. -/
theorem C13_version_monotone_for_later_timestamps (toLower : Bytes → Bytes)
    (st : BoltSettingStorage) (v : Nat) (name setName : Nat) (a : Bytes) (t : Nat)
    (_hv : GetAddressVersion st = (v, none)) (hvt : v ≤ t) (ht : t < 2 ^ 64) :
    ((UpdateOneAddress toLower st name a t).2 = none ∧
      GetAddressVersion (UpdateOneAddress toLower st name a t).1 = (t, none) ∧
      v ≤ (GetAddressVersion (UpdateOneAddress toLower st name a t).1).1) ∧
    ((AddAddressToSet toLower st setName a t).2 = none →
      GetAddressVersion (AddAddressToSet toLower st setName a t).1 = (t, none) ∧
      v ≤ (GetAddressVersion (AddAddressToSet toLower st setName a t).1).1) := by
  have h1 : GetAddressVersion (UpdateOneAddress toLower st name a t).1 = (t, none) :=
    GetAddressVersion_of_put _ st.addressVersion ht rfl
  refine ⟨⟨rfl, h1, ?_⟩, ?_⟩
  · rw [h1]; exact hvt
  · intro h
    have h2 : GetAddressVersion (AddAddressToSet toLower st setName a t).1 = (t, none) :=
      GetAddressVersion_of_put _ st.addressVersion ht
        (applyWrite_version toLower st (AddressWrite.toSet setName a t) h)
    refine ⟨h2, ?_⟩
    rw [h2]; exact hvt

/-- C13 (amended) at a concrete input: version 10 stored, writes with the
timestamp 12. -/
theorem C13_version_monotone_for_later_timestamps_witness :
    10 ≤ (GetAddressVersion (UpdateOneAddress asciiLower
      (UpdateOneAddress asciiLower newSettingStorage 1 [65] 10).1 1 [66] 12).1).1 ∧
    10 ≤ (GetAddressVersion (AddAddressToSet asciiLower
      (UpdateOneAddress asciiLower newSettingStorage 1 [65] 10).1 4 [66] 12).1).1 :=
  ⟨(C13_version_monotone_for_later_timestamps asciiLower
      (UpdateOneAddress asciiLower newSettingStorage 1 [65] 10).1 10 1 4 [66] 12
      (by decide) (by decide) (by decide)).1.2.2,
   ((C13_version_monotone_for_later_timestamps asciiLower
      (UpdateOneAddress asciiLower newSettingStorage 1 [65] 10).1 10 1 4 [66] 12
      (by decide) (by decide) (by decide)).2 (by decide)).2⟩

/-! ## Addresses and address sets -/

theorem Bucket.Put_idem (b : Bucket) (k v w : Bytes) : (b.Put k v).Put k w = b.Put k w := by
  rw [Bucket.Put_eq_kvPut, Bucket.Put_eq_kvPut, Bucket.Put_eq_kvPut, kvPut_idem]

theorem Bucket.Put_sorted (b : Bucket) (k v : Bytes) (hs : b.Sorted) : (b.Put k v).Sorted := by
  rw [Bucket.Put_eq_kvPut]
  exact kvPut_sorted b k v hs

theorem Bucket.sorted_nil : Bucket.Sorted [] := List.Pairwise.nil

theorem getD_sorted {o : Option Bucket} (h : ∀ b ∈ o, b.Sorted) : (o.getD []).Sorted := by
  cases o with
  | none => exact Bucket.sorted_nil
  | some b => exact h b rfl

theorem keys_count_one {β : Type} {l : List (Bytes × β)} (hs : kvSorted l) {k : Bytes} {v : β}
    (hm : (k, v) ∈ l) : (l.filter (fun e => decide (e.1 = k))).length = 1 := by
  unfold kvSorted at hs
  induction l with
  | nil => simp at hm
  | cons e rest ih =>
    rw [List.pairwise_cons] at hs
    simp only [List.mem_cons] at hm
    rcases hm with rfl | hm
    · rw [List.filter_cons_of_pos (by simp)]
      have : rest.filter (fun e => decide (e.1 = k)) = [] := by
        rw [List.filter_eq_nil_iff]
        intro f hf
        have hlt := hs.1 f hf
        simp only [decide_eq_true_eq]
        intro heq
        simp only at hlt
        rw [heq, bytesCompare_self] at hlt
        exact absurd hlt (by decide)
      rw [this]
      rfl
    · have hlt := hs.1 (k, v) hm
      have hne : ¬ e.1 = k := by
        intro heq
        simp only at hlt
        rw [heq, bytesCompare_self] at hlt
        exact absurd hlt (by decide)
      rw [List.filter_cons_of_neg (by simpa using hne)]
      exact ih hs.2 hm

/-- C14: after `UpdateOneAddress name a t`, `GetAddress name` returns the
lower-cased address; a second write of an address with the same lower-casing
under the same name leaves the address bucket exactly as it was: the value is
still the lower-cased address, the number of scalar addresses has not grown,
and in a bucket with ascending keys the name has exactly one entry. -/
theorem C14_case_insensitive_address (toLower : Bytes → Bytes) (st : BoltSettingStorage)
    (name : Nat) (a a' : Bytes) (t t' : Nat) (hl : toLower a = toLower a') :
    (UpdateOneAddress toLower st name a t).2 = none ∧
    GetAddress (UpdateOneAddress toLower st name a t).1 name = (toLower a, none) ∧
    (UpdateOneAddress toLower (UpdateOneAddress toLower st name a t).1 name a' t').2 = none ∧
    GetAddress (UpdateOneAddress toLower (UpdateOneAddress toLower st name a t).1 name a' t').1
      name = (toLower a, none) ∧
    (UpdateOneAddress toLower (UpdateOneAddress toLower st name a t).1 name a' t').1.addressSetting
      = (UpdateOneAddress toLower st name a t).1.addressSetting ∧
    (UpdateOneAddress toLower (UpdateOneAddress toLower st name a t).1 name a' t').1.scalarCount
      = (UpdateOneAddress toLower st name a t).1.scalarCount ∧
    ((∀ b ∈ st.addressSetting, b.Sorted) →
      (((UpdateOneAddress toLower (UpdateOneAddress toLower st name a t).1 name a'
        t').1.addressSetting.getD []).filter
          (fun e => decide (e.1 = Uint64ToBytes name))).length = 1) := by
  have h2 : (UpdateOneAddress toLower (UpdateOneAddress toLower st name a t).1 name a'
      t').1.addressSetting = (UpdateOneAddress toLower st name a t).1.addressSetting := by
    simp only [UpdateOneAddress_eq, Option.getD_some]
    rw [Bucket.Put_idem, hl]
  have h1 : GetAddress (UpdateOneAddress toLower st name a t).1 name = (toLower a, none) := by
    simp only [UpdateOneAddress_eq, GetAddress, Bucket.Get_Put_self]
  refine ⟨rfl, h1, rfl, ?_, h2, ?_, ?_⟩
  · unfold GetAddress at h1 ⊢
    rw [h2]
    exact h1
  · unfold BoltSettingStorage.scalarCount
    rw [h2]
  · intro hs
    rw [h2]
    simp only [UpdateOneAddress_eq, Option.getD_some]
    rw [Bucket.Put_eq_kvPut]
    exact keys_count_one (kvPut_sorted _ _ _ (getD_sorted hs)) (mem_kvPut_self _ _ _)

/-- C14 at a concrete input: `"0xAB"` then `"0xab"` under the name 3, on a store
that holds an address under the name 1. -/
theorem C14_case_insensitive_address_witness :
    GetAddress (UpdateOneAddress asciiLower
      (UpdateOneAddress asciiLower newSettingStorage 1 [48, 120, 67] 4).1 3 [48, 120, 65, 66] 5).1 3
      = ([48, 120, 97, 98], none) ∧
    GetAddress (UpdateOneAddress asciiLower (UpdateOneAddress asciiLower
      (UpdateOneAddress asciiLower newSettingStorage 1 [48, 120, 67] 4).1 3 [48, 120, 65, 66] 5).1
        3 [48, 120, 97, 98] 6).1 3
      = ([48, 120, 97, 98], none) ∧
    (((UpdateOneAddress asciiLower (UpdateOneAddress asciiLower
      (UpdateOneAddress asciiLower newSettingStorage 1 [48, 120, 67] 4).1 3 [48, 120, 65, 66] 5).1
        3 [48, 120, 97, 98] 6).1.addressSetting.getD []).filter
          (fun e => decide (e.1 = Uint64ToBytes 3))).length = 1 :=
  ⟨(C14_case_insensitive_address asciiLower
      (UpdateOneAddress asciiLower newSettingStorage 1 [48, 120, 67] 4).1 3 [48, 120, 65, 66]
      [48, 120, 97, 98] 5 6 (by decide)).2.1,
   (C14_case_insensitive_address asciiLower
      (UpdateOneAddress asciiLower newSettingStorage 1 [48, 120, 67] 4).1 3 [48, 120, 65, 66]
      [48, 120, 97, 98] 5 6 (by decide)).2.2.2.1,
   (C14_case_insensitive_address asciiLower
      (UpdateOneAddress asciiLower newSettingStorage 1 [48, 120, 67] 4).1 3 [48, 120, 65, 66]
      [48, 120, 97, 98] 5 6 (by decide)).2.2.2.2.2.2 (by decide)⟩


/-! ## Address sets -/

theorem SetBucket.CreateBucketIfNotExists_store (b : SetBucket) (k : Bytes) (x : Bucket) :
    (b.CreateBucketIfNotExists k).1.store k x = kvPut b k x := by
  unfold SetBucket.CreateBucketIfNotExists SetBucket.store
  cases h : b.BucketOf k with
  | none => simp only; exact kvPut_idem b k [] x
  | some s => rfl

theorem SetBucket.CreateBucketIfNotExists_snd (b : SetBucket) (k : Bytes) :
    (b.CreateBucketIfNotExists k).2 = (kvGet b k).getD [] := by
  unfold SetBucket.CreateBucketIfNotExists SetBucket.BucketOf
  cases h : kvGet b k with
  | none => rfl
  | some s => rfl

theorem AddAddressToSet_set (toLower : Bytes → Bytes) (st : BoltSettingStorage) (setName : Nat)
    {a : Bytes} (t : Nat) (hv : validKey (toLower a)) :
    (AddAddressToSet toLower st setName a t).1.addressSetSetting =
      some (kvPut (st.addressSetSetting.getD []) (Uint64ToBytes setName)
        (kvPut ((kvGet (st.addressSetSetting.getD []) (Uint64ToBytes setName)).getD [])
          (toLower a) [49])) := by
  rw [AddAddressToSet_of_valid toLower st setName t hv]
  simp only
  rw [SetBucket.CreateBucketIfNotExists_store, SetBucket.CreateBucketIfNotExists_snd,
    Bucket.Put_eq_kvPut]

theorem GetAddresses_of_set {st : BoltSettingStorage} {b : SetBucket} {setName : Nat}
    {s : Bucket} (hb : st.addressSetSetting = some b)
    (hs : kvGet b (Uint64ToBytes setName) = some s) :
    GetAddresses st setName = (s.map Prod.fst, none) := by
  unfold GetAddresses SetBucket.BucketOf
  rw [hb]
  simp only [hs, Cursor.First, getAddressesLoop_eq, List.nil_append]

theorem BoltSettingStorage.WF.set_sorted {st : BoltSettingStorage} (hwf : st.WF) (k : Bytes) :
    Bucket.Sorted ((kvGet (st.addressSetSetting.getD []) k).getD []) := by
  cases hb : st.addressSetSetting with
  | none => exact Bucket.sorted_nil
  | some b =>
    simp only [Option.getD_some]
    cases hs : kvGet b k with
    | none => exact Bucket.sorted_nil
    | some s => exact (hwf.2 b hb).2 (k, s) (kvGet_some_mem hs)

/-- C15 (counterexample): `AddAddressToSet 3 "" 5` returns an error (the empty
key is refused by `Put`) and leaves the store as it was, on a new store and on a
store where the set 3 holds `"a"`; after it `GetAddresses 3` fails on the new
store and does not hold the empty address on the other. -/
theorem C15_empty_address_is_refused :
    AddAddressToSet asciiLower newSettingStorage 3 [] 5
      = (newSettingStorage, some Error.keyRequired) ∧
    (GetAddresses (AddAddressToSet asciiLower newSettingStorage 3 [] 5).1 3).2 ≠ none ∧
    (AddAddressToSet asciiLower
      (AddAddressToSet asciiLower newSettingStorage 3 [65] 4).1 3 [] 5).2
      = some Error.keyRequired ∧
    GetAddresses (AddAddressToSet asciiLower
      (AddAddressToSet asciiLower newSettingStorage 3 [65] 4).1 3 [] 5).1 3 = ([[97]], none) := by
  decide

/-- C15 (amended): on a store with ascending keys, when the lower-cased address
is a key `Put` accepts (not empty, at most 32768 bytes), `AddAddressToSet s a t`
followed by `AddAddressToSet s a' t'` with the same lower-cased address return
no error both times, and the second leaves the sets as the first left them:
`GetAddresses s` returns the same list after both; that list holds the
lower-cased address exactly once, has no duplicate and is in ascending byte
order.  When the lower-cased address is not such a key both calls return an
error and leave the store as it was. -/
theorem C15_address_set_idempotent (toLower : Bytes → Bytes) (st : BoltSettingStorage)
    (s : Nat) (a a' : Bytes) (t t' : Nat) (hl : toLower a' = toLower a) (hwf : st.WF) :
    (validKey (toLower a) →
      (AddAddressToSet toLower st s a t).2 = none ∧
      (AddAddressToSet toLower (AddAddressToSet toLower st s a t).1 s a' t').2 = none ∧
      (GetAddresses (AddAddressToSet toLower st s a t).1 s).2 = none ∧
      GetAddresses (AddAddressToSet toLower (AddAddressToSet toLower st s a t).1 s a' t').1 s
        = GetAddresses (AddAddressToSet toLower st s a t).1 s ∧
      (AddAddressToSet toLower (AddAddressToSet toLower st s a t).1 s a' t').1.addressSetSetting
        = (AddAddressToSet toLower st s a t).1.addressSetSetting ∧
      ((GetAddresses (AddAddressToSet toLower st s a t).1 s).1.filter
        (fun x => decide (x = toLower a))).length = 1 ∧
      (GetAddresses (AddAddressToSet toLower st s a t).1 s).1.Nodup ∧
      (GetAddresses (AddAddressToSet toLower st s a t).1 s).1.Pairwise
        (fun x y => bytesCompare x y < 0)) ∧
    (¬ validKey (toLower a) →
      (AddAddressToSet toLower st s a t).2 ≠ none ∧
      (AddAddressToSet toLower st s a t).1 = st ∧
      (AddAddressToSet toLower (AddAddressToSet toLower st s a t).1 s a' t').2 ≠ none ∧
      (AddAddressToSet toLower (AddAddressToSet toLower st s a t).1 s a' t').1 = st) := by
  constructor
  · intro hv
    have hv' : validKey (toLower a') := by rw [hl]; exact hv
    have h1 := AddAddressToSet_set toLower st s t hv
    have hget := GetAddresses_of_set h1 (kvGet_kvPut_self _ _ _)
    have h2 : (AddAddressToSet toLower (AddAddressToSet toLower st s a t).1 s a'
        t').1.addressSetSetting = (AddAddressToSet toLower st s a t).1.addressSetSetting := by
      rw [AddAddressToSet_set toLower (AddAddressToSet toLower st s a t).1 s t' hv', h1]
      simp only [Option.getD_some]
      rw [kvGet_kvPut_self, Option.getD_some, hl, kvPut_idem, kvPut_idem]
    have hsorted : kvSorted (kvPut ((kvGet (st.addressSetSetting.getD [])
        (Uint64ToBytes s)).getD []) (toLower a) [49]) :=
      kvPut_sorted _ _ _ (hwf.set_sorted _)
    refine ⟨(AddAddressToSet_ok_iff toLower st s a t).2 hv,
      (AddAddressToSet_ok_iff toLower _ s a' t').2 hv', ?_, ?_, h2, ?_, ?_, ?_⟩
    · rw [hget]
    · unfold GetAddresses
      rw [h2]
    · rw [hget]
      simp only
      rw [List.filter_map, List.length_map]
      exact keys_count_one hsorted (mem_kvPut_self _ _ _)
    · rw [hget]
      exact kvSorted_keys_nodup hsorted
    · rw [hget]
      simp only
      rw [List.pairwise_map]
      exact hsorted
  · intro hv
    have hv' : ¬ validKey (toLower a') := by rw [hl]; exact hv
    have e1 := AddAddressToSet_of_invalid toLower st s t hv
    have e2 := AddAddressToSet_of_invalid toLower st s t' hv'
    rw [e1]
    simp only
    rw [e2]
    simp

/-- C15 (amended) at a concrete input: the set 3 holds `"0xaa"`; `"0xAB"` and
then `"0xab"` are added; the set is `["0xaa", "0xab"]` after each. -/
theorem C15_address_set_idempotent_witness :
    GetAddresses (AddAddressToSet asciiLower
      (AddAddressToSet asciiLower newSettingStorage 3 [48, 120, 97, 97] 4).1 3
        [48, 120, 65, 66] 5).1 3 = ([[48, 120, 97, 97], [48, 120, 97, 98]], none) ∧
    GetAddresses (AddAddressToSet asciiLower (AddAddressToSet asciiLower
      (AddAddressToSet asciiLower newSettingStorage 3 [48, 120, 97, 97] 4).1 3
        [48, 120, 65, 66] 5).1 3 [48, 120, 97, 98] 6).1 3
      = GetAddresses (AddAddressToSet asciiLower
          (AddAddressToSet asciiLower newSettingStorage 3 [48, 120, 97, 97] 4).1 3
            [48, 120, 65, 66] 5).1 3 :=
  ⟨by decide,
   ((C15_address_set_idempotent asciiLower
      (AddAddressToSet asciiLower newSettingStorage 3 [48, 120, 97, 97] 4).1 3
      [48, 120, 65, 66] [48, 120, 97, 98] 5 6 (by decide) (by decide)).1 (by decide)).2.2.2.1⟩


/-! ## Not found -/

theorem Uint64ToBytes_injective {n m : Nat} (hn : n < 2 ^ 64) (hm : m < 2 ^ 64)
    (h : Uint64ToBytes n = Uint64ToBytes m) : n = m := by
  have := congrArg BytesToUint64 h
  rwa [BytesToUint64_Uint64ToBytes hn, BytesToUint64_Uint64ToBytes hm] at this

theorem GetAddress_ok_iff (st : BoltSettingStorage) (name : Nat) :
    (GetAddress st name).2 = none ↔
      ((st.addressSetting.getD []).Get (Uint64ToBytes name)).isSome = true := by
  unfold GetAddress
  cases st.addressSetting with
  | none => simp [Bucket.Get]
  | some b =>
    simp only [Option.getD_some]
    cases b.Get (Uint64ToBytes name) <;> simp

theorem GetAddresses_ok_iff (st : BoltSettingStorage) (setName : Nat) :
    (GetAddresses st setName).2 = none ↔
      (kvGet (st.addressSetSetting.getD []) (Uint64ToBytes setName)).isSome = true := by
  unfold GetAddresses SetBucket.BucketOf
  cases st.addressSetSetting with
  | none => simp [kvGet]
  | some b =>
    simp only [Option.getD_some]
    cases kvGet b (Uint64ToBytes setName) <;> simp

theorem applyWrite_GetAddress (toLower : Bytes → Bytes) (st : BoltSettingStorage)
    (w : AddressWrite) (hw : w.nameInRange) {name : Nat} (hn : name < 2 ^ 64) :
    (GetAddress (applyWrite toLower st w).1 name).2 = none ↔
      ((GetAddress st name).2 = none ∨ w.writesName name = true) := by
  cases w with
  | one n a t =>
    rw [GetAddress_ok_iff, GetAddress_ok_iff]
    simp only [applyWrite, UpdateOneAddress_eq, Option.getD_some, AddressWrite.writesName,
      decide_eq_true_eq]
    by_cases h : n = name
    · subst h
      simp [Bucket.Get_Put_self]
    · have hne : Uint64ToBytes name ≠ Uint64ToBytes n :=
        fun he => h (Uint64ToBytes_injective hn hw he).symm
      rw [Bucket.Get_Put_other _ _ hne]
      simp [h]
  | toSet s a t =>
    have hA : (applyWrite toLower st (AddressWrite.toSet s a t)).1.addressSetting
        = st.addressSetting := by
      simp only [applyWrite]
      by_cases hv : validKey (toLower a)
      · rw [AddAddressToSet_of_valid toLower st s t hv]
      · rw [AddAddressToSet_of_invalid toLower st s t hv]
    rw [GetAddress_ok_iff, GetAddress_ok_iff, hA]
    simp [AddressWrite.writesName]

theorem applyWrite_GetAddresses (toLower : Bytes → Bytes) (st : BoltSettingStorage)
    (w : AddressWrite) (hw : w.nameInRange) {setName : Nat} (hn : setName < 2 ^ 64) :
    (GetAddresses (applyWrite toLower st w).1 setName).2 = none ↔
      ((GetAddresses st setName).2 = none ∨
        (w.writesSet setName && w.accepted toLower) = true) := by
  cases w with
  | one n a t =>
    rw [GetAddresses_ok_iff, GetAddresses_ok_iff]
    simp [applyWrite, UpdateOneAddress_eq, AddressWrite.writesSet]
  | toSet s a t =>
    by_cases hv : validKey (toLower a)
    · rw [GetAddresses_ok_iff, GetAddresses_ok_iff]
      simp only [applyWrite, AddAddressToSet_set toLower st s t hv, Option.getD_some,
        AddressWrite.writesSet, AddressWrite.accepted, hv, decide_True, Bool.and_true,
        decide_eq_true_eq]
      by_cases h : s = setName
      · subst h
        simp [kvGet_kvPut_self]
      · have hne : Uint64ToBytes setName ≠ Uint64ToBytes s :=
          fun he => h (Uint64ToBytes_injective hn hw he).symm
        rw [kvGet_kvPut_other _ _ hne]
        simp [h]
    · simp only [applyWrite, AddAddressToSet_of_invalid toLower st s t hv,
        AddressWrite.accepted, hv, decide_False, Bool.and_false, Bool.false_eq_true, or_false]

theorem applyWrites_GetAddress (toLower : Bytes → Bytes) {name : Nat} (hn : name < 2 ^ 64) :
    ∀ (ws : List AddressWrite) (st : BoltSettingStorage), (∀ w ∈ ws, w.nameInRange) →
      ((GetAddress (applyWrites toLower st ws) name).2 = none ↔
        ((GetAddress st name).2 = none ∨ ∃ w ∈ ws, w.writesName name = true)) := by
  intro ws
  induction ws with
  | nil => intro st _; simp [applyWrites]
  | cons w ws ih =>
    intro st hws
    have hw := hws w (List.mem_cons_self _ _)
    have := ih (applyWrite toLower st w).1 (fun x hx => hws x (List.mem_cons_of_mem _ hx))
    simp only [applyWrites, List.foldl_cons] at this ⊢
    rw [this, applyWrite_GetAddress toLower st w hw hn]
    simp only [List.mem_cons, exists_eq_or_imp, or_assoc]

theorem applyWrites_GetAddresses (toLower : Bytes → Bytes) {setName : Nat}
    (hn : setName < 2 ^ 64) :
    ∀ (ws : List AddressWrite) (st : BoltSettingStorage), (∀ w ∈ ws, w.nameInRange) →
      ((GetAddresses (applyWrites toLower st ws) setName).2 = none ↔
        ((GetAddresses st setName).2 = none ∨
          ∃ w ∈ ws, (w.writesSet setName && w.accepted toLower) = true)) := by
  intro ws
  induction ws with
  | nil => intro st _; simp [applyWrites]
  | cons w ws ih =>
    intro st hws
    have hw := hws w (List.mem_cons_self _ _)
    have := ih (applyWrite toLower st w).1 (fun x hx => hws x (List.mem_cons_of_mem _ hx))
    simp only [applyWrites, List.foldl_cons] at this ⊢
    rw [this, applyWrite_GetAddresses toLower st w hw hn]
    simp only [List.mem_cons, exists_eq_or_imp, or_assoc]

/-- C16 (counterexample): an `AddAddressToSet` is made for the set 3 on a new
store, with the empty address; the call returns an error, creates no set, and
`GetAddresses 3` fails although a call was made for the set 3. -/
theorem C16_refused_write_creates_no_set :
    (AddressWrite.toSet 3 [] 5).writesSet 3 = true ∧
    (applyWrite asciiLower newSettingStorage (AddressWrite.toSet 3 [] 5)).2
      = some Error.keyRequired ∧
    GetAddresses (applyWrites asciiLower newSettingStorage [AddressWrite.toSet 3 [] 5]) 3
      = ([], some Error.bucketMissing) := by
  decide

/-- C16 (amended): a write returns no error exactly when it is accepted (an
`UpdateOneAddress` always, an `AddAddressToSet` when its lower-cased address is
a key `Put` accepts).  After a sequence of writes on any store, `GetAddress
name` succeeds exactly when it succeeded before or one of the writes is an
`UpdateOneAddress` for `name`, and `GetAddresses s` succeeds exactly when it
succeeded before or one of the writes is an accepted `AddAddressToSet` for `s`.
So from a new store `GetAddress name` fails exactly when no `UpdateOneAddress`
was made for `name`, and `GetAddresses s` fails exactly when no
`AddAddressToSet` for `s` has returned without error. -/
theorem C16_not_found_rule (toLower : Bytes → Bytes) (st : BoltSettingStorage)
    (ws : List AddressWrite) (name setName : Nat) (hn : name < 2 ^ 64) (hs : setName < 2 ^ 64)
    (hws : ∀ w ∈ ws, w.nameInRange) :
    (∀ (s : BoltSettingStorage) (w : AddressWrite),
      (applyWrite toLower s w).2 = none ↔ w.accepted toLower = true) ∧
    ((GetAddress (applyWrites toLower st ws) name).2 = none ↔
      ((GetAddress st name).2 = none ∨ ∃ w ∈ ws, w.writesName name = true)) ∧
    ((GetAddresses (applyWrites toLower st ws) setName).2 = none ↔
      ((GetAddresses st setName).2 = none ∨
        ∃ w ∈ ws, (w.writesSet setName && w.accepted toLower) = true)) ∧
    ((GetAddress (applyWrites toLower newSettingStorage ws) name).2 ≠ none ↔
      ∀ w ∈ ws, w.writesName name = false) ∧
    ((GetAddresses (applyWrites toLower newSettingStorage ws) setName).2 ≠ none ↔
      ∀ w ∈ ws, (w.writesSet setName && w.accepted toLower) = false) := by
  refine ⟨applyWrite_ok_iff toLower, applyWrites_GetAddress toLower hn ws st hws,
    applyWrites_GetAddresses toLower hs ws st hws, ?_, ?_⟩
  · rw [Ne, applyWrites_GetAddress toLower hn ws newSettingStorage hws]
    simp [GetAddress, newSettingStorage]
  · rw [Ne, applyWrites_GetAddresses toLower hs ws newSettingStorage hws]
    simp [GetAddresses, newSettingStorage]

/-- C16 (amended) at a concrete input: after an address for the name 1, a member
of the set 2 and a refused empty member of the set 1 were written, the name 2
and the set 1 are still not found, and the set 2 is found. -/
theorem C16_not_found_rule_witness :
    (GetAddress (applyWrites asciiLower newSettingStorage
      [AddressWrite.one 1 [65] 5, AddressWrite.toSet 2 [66] 6, AddressWrite.toSet 1 [] 7]) 2).2
        ≠ none ∧
    (GetAddresses (applyWrites asciiLower newSettingStorage
      [AddressWrite.one 1 [65] 5, AddressWrite.toSet 2 [66] 6, AddressWrite.toSet 1 [] 7]) 1).2
        ≠ none ∧
    GetAddresses (applyWrites asciiLower newSettingStorage
      [AddressWrite.one 1 [65] 5, AddressWrite.toSet 2 [66] 6, AddressWrite.toSet 1 [] 7]) 2
        = ([[98]], none) :=
  ⟨(C16_not_found_rule asciiLower newSettingStorage
      [AddressWrite.one 1 [65] 5, AddressWrite.toSet 2 [66] 6, AddressWrite.toSet 1 [] 7] 2 1
      (by decide) (by decide) (by decide)).2.2.2.1.2 (by decide),
   (C16_not_found_rule asciiLower newSettingStorage
      [AddressWrite.one 1 [65] 5, AddressWrite.toSet 2 [66] 6, AddressWrite.toSet 1 [] 7] 2 1
      (by decide) (by decide) (by decide)).2.2.2.2.2 (by decide),
   by decide⟩


/-! ## Counting addresses -/

theorem add_mod_u64 (a b c : Nat) : ((a + b) % 2 ^ 64 + c) % 2 ^ 64 = (a + (b + c)) % 2 ^ 64 := by
  norm_num
  omega

theorem countSetsLoop_eq {b : SetBucket} (hs : kvSorted b) :
    ∀ (c : List (Bytes × Bucket)) (n : Nat), (∀ e ∈ c, e ∈ b) → n < 2 ^ 64 →
      countSetsLoop b c n = ((n + (c.map (fun e => e.2.length)).sum) % 2 ^ 64, none) := by
  intro c
  induction c with
  | nil =>
    intro n _ hn
    simp only [countSetsLoop, List.map_nil, List.sum_nil, Nat.add_zero]
    rw [Nat.mod_eq_of_lt hn]
  | cons e c ih =>
    intro n hsub hn
    obtain ⟨k, s⟩ := e
    have hget : b.BucketOf k = some s :=
      kvGet_of_mem_sorted hs (hsub (k, s) (List.mem_cons_self _ _))
    simp only [countSetsLoop, hget, Cursor.First, List.map_cons, List.sum_cons]
    rw [countMembersLoop_eq _ _ hn,
      ih _ (fun e he => hsub e (List.mem_cons_of_mem _ he)) (Nat.mod_lt _ (by norm_num)),
      add_mod_u64]

theorem CountAddress_of_buckets_mod {st : BoltSettingStorage} {bA : Bucket} {bS : SetBucket}
    (hA : st.addressSetting = some bA) (hS : st.addressSetSetting = some bS) (hwf : st.WF) :
    CountAddress st = ((st.scalarCount + st.memberCount) % 2 ^ 64, none) := by
  unfold BoltSettingStorage.scalarCount BoltSettingStorage.memberCount at *
  rw [hA, hS]
  simp only [Option.getD_some]
  unfold CountAddress CountAddressSetBucket CountAddressBucket
  rw [hS, hA]
  simp only
  rw [countSetsLoop_eq (hwf.2 bS hS).1 bS 0 (fun e he => he) (by norm_num)]
  simp only [Cursor.First]
  rw [countMembersLoop_eq _ _ (by norm_num)]
  norm_num
  omega

theorem CountAddress_of_buckets {st : BoltSettingStorage} {bA : Bucket} {bS : SetBucket}
    (hA : st.addressSetting = some bA) (hS : st.addressSetSetting = some bS) (hwf : st.WF)
    (hlt : st.scalarCount + st.memberCount < 2 ^ 64) :
    CountAddress st = (st.scalarCount + st.memberCount, none) := by
  rw [CountAddress_of_buckets_mod hA hS hwf, Nat.mod_eq_of_lt hlt]

theorem CountAddress_of_no_set {st : BoltSettingStorage} (hS : st.addressSetSetting = none) :
    CountAddress st = (0, some Error.bucketMissing) := by
  unfold CountAddress
  rw [hS]

theorem CountAddress_of_no_address {st : BoltSettingStorage} (hA : st.addressSetting = none)
    (hwf : st.WF) : CountAddress st = (0, some Error.bucketMissing) := by
  cases hS : st.addressSetSetting with
  | none => exact CountAddress_of_no_set hS
  | some bS =>
    unfold CountAddress CountAddressSetBucket
    rw [hS, hA]
    simp only
    rw [countSetsLoop_eq (hwf.2 bS hS).1 bS 0 (fun e he => he) (by norm_num)]

theorem applyWrite_WF (toLower : Bytes → Bytes) (st : BoltSettingStorage) (w : AddressWrite)
    (hwf : st.WF) : (applyWrite toLower st w).1.WF := by
  cases w with
  | one n a t =>
    simp only [applyWrite, UpdateOneAddress_eq]
    refine ⟨?_, hwf.2⟩
    intro b hb
    simp only [Option.mem_def, Option.some.injEq] at hb
    subst hb
    exact Bucket.Put_sorted _ _ _ (getD_sorted hwf.1)
  | toSet s a t =>
    by_cases hv : validKey (toLower a)
    · refine ⟨?_, ?_⟩
      · simp only [applyWrite]
        rw [AddAddressToSet_of_valid toLower st s t hv]
        exact hwf.1
      · intro b hb
        simp only [applyWrite] at hb
        rw [Option.mem_def, AddAddressToSet_set toLower st s t hv] at hb
        simp only [Option.some.injEq] at hb
        subst hb
        have hb0 : kvSorted (st.addressSetSetting.getD []) ∧
            ∀ e ∈ st.addressSetSetting.getD [], e.2.Sorted := by
          cases hS : st.addressSetSetting with
          | none => exact ⟨List.Pairwise.nil, fun e he => by simp at he⟩
          | some b0 => exact hwf.2 b0 hS
        refine ⟨kvPut_sorted _ _ _ hb0.1, ?_⟩
        intro e he
        rcases mem_kvPut _ _ _ e he with rfl | he
        · exact kvPut_sorted _ _ _ (hwf.set_sorted _)
        · exact hb0.2 e he
    · simp only [applyWrite]
      rw [AddAddressToSet_of_invalid toLower st s t hv]
      exact hwf

theorem applyWrites_WF (toLower : Bytes → Bytes) : ∀ (ws : List AddressWrite)
    (st : BoltSettingStorage), st.WF → (applyWrites toLower st ws).WF := by
  intro ws
  induction ws with
  | nil => intro st h; exact h
  | cons w ws ih =>
    intro st h
    exact ih _ (applyWrite_WF toLower st w h)

theorem applyWrites_isSome (toLower : Bytes → Bytes) : ∀ (ws : List AddressWrite)
    (st : BoltSettingStorage),
    (applyWrites toLower st ws).addressSetting.isSome
      = (st.addressSetting.isSome || ws.any AddressWrite.isOne) ∧
    (applyWrites toLower st ws).addressSetSetting.isSome
      = (st.addressSetSetting.isSome ||
          ws.any (fun w => w.isToSet && w.accepted toLower)) := by
  intro ws
  induction ws with
  | nil => intro st; simp [applyWrites]
  | cons w ws ih =>
    intro st
    have h := ih (applyWrite toLower st w).1
    simp only [applyWrites, List.foldl_cons, List.any_cons] at h ⊢
    rw [h.1, h.2]
    cases w with
    | one n a t =>
      simp [applyWrite, UpdateOneAddress_eq, AddressWrite.isOne, AddressWrite.isToSet]
    | toSet s a t =>
      by_cases hv : validKey (toLower a)
      · simp [applyWrite, AddAddressToSet_of_valid toLower st s t hv, AddressWrite.isOne,
          AddressWrite.isToSet, AddressWrite.accepted, hv]
      · simp [applyWrite, AddAddressToSet_of_invalid toLower st s t hv, AddressWrite.isOne,
          AddressWrite.isToSet, AddressWrite.accepted, hv]

theorem newSettingStorage_WF : newSettingStorage.WF := by decide

/-- C17 (counterexample): after one `UpdateOneAddress` on a new store, and
likewise after one `AddAddressToSet`, `CountAddress` fails: the other bucket
does not exist yet.  Both writes return no error. -/
theorem C17_CountAddress_fails_with_one_kind :
    (applyWrite asciiLower newSettingStorage (AddressWrite.one 1 [65] 5)).2 = none ∧
    CountAddress (applyWrites asciiLower newSettingStorage [AddressWrite.one 1 [65] 5])
      = (0, some Error.bucketMissing) ∧
    (applyWrite asciiLower newSettingStorage (AddressWrite.toSet 1 [65] 5)).2 = none ∧
    CountAddress (applyWrites asciiLower newSettingStorage [AddressWrite.toSet 1 [65] 5])
      = (0, some Error.bucketMissing) := by
  decide

/-- C17 (amended): `ws` is a sequence of writes on a store `st` with ascending
keys.  The address bucket exists afterwards exactly when it existed in `st` or
`ws` holds an `UpdateOneAddress`; the set bucket exists afterwards exactly when
it existed in `st` or `ws` holds an `AddAddressToSet` that returned no error.
When both exist `CountAddress` succeeds and returns, in `uint64`, the number of
entries of the address bucket plus the number of members of all sets, the keys
being strictly ascending, hence distinct, in each; when one of them does not
exist it fails.  From a new store: it succeeds when `ws` holds an
`UpdateOneAddress` and an accepted `AddAddressToSet`, and fails otherwise. -/
theorem C17_CountAddress_after_both_kinds (toLower : Bytes → Bytes) (st : BoltSettingStorage)
    (ws : List AddressWrite) (hwf : st.WF) :
    ((applyWrites toLower st ws).addressSetting.isSome
      = (st.addressSetting.isSome || ws.any AddressWrite.isOne)) ∧
    ((applyWrites toLower st ws).addressSetSetting.isSome
      = (st.addressSetSetting.isSome || ws.any (fun w => w.isToSet && w.accepted toLower))) ∧
    ((applyWrites toLower st ws).addressSetting.isSome = true →
      (applyWrites toLower st ws).addressSetSetting.isSome = true →
      CountAddress (applyWrites toLower st ws) =
        (((applyWrites toLower st ws).scalarCount +
          (applyWrites toLower st ws).memberCount) % 2 ^ 64, none)) ∧
    ((applyWrites toLower st ws).addressSetting.isSome = false ∨
      (applyWrites toLower st ws).addressSetSetting.isSome = false →
      CountAddress (applyWrites toLower st ws) = (0, some Error.bucketMissing)) ∧
    (ws.any AddressWrite.isOne = true →
      ws.any (fun w => w.isToSet && w.accepted toLower) = true →
      (applyWrites toLower newSettingStorage ws).scalarCount +
        (applyWrites toLower newSettingStorage ws).memberCount < 2 ^ 64 →
      CountAddress (applyWrites toLower newSettingStorage ws) =
        ((applyWrites toLower newSettingStorage ws).scalarCount +
          (applyWrites toLower newSettingStorage ws).memberCount, none)) ∧
    (ws.any AddressWrite.isOne = false ∨
      ws.any (fun w => w.isToSet && w.accepted toLower) = false →
      CountAddress (applyWrites toLower newSettingStorage ws) = (0, some Error.bucketMissing)) ∧
    (applyWrites toLower st ws).WF := by
  have hwf1 := applyWrites_WF toLower ws st hwf
  have hwf0 := applyWrites_WF toLower ws newSettingStorage newSettingStorage_WF
  have hsome := applyWrites_isSome toLower ws newSettingStorage
  simp only [newSettingStorage, Option.isSome_none, Bool.false_or] at hsome
  refine ⟨(applyWrites_isSome toLower ws st).1, (applyWrites_isSome toLower ws st).2,
    ?_, ?_, ?_, ?_, hwf1⟩
  · intro h1 h2
    obtain ⟨bA, hA⟩ := Option.isSome_iff_exists.1 h1
    obtain ⟨bS, hS⟩ := Option.isSome_iff_exists.1 h2
    exact CountAddress_of_buckets_mod hA hS hwf1
  · rintro (h | h)
    · exact CountAddress_of_no_address (by simpa using h) hwf1
    · exact CountAddress_of_no_set (by simpa using h)
  · intro h1 h2 hlt
    rw [h1] at hsome
    rw [h2] at hsome
    obtain ⟨bA, hA⟩ := Option.isSome_iff_exists.1 hsome.1
    obtain ⟨bS, hS⟩ := Option.isSome_iff_exists.1 hsome.2
    exact CountAddress_of_buckets hA hS hwf0 hlt
  · rintro (h | h)
    · rw [h] at hsome
      exact CountAddress_of_no_address (by simpa using hsome.1) hwf0
    · rw [h] at hsome
      exact CountAddress_of_no_set (by simpa using hsome.2)

/-- C17 (amended) at a concrete input: two names, one of them written twice,
and two sets with two and one members; the count is 5.  After one
`UpdateOneAddress` and one refused `AddAddressToSet` the count fails. -/
theorem C17_CountAddress_after_both_kinds_witness :
    CountAddress (applyWrites asciiLower newSettingStorage
      [AddressWrite.one 1 [65] 5, AddressWrite.toSet 7 [66] 6, AddressWrite.one 2 [67] 7,
        AddressWrite.toSet 7 [68] 8, AddressWrite.one 1 [69] 9, AddressWrite.toSet 8 [66] 9,
        AddressWrite.toSet 7 [98] 9]) = (5, none) ∧
    CountAddress (applyWrites asciiLower newSettingStorage
      [AddressWrite.one 1 [65] 5, AddressWrite.toSet 7 [] 6]) = (0, some Error.bucketMissing) :=
  ⟨(C17_CountAddress_after_both_kinds asciiLower newSettingStorage
      [AddressWrite.one 1 [65] 5, AddressWrite.toSet 7 [66] 6, AddressWrite.one 2 [67] 7,
        AddressWrite.toSet 7 [68] 8, AddressWrite.one 1 [69] 9, AddressWrite.toSet 8 [66] 9,
        AddressWrite.toSet 7 [98] 9] (by decide)).2.2.2.2.1 (by decide) (by decide) (by decide),
   (C17_CountAddress_after_both_kinds asciiLower newSettingStorage
      [AddressWrite.one 1 [65] 5, AddressWrite.toSet 7 [] 6] (by decide)).2.2.2.2.2.1
      (Or.inr (by decide))⟩


/-! ## Atomic rejection, key order and inverted ranges -/

/-- C24: when `StoreCatLog` returns an error, the storage after the call, both
buckets and the cached block, is the storage before the call. -/
theorem C24_rejected_StoreCatLog_is_atomic (J : LogCodec) (bls : BoltLogStorage) (l : SetCatLog)
    (h : (StoreCatLog J bls l).2 ≠ none) :
    (StoreCatLog J bls l).1 = bls ∧
    (StoreCatLog J bls l).1.db.tradelog = bls.db.tradelog ∧
    (StoreCatLog J bls l).1.db.catlog = bls.db.catlog ∧
    (StoreCatLog J bls l).1.block = bls.block := by
  have key : (StoreCatLog J bls l).1 = bls := by
    unfold StoreCatLog dbUpdate at h ⊢
    cases hm : J.marshalCat l with
    | none => rfl
    | some d =>
      rw [hm] at h
      simp only at h ⊢
      split_ifs at h ⊢ with hc
      · rfl
      · exact absurd rfl h
  rw [key]
  exact ⟨rfl, rfl, rfl, rfl⟩

/-- C24 at a concrete input: on the store with two category logs and a trade
log of block 20, a category record of block 9 is refused and nothing changes. -/
theorem C24_rejected_StoreCatLog_is_atomic_witness :
    (StoreCatLog wireCodec (StoreTradeLog wireCodec logAfterTwo (tradeRec 4 20 0) 0).1
      (catRec 3 9 5)).1 = (StoreTradeLog wireCodec logAfterTwo (tradeRec 4 20 0) 0).1 :=
  (C24_rejected_StoreCatLog_is_atomic wireCodec
    (StoreTradeLog wireCodec logAfterTwo (tradeRec 4 20 0) 0).1 (catRec 3 9 5) (by decide)).1


/-! ## Inverted ranges -/

theorem bytesCompare_le_lt_trans {a b c : Bytes} (h1 : bytesCompare a b ≤ 0)
    (h2 : bytesCompare b c < 0) : bytesCompare a c < 0 := by
  by_cases h0 : bytesCompare a b = 0
  · rw [bytesCompare_eq_zero.1 h0]
    exact h2
  · exact bytesCompare_lt_trans a b c (by omega) h2

theorem dropWhile_head_false {α : Type} (p : α → Bool) : ∀ (l : List α) (e : α) (c : List α),
    l.dropWhile p = e :: c → p e = false := by
  intro l
  induction l with
  | nil => intro e c h; simp at h
  | cons a l ih =>
    intro e c h
    cases hpa : p a with
    | true =>
      rw [List.dropWhile_cons_of_pos hpa] at h
      exact ih e c h
    | false =>
      rw [List.dropWhile_cons_of_neg (by simp [hpa])] at h
      simp only [List.cons.injEq] at h
      rw [← h.1]
      exact hpa

theorem Seek_head_gt {b : Bucket} {fromTime toTime : Nat} (hinv : toTime < fromTime)
    (hfrom : fromTime < 2 ^ 64) {e : Bytes × Bytes} {c : Cursor}
    (h : Cursor.Seek b (Uint64ToBytes fromTime) = e :: c) :
    ¬ bytesCompare e.1 (Uint64ToBytes toTime) ≤ 0 := by
  intro hle
  have hp := dropWhile_head_false _ b e c h
  simp only [decide_eq_false_iff_not] at hp
  exact hp (bytesCompare_le_lt_trans hle
    ((bytesCompare_Uint64_lt (lt_trans hinv hfrom) hfrom).2 hinv))

theorem subU64_of_lt {a b : Nat} (hab : a < b) (hb : b < 2 ^ 64) :
    subU64 a b = a + 2 ^ 64 - b := by
  unfold subU64
  norm_num at hb ⊢
  omega

/-- C26: for `toTime < fromTime` each of `GetTradeLogs`, `GetCatLogs` and
`GetPriceAnalyticData` returns no record: it fails with the range-too-broad
error when `toTime - fromTime`, taken modulo `2 ^ 64`, exceeds the window, and
returns the empty result without an error otherwise. -/
theorem C26_inverted_range_returns_no_record {σ : Type} (J : LogCodec) (A : AnalyticCodec σ)
    (bls : BoltLogStorage) (bas : BoltAnalyticStorage) (fromTime toTime : Nat)
    (hinv : toTime < fromTime) (hfrom : fromTime < 2 ^ 64) :
    GetTradeLogs J bls fromTime toTime =
      ([], if 86400000000000 < toTime + 2 ^ 64 - fromTime then some Error.rangeTooBroad
        else none) ∧
    GetCatLogs J bls fromTime toTime =
      ([], if 86400000000000 < toTime + 2 ^ 64 - fromTime then some Error.rangeTooBroad
        else none) ∧
    GetPriceAnalyticData A bas fromTime toTime =
      ([], if 86400000 < toTime + 2 ^ 64 - fromTime then some Error.rangeTooBroad else none) := by
  have hsub := subU64_of_lt hinv hfrom
  refine ⟨?_, ?_, ?_⟩
  · unfold GetTradeLogs
    rw [hsub]
    by_cases h : toTime + 2 ^ 64 - fromTime > maxGetLogPeriod
    · have h' : 86400000000000 < toTime + 2 ^ 64 - fromTime := h
      simp only [h, h', if_true]
    · have h' : ¬ 86400000000000 < toTime + 2 ^ 64 - fromTime := h
      simp only [h, h', if_false]
      cases hc : Cursor.Seek bls.db.tradelog (Uint64ToBytes fromTime) with
      | nil => rfl
      | cons e c =>
        obtain ⟨k, v⟩ := e
        have := Seek_head_gt hinv hfrom hc
        simp only at this
        simp only [getTradeLogsLoop, this, if_false]
  · unfold GetCatLogs
    rw [hsub]
    by_cases h : toTime + 2 ^ 64 - fromTime > maxGetLogPeriod
    · have h' : 86400000000000 < toTime + 2 ^ 64 - fromTime := h
      simp only [h, h', if_true]
    · have h' : ¬ 86400000000000 < toTime + 2 ^ 64 - fromTime := h
      simp only [h, h', if_false]
      cases hc : Cursor.Seek bls.db.catlog (Uint64ToBytes fromTime) with
      | nil => rfl
      | cons e c =>
        obtain ⟨k, v⟩ := e
        have := Seek_head_gt hinv hfrom hc
        simp only at this
        simp only [getCatLogsLoop, this, if_false]
  · unfold GetPriceAnalyticData
    simp only
    rw [hsub]
    by_cases h : toTime + 2 ^ 64 - fromTime > maxGetAnalyticPeriod
    · have h' : 86400000 < toTime + 2 ^ 64 - fromTime := h
      simp only [h, h', if_true]
    · have h' : ¬ 86400000 < toTime + 2 ^ 64 - fromTime := h
      simp only [h, h', if_false]
      cases hc : Cursor.Seek bas.priceAnalytic (Uint64ToBytes fromTime) with
      | nil => rfl
      | cons e c =>
        obtain ⟨k, v⟩ := e
        have := Seek_head_gt hinv hfrom hc
        simp only at this
        simp only [getPriceAnalyticLoop, this, if_false]

/-- C26 at concrete inputs: the range `[9, 3]` over the three trade records
fails as too broad; the range `[2 ^ 64 - 1, 3]`, whose difference wraps to 4,
returns the empty result although records lie at 3 and at `2 ^ 64 - 1`. -/
theorem C26_inverted_range_returns_no_record_witness :
    GetTradeLogs wireCodec tradeThree 9 3 = ([], some Error.rangeTooBroad) ∧
    GetTradeLogs wireCodec
      (StoreTradeLog wireCodec tradeThree (tradeRec 18446744073709551615 7 0) 0).1
      18446744073709551615 3 = ([], none) :=
  ⟨(C26_inverted_range_returns_no_record wireCodec wireAnalytic tradeThree analyticTwo 9 3
      (by decide) (by decide)).1,
   (C26_inverted_range_returns_no_record wireCodec wireAnalytic
      (StoreTradeLog wireCodec tradeThree (tradeRec 18446744073709551615 7 0) 0).1 analyticTwo
      18446744073709551615 3 (by decide) (by decide)).1⟩


/-! ## Storing a trade log -/

theorem Seek_Put_self : ∀ (b : Bucket) (k v : Bytes), b.Sorted →
    ∃ tail : Cursor, Cursor.Seek (b.Put k v) k = (k, v) :: tail ∧
      ∀ e ∈ tail, bytesCompare k e.1 < 0 := by
  intro b
  induction b with
  | nil =>
    intro k v _
    refine ⟨[], ?_, fun e he => by simp at he⟩
    simp [Bucket.Put, Cursor.Seek, bytesCompare_self]
  | cons a rest ih =>
    intro k v hs
    obtain ⟨k', v'⟩ := a
    unfold Bucket.Sorted at hs
    rw [List.pairwise_cons] at hs
    simp only [Bucket.Put]
    split_ifs with h1 h2
    · refine ⟨(k', v') :: rest, ?_, ?_⟩
      · simp [Cursor.Seek, bytesCompare_self]
      · intro e he
        simp only [List.mem_cons] at he
        rcases he with rfl | he
        · exact h1
        · exact bytesCompare_lt_trans _ _ _ h1 (hs.1 e he)
    · have hk : k = k' := bytesCompare_eq_zero.1 h2
      subst hk
      refine ⟨rest, ?_, fun e he => hs.1 e he⟩
      simp [Cursor.Seek, bytesCompare_self]
    · obtain ⟨tail, ht, hall⟩ := ih k v hs.2
      refine ⟨tail, ?_, hall⟩
      have hsw := bytesCompare_swap k k'
      have hlt : bytesCompare k' k < 0 := by omega
      unfold Cursor.Seek at ht ⊢
      rw [List.dropWhile_cons_of_pos (by simpa using hlt)]
      exact ht

theorem subU64_self (a : Nat) : subU64 a a = 0 := by
  unfold subU64
  rw [Nat.add_sub_cancel_left]
  exact Nat.mod_self _

theorem StoreTradeLog_of_marshal {J : LogCodec} {r : TradeLog} {d : Bytes}
    (hm : J.marshalTrade r = some d) (bls : BoltLogStorage) (tp : Nat) :
    StoreTradeLog J bls r tp =
      ({ bls with
          db := { bls.db with
            tradelog := bls.db.tradelog.Put (Uint64ToBytes r.Timestamp) d } }, none) := by
  unfold StoreTradeLog dbUpdate
  simp only [hm]

/-- C23: `StoreTradeLog` of a record that marshals returns no error whatever
the stored records are, the time point has no effect, and afterwards
`GetTradeLogs` over the single timestamp of the record returns the record
alone. -/
theorem C23_StoreTradeLog_has_no_check (J : LogCodec) (bls : BoltLogStorage) (r : TradeLog)
    (tp tp' : Nat) (d : Bytes) (hs : bls.db.tradelog.Sorted)
    (hm : J.marshalTrade r = some d) (hround : J.unmarshalTrade d = some r) :
    (StoreTradeLog J bls r tp).2 = none ∧
    StoreTradeLog J bls r tp = StoreTradeLog J bls r tp' ∧
    (StoreTradeLog J bls r tp).1.db.tradelog.Get (Uint64ToBytes r.Timestamp) = some d ∧
    GetTradeLogs J (StoreTradeLog J bls r tp).1 r.Timestamp r.Timestamp = ([r], none) := by
  rw [StoreTradeLog_of_marshal hm bls tp, StoreTradeLog_of_marshal hm bls tp']
  refine ⟨rfl, rfl, Bucket.Get_Put_self _ _ _, ?_⟩
  obtain ⟨tail, ht, hall⟩ := Seek_Put_self bls.db.tradelog (Uint64ToBytes r.Timestamp) d hs
  unfold GetTradeLogs
  rw [subU64_self]
  have h0 : ¬ (0 > maxGetLogPeriod) := by decide
  simp only [h0, if_false]
  rw [ht]
  simp only [getTradeLogsLoop, bytesCompare_self, le_refl, if_true, hround, List.nil_append]
  cases tail with
  | nil => rfl
  | cons e c =>
    obtain ⟨k, v⟩ := e
    have hlt := hall (k, v) (List.mem_cons_self _ _)
    have hsw := bytesCompare_swap (Uint64ToBytes r.Timestamp) k
    simp only at hlt
    have hgt : ¬ bytesCompare k (Uint64ToBytes r.Timestamp) ≤ 0 := by omega
    simp only [getTradeLogsLoop, hgt, if_false]

/-- C23 at a concrete input: the latest stored trade log is of block 2; a record
of block 1, index 0 with the timestamp 6 is stored and read back. -/
theorem C23_StoreTradeLog_has_no_check_witness :
    (StoreTradeLog wireCodec tradeThree (tradeRec 6 1 0) 77).2 = none ∧
    GetTradeLogs wireCodec (StoreTradeLog wireCodec tradeThree (tradeRec 6 1 0) 77).1 6 6
      = ([tradeRec 6 1 0], none) :=
  ⟨(C23_StoreTradeLog_has_no_check wireCodec tradeThree (tradeRec 6 1 0) 77 0
      (wireEncode 6 1 0 []) (by decide) (by decide) (by decide)).1,
   (C23_StoreTradeLog_has_no_check wireCodec tradeThree (tradeRec 6 1 0) 77 0
      (wireEncode 6 1 0 []) (by decide) (by decide) (by decide)).2.2.2⟩


/-! ## Export and prune -/

theorem ExportExpiredPriceAnalyticData_eq {σ : Type} (J : AnalyticCodec σ)
    {bas : BoltAnalyticStorage} (now : Nat) {file : FileState}
    (hs : bas.priceAnalytic.Sorted) (hk : bas.priceAnalytic.WellKeyed)
    (hlen : bas.priceAnalytic.length < 2 ^ 64)
    (hjson : ∀ e ∈ bas.priceAnalytic, ∃ temp, J.unmarshalObj e.2 = some temp)
    (hmar : ∀ r, ∃ out, J.marshalResp r = some out)
    (hc : file.creatable = true) :
    ExportExpiredPriceAnalyticData J bas now file =
      { storage := bas,
        file :=
          { file with
            content := fileLines
              ((bas.priceAnalytic.upTo (subU64 now priceAnalyticExpired)).filterMap
                (exportLine J)) },
        nRecord := (bas.priceAnalytic.upTo (subU64 now priceAnalyticExpired)).length,
        err := none } := by
  have hline : ∀ e ∈ bas.priceAnalytic, ∃ l, exportLine J e = some l := by
    intro e he
    obtain ⟨temp, ht⟩ := hjson e he
    obtain ⟨out, ho⟩ := hmar (NewAnalyticPriceResponse (BytesToUint64 e.1) temp)
    exact ⟨out, by simp [exportLine, ht, ho]⟩
  have hloop := exportLoop_of_lines J (Uint64ToBytes (subU64 now priceAnalyticExpired))
    bas.priceAnalytic [] 0 (by norm_num)
    (fun e he => hline e ((List.takeWhile_sublist _).subset he))
  rw [Bucket.takeWhile_keyLe hs hk (subU64_lt _ _)] at hloop
  simp only [List.nil_append, Nat.zero_add] at hloop
  rw [Nat.mod_eq_of_lt (lt_of_le_of_lt (Bucket.upTo_length_le _ _) hlen)] at hloop
  unfold ExportExpiredPriceAnalyticData osCreate
  simp only [hc, if_true, Cursor.First]
  rw [hloop.1]

theorem Bucket.upTo_above (b : Bucket) (x : Nat) : (b.above x).upTo x = [] := by
  unfold Bucket.upTo Bucket.above
  rw [List.filter_filter, List.filter_eq_nil_iff]
  intro e _
  simp only [Bool.and_eq_true, decide_eq_true_eq, not_and]
  omega

/-- C27: on a store with ascending `uint64` keys whose values unmarshal, for
every `now`, the export and the prune use the same boundary: they return the
same count, the entries whose lines are exported are exactly the entries the
prune removes, and an export after the prune writes nothing and returns 0. -/
theorem C27_export_and_prune_agree {σ : Type} (J : AnalyticCodec σ) (bas : BoltAnalyticStorage)
    (now : Nat) (file file' : FileState)
    (hs : bas.priceAnalytic.Sorted) (hk : bas.priceAnalytic.WellKeyed)
    (hlen : bas.priceAnalytic.length < 2 ^ 64)
    (hjson : ∀ e ∈ bas.priceAnalytic, ∃ temp, J.unmarshalObj e.2 = some temp)
    (hmar : ∀ r, ∃ out, J.marshalResp r = some out)
    (hc : file.creatable = true) (hc' : file'.creatable = true) :
    (ExportExpiredPriceAnalyticData J bas now file).err = none ∧
    (PruneExpiredPriceAnalyticData bas now).2.2 = none ∧
    (ExportExpiredPriceAnalyticData J bas now file).nRecord
      = (PruneExpiredPriceAnalyticData bas now).2.1 ∧
    (ExportExpiredPriceAnalyticData J bas now file).file.content =
      fileLines ((bas.priceAnalytic.upTo (subU64 now priceAnalyticExpired)).filterMap
        (exportLine J)) ∧
    (∀ e ∈ bas.priceAnalytic,
      e ∈ bas.priceAnalytic.upTo (subU64 now priceAnalyticExpired) ↔
        e ∉ (PruneExpiredPriceAnalyticData bas now).1.priceAnalytic) ∧
    (ExportExpiredPriceAnalyticData J (PruneExpiredPriceAnalyticData bas now).1 now file').nRecord
      = 0 ∧
    (ExportExpiredPriceAnalyticData J (PruneExpiredPriceAnalyticData bas now).1 now file').err
      = none ∧
    (ExportExpiredPriceAnalyticData J (PruneExpiredPriceAnalyticData bas now).1 now
      file').file.content = [] := by
  have hE := ExportExpiredPriceAnalyticData_eq J now hs hk hlen hjson hmar hc
  have hP := PruneExpiredPriceAnalyticData_eq hs hk hlen now
  have hE' : ExportExpiredPriceAnalyticData J (PruneExpiredPriceAnalyticData bas now).1 now file'
      = { storage := (PruneExpiredPriceAnalyticData bas now).1,
          file := { file' with content := [] }, nRecord := 0, err := none } := by
    rw [hP]
    have h := @ExportExpiredPriceAnalyticData_eq σ J
      ⟨bas.priceAnalytic.above (subU64 now priceAnalyticExpired)⟩ now file'
      (hs.filter_sorted _) (hk.filter_wellKeyed _)
      (lt_of_le_of_lt (List.length_filter_le _ _) hlen)
      (fun e he => hjson e (List.mem_of_mem_filter he)) hmar hc'
    simp only [Bucket.upTo_above] at h
    exact h
  rw [hE, hP, ← hP, hE']
  refine ⟨rfl, ?_, ?_, rfl, ?_, rfl, rfl, rfl⟩
  · rw [hP]
  · rw [hP]
  · intro e he
    rw [hP]
    simp only [Bucket.upTo, Bucket.above, List.mem_filter, decide_eq_true_eq, he, true_and]
    omega

/-- C27 at a concrete input with `now` below the retention window, where the
boundary wraps around: one record at 5, `now = 10`; the export and the prune
both count 1 and a second export counts 0. -/
theorem C27_export_and_prune_agree_witness :
    (ExportExpiredPriceAnalyticData wireAnalytic ⟨[(Uint64ToBytes 5, [1])]⟩ 10 ⟨[], true⟩).nRecord
      = (PruneExpiredPriceAnalyticData ⟨[(Uint64ToBytes 5, [1])]⟩ 10).2.1 ∧
    (ExportExpiredPriceAnalyticData wireAnalytic
      (PruneExpiredPriceAnalyticData ⟨[(Uint64ToBytes 5, [1])]⟩ 10).1 10 ⟨[7], true⟩).nRecord = 0 :=
  ⟨(C27_export_and_prune_agree wireAnalytic ⟨[(Uint64ToBytes 5, [1])]⟩ 10 ⟨[], true⟩ ⟨[7], true⟩
      (by decide) (by decide) (by decide) (fun e _ => ⟨e.2, rfl⟩) (fun r => ⟨_, rfl⟩) rfl
      rfl).2.2.1,
   (C27_export_and_prune_agree wireAnalytic ⟨[(Uint64ToBytes 5, [1])]⟩ 10 ⟨[], true⟩ ⟨[7], true⟩
      (by decide) (by decide) (by decide) (fun e _ => ⟨e.2, rfl⟩) (fun r => ⟨_, rfl⟩) rfl
      rfl).2.2.2.2.2.1⟩


/-! ## The frame of `UpdateOneAddress` -/

/-- C25 (counterexample): on a store without the address bucket `GetAddress 2`
fails with "Bucket doesn't exist yet"; `UpdateOneAddress 1 "A" 5` succeeds and
creates the bucket, and `GetAddress 2` then fails with "Key is not found": the
result for the other name 2 is not the result before the call. -/
theorem C25_GetAddress_error_changes_on_first_write :
    (UpdateOneAddress asciiLower newSettingStorage 1 [65] 5).2 = none ∧
    GetAddress newSettingStorage 2 = ([], some Error.bucketMissing) ∧
    GetAddress (UpdateOneAddress asciiLower newSettingStorage 1 [65] 5).1 2
      = ([], some Error.keyNotFound) ∧
    GetAddress (UpdateOneAddress asciiLower newSettingStorage 1 [65] 5).1 2
      ≠ GetAddress newSettingStorage 2 := by
  decide

/-- C25 (amended): `UpdateOneAddress n a t` returns no error, afterwards
`GetAddress n` returns the lower-cased address, and for every other name `m`
`GetAddress m` returns the value it returned before and fails exactly when it
failed before.  When the address bucket existed before the call the result of
`GetAddress m`, value and error, is the one before the call; when the call
creates the bucket the error changes from "Bucket doesn't exist yet" to "Key is
not found".  The sets are untouched, so `GetAddresses s` returns the same
result, value and error, for every set, and no other key of the address bucket
changes. -/
theorem C25_UpdateOneAddress_frame (toLower : Bytes → Bytes) (st : BoltSettingStorage)
    (n m s : Nat) (a : Bytes) (t : Nat) (hnm : n ≠ m) (hn : n < 2 ^ 64) (hm : m < 2 ^ 64) :
    (UpdateOneAddress toLower st n a t).2 = none ∧
    GetAddress (UpdateOneAddress toLower st n a t).1 n = (toLower a, none) ∧
    (GetAddress (UpdateOneAddress toLower st n a t).1 m).1 = (GetAddress st m).1 ∧
    ((GetAddress (UpdateOneAddress toLower st n a t).1 m).2 = none ↔
      (GetAddress st m).2 = none) ∧
    (st.addressSetting.isSome = true →
      GetAddress (UpdateOneAddress toLower st n a t).1 m = GetAddress st m) ∧
    (st.addressSetting = none →
      GetAddress st m = ([], some Error.bucketMissing) ∧
      GetAddress (UpdateOneAddress toLower st n a t).1 m = ([], some Error.keyNotFound)) ∧
    GetAddresses (UpdateOneAddress toLower st n a t).1 s = GetAddresses st s ∧
    (UpdateOneAddress toLower st n a t).1.addressSetSetting = st.addressSetSetting ∧
    (∀ k, k ≠ Uint64ToBytes n →
      ((UpdateOneAddress toLower st n a t).1.addressSetting.getD []).Get k
        = (st.addressSetting.getD []).Get k) := by
  have hne : Uint64ToBytes m ≠ Uint64ToBytes n :=
    fun he => hnm (Uint64ToBytes_injective hm hn he).symm
  have hget : GetAddress (UpdateOneAddress toLower st n a t).1 m =
      match (st.addressSetting.getD []).Get (Uint64ToBytes m) with
      | none => ([], some Error.keyNotFound)
      | some data => (data, none) := by
    simp only [UpdateOneAddress_eq, GetAddress]
    rw [Bucket.Get_Put_other _ _ hne]
  refine ⟨rfl, ?_, ?_, ?_, ?_, ?_, rfl, rfl, ?_⟩
  · simp only [UpdateOneAddress_eq, GetAddress, Bucket.Get_Put_self]
  · rw [hget]
    unfold GetAddress
    cases st.addressSetting with
    | none => simp [Bucket.Get]
    | some b =>
      simp only [Option.getD_some]
  · rw [hget]
    unfold GetAddress
    cases st.addressSetting with
    | none => simp [Bucket.Get]
    | some b =>
      simp only [Option.getD_some]
  · intro hsome
    rw [hget]
    unfold GetAddress
    cases hb : st.addressSetting with
    | none => rw [hb] at hsome; simp at hsome
    | some b => simp only [Option.getD_some]
  · intro hnone
    rw [hget]
    unfold GetAddress
    rw [hnone]
    simp [Bucket.Get]
  · intro k hk
    simp only [UpdateOneAddress_eq, Option.getD_some]
    exact Bucket.Get_Put_other _ _ hk

/-- C25 (amended) at a concrete input: the names 1 and 2 hold addresses and the
set 7 a member; the name 1 is written again. -/
theorem C25_UpdateOneAddress_frame_witness :
    GetAddress (UpdateOneAddress asciiLower (applyWrites asciiLower newSettingStorage
      [AddressWrite.one 1 [65] 5, AddressWrite.one 2 [66] 6, AddressWrite.toSet 7 [67] 7])
      1 [68] 8).1 1 = ([100], none) ∧
    GetAddress (UpdateOneAddress asciiLower (applyWrites asciiLower newSettingStorage
      [AddressWrite.one 1 [65] 5, AddressWrite.one 2 [66] 6, AddressWrite.toSet 7 [67] 7])
      1 [68] 8).1 2 = GetAddress (applyWrites asciiLower newSettingStorage
      [AddressWrite.one 1 [65] 5, AddressWrite.one 2 [66] 6, AddressWrite.toSet 7 [67] 7]) 2 ∧
    GetAddresses (UpdateOneAddress asciiLower (applyWrites asciiLower newSettingStorage
      [AddressWrite.one 1 [65] 5, AddressWrite.one 2 [66] 6, AddressWrite.toSet 7 [67] 7])
      1 [68] 8).1 7 = GetAddresses (applyWrites asciiLower newSettingStorage
      [AddressWrite.one 1 [65] 5, AddressWrite.one 2 [66] 6, AddressWrite.toSet 7 [67] 7]) 7 ∧
    GetAddress (applyWrites asciiLower newSettingStorage
      [AddressWrite.one 1 [65] 5, AddressWrite.one 2 [66] 6, AddressWrite.toSet 7 [67] 7]) 2
      = ([98], none) :=
  ⟨(C25_UpdateOneAddress_frame asciiLower (applyWrites asciiLower newSettingStorage
      [AddressWrite.one 1 [65] 5, AddressWrite.one 2 [66] 6, AddressWrite.toSet 7 [67] 7])
      1 2 7 [68] 8 (by decide) (by decide) (by decide)).2.1,
   (C25_UpdateOneAddress_frame asciiLower (applyWrites asciiLower newSettingStorage
      [AddressWrite.one 1 [65] 5, AddressWrite.one 2 [66] 6, AddressWrite.toSet 7 [67] 7])
      1 2 7 [68] 8 (by decide) (by decide) (by decide)).2.2.2.2.1 (by decide),
   (C25_UpdateOneAddress_frame asciiLower (applyWrites asciiLower newSettingStorage
      [AddressWrite.one 1 [65] 5, AddressWrite.one 2 [66] 6, AddressWrite.toSet 7 [67] 7])
      1 2 7 [68] 8 (by decide) (by decide) (by decide)).2.2.2.2.2.2.1,
   by decide⟩


/-! ## Stored records and later inserts -/

theorem Bucket.mem_Put_of_ne : ∀ (b : Bucket) (k v : Bytes) (e : Bytes × Bytes),
    e ∈ b → e.1 ≠ k → e ∈ b.Put k v := by
  intro b
  induction b with
  | nil => intro k v e he; simp at he
  | cons a rest ih =>
    intro k v e he hne
    obtain ⟨k', v'⟩ := a
    simp only [Bucket.Put]
    split_ifs with h1 h2
    · exact List.mem_cons_of_mem _ he
    · have hk : k = k' := bytesCompare_eq_zero.1 h2
      subst hk
      simp only [List.mem_cons] at he ⊢
      rcases he with rfl | he
      · exact absurd rfl hne
      · exact Or.inr he
    · simp only [List.mem_cons] at he ⊢
      rcases he with rfl | he
      · exact Or.inl rfl
      · exact Or.inr (ih k v e he hne)

theorem Bucket.mem_Put_cases (b : Bucket) (k v : Bytes) (e : Bytes × Bytes)
    (he : e ∈ b.Put k v) : e = (k, v) ∨ e ∈ b := by
  rw [Bucket.Put_eq_kvPut] at he
  exact mem_kvPut b k v e he

theorem Bucket.WellKeyed.put {b : Bucket} (hk : b.WellKeyed) {x : Nat} (hx : x < 2 ^ 64)
    (v : Bytes) : Bucket.WellKeyed (b.Put (Uint64ToBytes x) v) := by
  intro e he
  rcases Bucket.mem_Put_cases b _ v e he with rfl | he
  · simp only
    rw [BytesToUint64_Uint64ToBytes hx]
    exact ⟨rfl, hx⟩
  · exact hk e he

theorem getCatLogsLoop_eq (J : LogCodec) (max : Bytes) : ∀ (c : Cursor) (res : List SetCatLog),
    (∀ e ∈ c, ∃ r, J.unmarshalCat e.2 = some r) →
      getCatLogsLoop J max c res =
        (((c.takeWhile (keyLe max)).filterMap (fun e => J.unmarshalCat e.2)).reverse ++ res,
          none) := by
  intro c
  induction c with
  | nil => intro res _; simp [getCatLogsLoop]
  | cons e c ih =>
    intro res hall
    obtain ⟨k, v⟩ := e
    by_cases h : bytesCompare k max ≤ 0
    · have hp : keyLe max (k, v) = true := by simp [keyLe, h]
      rw [List.takeWhile_cons_of_pos hp]
      obtain ⟨r, hr⟩ := hall (k, v) (List.mem_cons_self _ _)
      simp only at hr
      simp only [getCatLogsLoop, h, if_true, hr]
      rw [ih _ (fun e he => hall e (List.mem_cons_of_mem _ he))]
      simp [List.filterMap_cons, hr]
    · have hp : ¬ keyLe max (k, v) = true := by simp [keyLe, h]
      rw [List.takeWhile_cons_of_neg hp]
      simp [getCatLogsLoop, h]

theorem isSome_of_map_eq_some {α β : Type} {o : Option α} {f : α → β} {y : β}
    (h : o.map f = some y) : ∃ r, o = some r := by
  cases o with
  | none => simp at h
  | some r => exact ⟨r, rfl⟩

theorem GetTradeLogs_entries (J : LogCodec) (bls : BoltLogStorage) (fromTime toTime : Nat)
    (hs : bls.db.tradelog.Sorted) (hk : bls.db.tradelog.WellKeyed)
    (hdec : ∀ e ∈ bls.db.tradelog, ∃ r, J.unmarshalTrade e.2 = some r)
    (hft : fromTime ≤ toTime) (hto : toTime < 2 ^ 64)
    (hw : toTime - fromTime ≤ 86400000000000) :
    GetTradeLogs J bls fromTime toTime =
      ((bls.db.tradelog.filter (fun e =>
          decide (BytesToUint64 e.1 ≤ toTime) && decide (fromTime ≤ BytesToUint64 e.1))).filterMap
        (fun e => J.unmarshalTrade e.2), none) := by
  unfold GetTradeLogs
  rw [subU64_of_le hto hft]
  have h : ¬ toTime - fromTime > maxGetLogPeriod := by simpa [maxGetLogPeriod] using hw
  simp only [h, if_false]
  rw [(getTradeLogsLoop_err _ _ _ _).2 (fun e he => hdec e (Cursor.Seek_subset _ _ he)),
    Bucket.Seek_eq hs hk (lt_of_le_of_lt hft hto),
    Bucket.takeWhile_keyLe (hs.filter_sorted _) (hk.filter_wellKeyed _) hto, Bucket.upTo,
    List.filter_filter, List.nil_append]

theorem GetCatLogs_entries (J : LogCodec) (bls : BoltLogStorage) (fromTime toTime : Nat)
    (hs : bls.db.catlog.Sorted) (hk : bls.db.catlog.WellKeyed)
    (hdec : ∀ e ∈ bls.db.catlog, ∃ r, J.unmarshalCat e.2 = some r)
    (hft : fromTime ≤ toTime) (hto : toTime < 2 ^ 64)
    (hw : toTime - fromTime ≤ 86400000000000) :
    GetCatLogs J bls fromTime toTime =
      (((bls.db.catlog.filter (fun e =>
          decide (BytesToUint64 e.1 ≤ toTime) && decide (fromTime ≤ BytesToUint64 e.1))).filterMap
        (fun e => J.unmarshalCat e.2)).reverse, none) := by
  unfold GetCatLogs
  rw [subU64_of_le hto hft]
  have h : ¬ toTime - fromTime > maxGetLogPeriod := by simpa [maxGetLogPeriod] using hw
  simp only [h, if_false]
  rw [getCatLogsLoop_eq _ _ _ _ (fun e he => hdec e (Cursor.Seek_subset _ _ he)),
    Bucket.Seek_eq hs hk (lt_of_le_of_lt hft hto),
    Bucket.takeWhile_keyLe (hs.filter_sorted _) (hk.filter_wellKeyed _) hto, Bucket.upTo,
    List.filter_filter, List.append_nil]

theorem mem_entries_Put {β : Type} (unm : Bytes → Option β) (Q : Bytes × Bytes → Bool)
    (b : Bucket) (k v : Bytes) (x : β)
    (hx : x ∈ (b.filter Q).filterMap (fun e => unm e.2))
    (hne : ∀ e ∈ b, unm e.2 = some x → e.1 ≠ k) :
    x ∈ ((b.Put k v).filter Q).filterMap (fun e => unm e.2) := by
  rw [List.mem_filterMap] at hx ⊢
  obtain ⟨e, he, hu⟩ := hx
  rw [List.mem_filter] at he
  exact ⟨e, List.mem_filter.2 ⟨Bucket.mem_Put_of_ne b k v e he.1 (hne e he.1 hu), he.2⟩, hu⟩

theorem key_ne_of_timestamp_ne {e : Bytes × Bytes}
    {ts rts : Nat} (hts : ts = BytesToUint64 e.1) (hr : rts < 2 ^ 64) (hne : ts ≠ rts) :
    e.1 ≠ Uint64ToBytes rts := by
  intro heq
  apply hne
  rw [hts, heq, BytesToUint64_Uint64ToBytes hr]


theorem timestamp_of_map {α : Type} {o : Option α} {f : α → Nat} {y : Nat} {x : α}
    (h : o.map f = some y) (hx : o = some x) : f x = y := by
  rw [hx] at h
  simpa using h

theorem StoreCatLog_of_error {J : LogCodec} {bls : BoltLogStorage} {l : SetCatLog}
    (h : (StoreCatLog J bls l).2 ≠ none) : (StoreCatLog J bls l).1 = bls := by
  unfold StoreCatLog dbUpdate at h ⊢
  cases hm : J.marshalCat l with
  | none => rfl
  | some d =>
    rw [hm] at h
    simp only at h ⊢
    split_ifs at h ⊢ with hc
    · rfl
    · exact absurd rfl h

theorem StoreTradeLog_of_marshal_none {J : LogCodec} {r : TradeLog}
    (hm : J.marshalTrade r = none) (bls : BoltLogStorage) (tp : Nat) :
    StoreTradeLog J bls r tp = (bls, some Error.marshal) := by
  unfold StoreTradeLog dbUpdate
  simp only [hm]

/-- C21 (counterexample): a trade record of block 1 is stored with the
timestamp 5 and retrieved; a second trade record with the same timestamp is
stored and the first one is no longer returned. The same happens with two
category records. -/
theorem C21_same_timestamp_replaces_record :
    GetTradeLogs wireCodec (StoreTradeLog wireCodec emptyLogStorage (tradeRec 5 1 0) 0).1 0 10
      = ([tradeRec 5 1 0], none) ∧
    GetTradeLogs wireCodec (StoreTradeLog wireCodec
      (StoreTradeLog wireCodec emptyLogStorage (tradeRec 5 1 0) 0).1 (tradeRec 5 2 3) 0).1 0 10
      = ([tradeRec 5 2 3], none) ∧
    GetCatLogs wireCodec (StoreCatLog wireCodec emptyLogStorage (catRec 5 1 0)).1 0 10
      = ([catRec 5 1 0], none) ∧
    GetCatLogs wireCodec (StoreCatLog wireCodec
      (StoreCatLog wireCodec emptyLogStorage (catRec 5 1 0)).1 (catRec 5 2 3)).1 0 10
      = ([catRec 5 2 3], none) := by
  decide

/-- C21 (amended): on a store of a state the storage can be in (ascending
`uint64` keys, every value unmarshalling to a record stored under its
timestamp), after `StoreTradeLog` or `StoreCatLog` of a record every record that
a range query returned before and whose timestamp differs from that of the new
record is returned by the same query after the call; the other bucket is
untouched. -/
theorem C21_store_keeps_other_timestamps (J : LogCodec) (bls : BoltLogStorage)
    (r : TradeLog) (l : SetCatLog) (tp fromTime toTime : Nat)
    (hsT : bls.db.tradelog.Sorted) (hkT : bls.db.tradelog.WellKeyed)
    (hdecT : ∀ e ∈ bls.db.tradelog,
      (J.unmarshalTrade e.2).map (fun x => x.Timestamp) = some (BytesToUint64 e.1))
    (hsC : bls.db.catlog.Sorted) (hkC : bls.db.catlog.WellKeyed)
    (hdecC : ∀ e ∈ bls.db.catlog,
      (J.unmarshalCat e.2).map (fun x => x.Timestamp) = some (BytesToUint64 e.1))
    (hr : r.Timestamp < 2 ^ 64) (hl : l.Timestamp < 2 ^ 64)
    (hroundT : ∀ d, J.marshalTrade r = some d → J.unmarshalTrade d = some r)
    (hroundC : ∀ d, J.marshalCat l = some d → J.unmarshalCat d = some l)
    (hft : fromTime ≤ toTime) (hto : toTime < 2 ^ 64)
    (hw : toTime - fromTime ≤ 86400000000000) :
    (∀ x ∈ (GetTradeLogs J bls fromTime toTime).1, x.Timestamp ≠ r.Timestamp →
      x ∈ (GetTradeLogs J (StoreTradeLog J bls r tp).1 fromTime toTime).1) ∧
    GetCatLogs J (StoreTradeLog J bls r tp).1 fromTime toTime
      = GetCatLogs J bls fromTime toTime ∧
    (∀ x ∈ (GetCatLogs J bls fromTime toTime).1, x.Timestamp ≠ l.Timestamp →
      x ∈ (GetCatLogs J (StoreCatLog J bls l).1 fromTime toTime).1) ∧
    GetTradeLogs J (StoreCatLog J bls l).1 fromTime toTime
      = GetTradeLogs J bls fromTime toTime := by
  refine ⟨?_, ?_, ?_, ?_⟩
  · intro x hx hne
    cases hm : J.marshalTrade r with
    | none => rw [StoreTradeLog_of_marshal_none hm]; exact hx
    | some d =>
      rw [StoreTradeLog_of_marshal hm]
      have hdec' : ∀ e ∈ bls.db.tradelog.Put (Uint64ToBytes r.Timestamp) d,
          ∃ y, J.unmarshalTrade e.2 = some y := by
        intro e he
        rcases Bucket.mem_Put_cases _ _ _ e he with rfl | he
        · exact ⟨r, hroundT d hm⟩
        · exact isSome_of_map_eq_some (hdecT e he)
      rw [GetTradeLogs_entries J bls fromTime toTime hsT hkT
        (fun e he => isSome_of_map_eq_some (hdecT e he)) hft hto hw] at hx
      rw [GetTradeLogs_entries J _ fromTime toTime (Bucket.Put_sorted _ _ _ hsT) (hkT.put hr d)
        hdec' hft hto hw]
      exact mem_entries_Put _ _ _ _ _ x hx
        (fun e he hu => key_ne_of_timestamp_ne (timestamp_of_map (hdecT e he) hu) hr hne)
  · cases hm : J.marshalTrade r with
    | none => rw [StoreTradeLog_of_marshal_none hm]
    | some d => rw [StoreTradeLog_of_marshal hm]; rfl
  · intro x hx hne
    by_cases herr : (StoreCatLog J bls l).2 = none
    · obtain ⟨d, hm, hst⟩ := StoreCatLog_of_no_error herr
      rw [hst]
      have hdec' : ∀ e ∈ bls.db.catlog.Put (Uint64ToBytes l.Timestamp) d,
          ∃ y, J.unmarshalCat e.2 = some y := by
        intro e he
        rcases Bucket.mem_Put_cases _ _ _ e he with rfl | he
        · exact ⟨l, hroundC d hm⟩
        · exact isSome_of_map_eq_some (hdecC e he)
      rw [GetCatLogs_entries J bls fromTime toTime hsC hkC
        (fun e he => isSome_of_map_eq_some (hdecC e he)) hft hto hw] at hx
      rw [GetCatLogs_entries J _ fromTime toTime (Bucket.Put_sorted _ _ _ hsC) (hkC.put hl d)
        hdec' hft hto hw]
      simp only [List.mem_reverse] at hx ⊢
      exact mem_entries_Put _ _ _ _ _ x hx
        (fun e he hu => key_ne_of_timestamp_ne (timestamp_of_map (hdecC e he) hu) hl hne)
    · rw [StoreCatLog_of_error herr]
      exact hx
  · by_cases herr : (StoreCatLog J bls l).2 = none
    · obtain ⟨d, hm, hst⟩ := StoreCatLog_of_no_error herr
      rw [hst]
      rfl
    · rw [StoreCatLog_of_error herr]

/-- C21 (amended) at a concrete input: trade records at 3, 5 and 9; a trade
record with the timestamp 5 is stored; the record of 3 is still returned over
`[0, 10]`. -/
theorem C21_store_keeps_other_timestamps_witness :
    tradeRec 3 2 1 ∈
      (GetTradeLogs wireCodec (StoreTradeLog wireCodec tradeThree (tradeRec 5 8 8) 0).1 0 10).1 :=
  (C21_store_keeps_other_timestamps wireCodec tradeThree (tradeRec 5 8 8) (catRec 4 3 0) 0 0 10
    (by decide) (by decide) (by decide) (by decide) (by decide) (by decide) (by decide)
    (by decide)
    (by
      intro d hd
      have : d = wireEncode 5 8 8 [] := by simpa [wireCodec, tradeRec] using hd.symm
      subst this
      decide)
    (by
      intro d hd
      have : d = wireEncode 4 3 0 [] := by simpa [wireCodec, catRec] using hd.symm
      subst this
      decide)
    (by decide) (by decide) (by decide)).1 (tradeRec 3 2 1) (by decide) (by decide)


/-! ## Key order in the cursor loops -/

theorem analyticRecord_timestamp {σ : Type} (J : AnalyticCodec σ) {e : Bytes × Bytes}
    {r : AnalyticPriceResponse σ} (h : analyticRecord J e = some r) :
    r.Timestamp = BytesToUint64 e.1 := by
  unfold analyticRecord at h
  cases hu : J.unmarshalObj e.2 with
  | none => rw [hu] at h; simp at h
  | some temp =>
    rw [hu] at h
    simp only [Option.some.injEq] at h
    rw [← h]

theorem getPriceAnalyticLoop_eq {σ : Type} (J : AnalyticCodec σ) (max : Bytes) :
    ∀ (c : Cursor) (res : List (AnalyticPriceResponse σ)),
    (∀ e ∈ c, ∃ r, J.unmarshalObj e.2 = some r) →
      getPriceAnalyticLoop J max c res =
        (res ++ (c.takeWhile (keyLe max)).filterMap (analyticRecord J), none) := by
  intro c
  induction c with
  | nil => intro res _; simp [getPriceAnalyticLoop]
  | cons e c ih =>
    intro res hall
    obtain ⟨k, v⟩ := e
    by_cases h : bytesCompare k max ≤ 0
    · have hp : keyLe max (k, v) = true := by simp [keyLe, h]
      rw [List.takeWhile_cons_of_pos hp]
      obtain ⟨r, hr⟩ := hall (k, v) (List.mem_cons_self _ _)
      simp only at hr
      have hrec : analyticRecord J (k, v) = some { Timestamp := BytesToUint64 k, Data := r } := by
        simp [analyticRecord, hr]
      simp only [getPriceAnalyticLoop, h, if_true, hr]
      rw [ih _ (fun e he => hall e (List.mem_cons_of_mem _ he)), List.filterMap_cons_some hrec]
      simp
    · have hp : ¬ keyLe max (k, v) = true := by simp [keyLe, h]
      rw [List.takeWhile_cons_of_neg hp]
      simp [getPriceAnalyticLoop, h]

theorem GetPriceAnalyticData_entries {σ : Type} (J : AnalyticCodec σ) (bas : BoltAnalyticStorage)
    (fromTime toTime : Nat) (hs : bas.priceAnalytic.Sorted) (hk : bas.priceAnalytic.WellKeyed)
    (hdec : ∀ e ∈ bas.priceAnalytic, ∃ r, J.unmarshalObj e.2 = some r)
    (hft : fromTime ≤ toTime) (hto : toTime < 2 ^ 64) (hw : toTime - fromTime ≤ 86400000) :
    GetPriceAnalyticData J bas fromTime toTime =
      ((bas.priceAnalytic.filter (fun e =>
          decide (BytesToUint64 e.1 ≤ toTime) && decide (fromTime ≤ BytesToUint64 e.1))).filterMap
        (analyticRecord J), none) := by
  unfold GetPriceAnalyticData
  simp only
  rw [subU64_of_le hto hft]
  have h : ¬ toTime - fromTime > maxGetAnalyticPeriod := by simpa [maxGetAnalyticPeriod] using hw
  simp only [h, if_false]
  rw [getPriceAnalyticLoop_eq _ _ _ _ (fun e he => hdec e (Cursor.Seek_subset _ _ he)),
    Bucket.Seek_eq hs hk (lt_of_le_of_lt hft hto),
    Bucket.takeWhile_keyLe (hs.filter_sorted _) (hk.filter_wellKeyed _) hto, Bucket.upTo,
    List.filter_filter, List.nil_append]

theorem analyticRecords_ascending {σ : Type} (J : AnalyticCodec σ) {b : Bucket}
    (hs : b.Sorted) (hk : b.WellKeyed) (p : Bytes × Bytes → Bool) :
    ((b.filter p).filterMap (analyticRecord J)).Pairwise
      (fun r s => r.Timestamp < s.Timestamp) := by
  apply List.Pairwise.filterMap _ _ ((hs.pairwise_lt hk).sublist (List.filter_sublist _))
  intro e f hef r hr s hs'
  rw [analyticRecord_timestamp J hr, analyticRecord_timestamp J hs']
  exact hef

/-- C22: for `uint64` numbers the byte order of the 8-byte big-endian encodings
is the order of the numbers and decoding gives the number back.  So on a bucket
with ascending `uint64` keys the entries a loop bounded by
`bytes.Compare(k, max) <= 0` visits are exactly those with a key of at most the
bound, in ascending order, and `Seek` starts at the first key of at least the
lower bound: `GetPriceAnalyticData` and its loop return the records of exactly
the entries with `fromTime <= key <= toTime`, with ascending timestamps;
`GetTradeLogs` and its loop return the records of exactly those entries in key
order; `GetCatLogs` and its loop return them in descending key order; the loops
of the export and of the prune write and delete exactly those entries. -/
theorem C22_key_encoding_preserves_order (a b : Nat) (ha : a < 2 ^ 64) (hb : b < 2 ^ 64)
    (J : LogCodec) {σ : Type} (A : AnalyticCodec σ) (bk : Bucket) (fromTime x : Nat)
    (hs : bk.Sorted) (hk : bk.WellKeyed) (hx : x < 2 ^ 64) (hfx : fromTime ≤ x) :
    (bytesCompare (Uint64ToBytes a) (Uint64ToBytes b) ≤ 0 ↔ a ≤ b) ∧
    (bytesCompare (Uint64ToBytes a) (Uint64ToBytes b) < 0 ↔ a < b) ∧
    BytesToUint64 (Uint64ToBytes a) = a ∧
    bk.takeWhile (keyLe (Uint64ToBytes x))
      = bk.filter (fun e => decide (BytesToUint64 e.1 ≤ x)) ∧
    Cursor.Seek bk (Uint64ToBytes fromTime)
      = bk.filter (fun e => decide (fromTime ≤ BytesToUint64 e.1)) ∧
    (bk.filter (fun e => decide (BytesToUint64 e.1 ≤ x))).Pairwise
      (fun e f => BytesToUint64 e.1 < BytesToUint64 f.1) ∧
    ((∀ e ∈ bk, (A.unmarshalObj e.2).isSome = true) →
      getPriceAnalyticLoop A (Uint64ToBytes x) bk [] =
        ((bk.filter (fun e => decide (BytesToUint64 e.1 ≤ x))).filterMap (analyticRecord A),
          none) ∧
      (x - fromTime ≤ 86400000 →
        GetPriceAnalyticData A { priceAnalytic := bk } fromTime x =
          ((bk.filter (fun e =>
              decide (BytesToUint64 e.1 ≤ x) && decide (fromTime ≤ BytesToUint64 e.1))).filterMap
            (analyticRecord A), none)) ∧
      ((bk.filter (fun e =>
          decide (BytesToUint64 e.1 ≤ x) && decide (fromTime ≤ BytesToUint64 e.1))).filterMap
        (analyticRecord A)).Pairwise (fun r s => r.Timestamp < s.Timestamp)) ∧
    ((∀ e ∈ bk, (J.unmarshalTrade e.2).isSome = true) →
      getTradeLogsLoop J (Uint64ToBytes x) bk [] =
        ((bk.filter (fun e => decide (BytesToUint64 e.1 ≤ x))).filterMap
          (fun e => J.unmarshalTrade e.2), none) ∧
      (x - fromTime ≤ 86400000000000 → ∀ (cat : Bucket) (blk : Nat),
        GetTradeLogs J { db := { tradelog := bk, catlog := cat }, block := blk } fromTime x =
          ((bk.filter (fun e =>
              decide (BytesToUint64 e.1 ≤ x) && decide (fromTime ≤ BytesToUint64 e.1))).filterMap
            (fun e => J.unmarshalTrade e.2), none))) ∧
    ((∀ e ∈ bk, (J.unmarshalCat e.2).isSome = true) →
      getCatLogsLoop J (Uint64ToBytes x) bk [] =
        (((bk.filter (fun e => decide (BytesToUint64 e.1 ≤ x))).filterMap
          (fun e => J.unmarshalCat e.2)).reverse, none) ∧
      (x - fromTime ≤ 86400000000000 → ∀ (trade : Bucket) (blk : Nat),
        GetCatLogs J { db := { tradelog := trade, catlog := bk }, block := blk } fromTime x =
          (((bk.filter (fun e =>
              decide (BytesToUint64 e.1 ≤ x) && decide (fromTime ≤ BytesToUint64 e.1))).filterMap
            (fun e => J.unmarshalCat e.2)).reverse, none))) ∧
    ((∀ e ∈ bk, (exportLine A e).isSome = true) →
      exportLoop A (Uint64ToBytes x) bk [] 0 =
        (fileLines ((bk.filter (fun e => decide (BytesToUint64 e.1 ≤ x))).filterMap
            (exportLine A)),
          (bk.filter (fun e => decide (BytesToUint64 e.1 ≤ x))).length % 2 ^ 64, none)) ∧
    pruneLoop (Uint64ToBytes x) bk bk 0 =
      ((bk.filter (fun e => decide (BytesToUint64 e.1 ≤ x))).foldl (fun b e => b.Delete e.1) bk,
        (bk.filter (fun e => decide (BytesToUint64 e.1 ≤ x))).length % 2 ^ 64) := by
  have htw := Bucket.takeWhile_keyLe hs hk hx
  simp only [Bucket.upTo] at htw
  refine ⟨bytesCompare_Uint64_le ha hb, bytesCompare_Uint64_lt ha hb,
    BytesToUint64_Uint64ToBytes ha, htw, Bucket.Seek_eq hs hk (lt_of_le_of_lt hfx hx),
    (hs.pairwise_lt hk).sublist (List.filter_sublist _), ?_, ?_, ?_, ?_, ?_⟩
  · intro hdec
    have hdec' : ∀ e ∈ bk, ∃ r, A.unmarshalObj e.2 = some r :=
      fun e he => Option.isSome_iff_exists.1 (hdec e he)
    refine ⟨?_, fun hw => ?_, analyticRecords_ascending A hs hk _⟩
    · rw [getPriceAnalyticLoop_eq A _ bk [] hdec', htw, List.nil_append]
    · exact GetPriceAnalyticData_entries A { priceAnalytic := bk } fromTime x hs hk hdec' hfx hx hw
  · intro hdec
    have hdec' : ∀ e ∈ bk, ∃ r, J.unmarshalTrade e.2 = some r :=
      fun e he => Option.isSome_iff_exists.1 (hdec e he)
    refine ⟨?_, fun hw cat blk => ?_⟩
    · rw [(getTradeLogsLoop_err J _ bk []).2 hdec', htw, List.nil_append]
    · exact GetTradeLogs_entries J { db := { tradelog := bk, catlog := cat }, block := blk }
        fromTime x hs hk hdec' hfx hx hw
  · intro hdec
    have hdec' : ∀ e ∈ bk, ∃ r, J.unmarshalCat e.2 = some r :=
      fun e he => Option.isSome_iff_exists.1 (hdec e he)
    refine ⟨?_, fun hw trade blk => ?_⟩
    · rw [getCatLogsLoop_eq J _ bk [] hdec', htw, List.append_nil]
    · exact GetCatLogs_entries J { db := { tradelog := trade, catlog := bk }, block := blk }
        fromTime x hs hk hdec' hfx hx hw
  · intro hdec
    have h := (exportLoop_of_lines A (Uint64ToBytes x) bk [] 0 (by norm_num)
      (fun e he => Option.isSome_iff_exists.1 (hdec e ((List.takeWhile_sublist _).subset he)))).1
    rw [htw] at h
    simpa using h
  · have h := pruneLoop_eq (Uint64ToBytes x) bk bk 0 (by norm_num)
    rw [htw] at h
    simpa using h

/-- C22 at a concrete input: 255 and 256, whose last bytes are in the opposite
order; the analytic store with records at 0 and at forty days, read from 0 to
5; and the bucket of three trade records at 3, 5 and 9, read from 4 to 9. -/
theorem C22_key_encoding_preserves_order_witness :
    (bytesCompare (Uint64ToBytes 255) (Uint64ToBytes 256) ≤ 0 ↔ 255 ≤ 256) ∧
    BytesToUint64 (Uint64ToBytes 255) = 255 ∧
    GetPriceAnalyticData wireAnalytic { priceAnalytic := analyticTwo.priceAnalytic } 0 5 =
      ((analyticTwo.priceAnalytic.filter (fun e =>
          decide (BytesToUint64 e.1 ≤ 5) && decide (0 ≤ BytesToUint64 e.1))).filterMap
        (analyticRecord wireAnalytic), none) ∧
    GetPriceAnalyticData wireAnalytic analyticTwo 0 5 = ([{ Timestamp := 0, Data := [1] }], none) ∧
    GetTradeLogs wireCodec
        { db := { tradelog := tradeThree.db.tradelog, catlog := [] }, block := 0 } 4 9 =
      ((tradeThree.db.tradelog.filter (fun e =>
          decide (BytesToUint64 e.1 ≤ 9) && decide (4 ≤ BytesToUint64 e.1))).filterMap
        (fun e => wireCodec.unmarshalTrade e.2), none) ∧
    (GetTradeLogs wireCodec tradeThree 4 9).1 = [tradeRec 5 1 0, tradeRec 9 2 0] :=
  ⟨(C22_key_encoding_preserves_order 255 256 (by decide) (by decide) wireCodec wireAnalytic
      analyticTwo.priceAnalytic 0 5 (by decide) (by decide) (by decide) (by decide)).1,
   (C22_key_encoding_preserves_order 255 256 (by decide) (by decide) wireCodec wireAnalytic
      analyticTwo.priceAnalytic 0 5 (by decide) (by decide) (by decide) (by decide)).2.2.1,
   ((C22_key_encoding_preserves_order 255 256 (by decide) (by decide) wireCodec wireAnalytic
      analyticTwo.priceAnalytic 0 5 (by decide) (by decide) (by decide)
      (by decide)).2.2.2.2.2.2.1 (by decide)).2.1 (by decide),
   by decide,
   ((C22_key_encoding_preserves_order 255 256 (by decide) (by decide) wireCodec wireAnalytic
      tradeThree.db.tradelog 4 9 (by decide) (by decide) (by decide)
      (by decide)).2.2.2.2.2.2.2.1 (by decide)).2 (by decide) [] 0,
   by decide⟩

end ReserveData
